import Mathlib

/-!
Formal verification of the MedGemma StructCore two-stage structured pipeline.

This file shallowly embeds the deterministic core of the repository:

* the KVT4 normalizer from kvt_utils.py (normalize_readmission_kvt4_lines),
* the Stage-2 sanitizer from scripts/run_two_stage_structured_pipeline.py
  (_sanitize_stage2_lines, _drop_hallucinated_negatives),
* the URL normalization from openai_compat.py (_normalize_urls),
* the rule-based readmission risk engine from
  Analysis_Readmission/readmission_risk_engine.py (parse_toon, the nine
  cluster scorers, detect_interactions, score, _logistic, _predict_survival).

Modelling conventions:
* Python strings are embedded as List Char (named Str below); all string
  operations are re-implemented structurally so that concrete inputs evaluate
  inside the kernel.  Python str.strip() is modelled as trimming Unicode
  whitespace via Char.isWhitespace; .casefold()/.lower() as ASCII lowercase
  (the data handled by the pipeline is ASCII).
* Python floats are embedded as rationals; the risk engine's real-valued
  probability/survival formulas are embedded over the reals.
* Regular expressions used by the code are hand-compiled to deterministic
  scanners; each scanner documents the regex it implements.
* The scoring-rule JSON bundles (scoring_rules.json, snomed_problem_groups,
  symptom_urgency_groups) are not part of the source tree; everything that
  depends on them is parameterized by an explicit rule-table structure that
  mirrors the fields the engine reads.
-/

namespace MedGemma

/-- Embedded Python string: a list of characters. -/
abbrev Str := List Char

/-- ASCII lowercase of one character (Python str.lower for the ASCII range). -/
def lowerChar (c : Char) : Char :=
  if 'A' ≤ c ∧ c ≤ 'Z' then Char.ofNat (c.toNat + 32) else c

/-- ASCII uppercase of one character (Python str.upper for the ASCII range). -/
def upperChar (c : Char) : Char :=
  if 'a' ≤ c ∧ c ≤ 'z' then Char.ofNat (c.toNat - 32) else c

/-- Python s.lower() / s.casefold() on ASCII data. -/
def lowerL (s : Str) : Str := s.map lowerChar

/-- Python s.upper() on ASCII data. -/
def upperL (s : Str) : Str := s.map upperChar

/-- Python s.strip(): drop leading and trailing whitespace. -/
def trimL (s : Str) : Str :=
  ((s.dropWhile Char.isWhitespace).reverse.dropWhile Char.isWhitespace).reverse

/-- Python s.strip(chars): drop leading and trailing characters from the set. -/
def stripSet (cs : List Char) (s : Str) : Str :=
  ((s.dropWhile (cs.contains ·)).reverse.dropWhile (cs.contains ·)).reverse

/-- Python s.split(sep) for a one-character separator (empty pieces kept). -/
def splitOnC (sep : Char) : Str → List Str
  | [] => [[]]
  | c :: cs =>
    if c = sep then [] :: splitOnC sep cs
    else
      match splitOnC sep cs with
      | h :: t => (c :: h) :: t
      | [] => [[c]]

/-- Python s.count(ch) for a single character. -/
def countC (ch : Char) (s : Str) : Nat := s.countP (· = ch)

/-- Python substring containment: needle in hay. -/
def containsSub (needle : Str) : Str → Bool
  | [] => needle.isEmpty
  | c :: cs => needle.isPrefixOf (c :: cs) || containsSub needle cs

/-- Python s.startswith(p). -/
def startsWithL (p s : Str) : Bool := p.isPrefixOf s

/-- Python s.endswith(p). -/
def endsWithL (p s : Str) : Bool := p.reverse.isPrefixOf s.reverse

/-- Python s.replace(old, new) (left-to-right, non-overlapping), via fuel on
the scanned string so that the definition stays structural. -/
def replaceFuel (old new : Str) : Nat → Str → Str
  | 0, s => s
  | _ + 1, [] => []
  | fuel + 1, c :: cs =>
    if old ≠ [] ∧ old.isPrefixOf (c :: cs) then
      new ++ replaceFuel old new fuel ((c :: cs).drop old.length)
    else
      c :: replaceFuel old new fuel cs

/-- Python s.replace(old, new). -/
def replaceL (old new s : Str) : Str := replaceFuel old new s.length s

theorem dropWhile_length_le {α : Type} (p : α → Bool) (l : List α) :
    (l.dropWhile p).length ≤ l.length := by
  induction l with
  | nil => simp [List.dropWhile]
  | cons c cs ih =>
    simp only [List.dropWhile]
    split
    · exact ih.trans (Nat.le_succ _)
    · exact Nat.le_refl _

/-- Helper for collapseWs: the flag records whether the previous character was
whitespace (so a run contributes a single space). -/
def collapseWsGo : Bool → Str → Str
  | _, [] => []
  | prevWs, c :: cs =>
    if c.isWhitespace then
      if prevWs then collapseWsGo true cs else ' ' :: collapseWsGo true cs
    else c :: collapseWsGo false cs

/-- Collapse whitespace runs to one space: Python re.sub(r"\s+", " ", s). -/
def collapseWs (s : Str) : Str := collapseWsGo false s

/-- Lexicographic strict comparison of embedded strings by code point
(Python string <). -/
def ltL : Str → Str → Bool
  | [], [] => false
  | [], _ :: _ => true
  | _ :: _, [] => false
  | a :: as_, b :: bs =>
    if a < b then true else if b < a then false else ltL as_ bs

/-- Association-list lookup (Python dict.get). -/
def aGet? {α : Type} (m : List (Str × α)) (k : Str) : Option α :=
  (m.find? (fun e => e.1 = k)).map (·.2)

/-- Association-list lookup with default (Python dict.get(k, d)). -/
def aGetD {α : Type} (m : List (Str × α)) (k : Str) (d : α) : α :=
  (aGet? m k).getD d

/-- Stable insertion of x after all elements not strictly greater than it
(used to model Python's stable list.sort). -/
def insStable {α : Type} (le : α → α → Bool) (x : α) : List α → List α
  | [] => [x]
  | y :: ys => if le x y && !le y x then x :: y :: ys else y :: insStable le x ys

/-- Stable sort (Python list.sort with a key): left fold of stable insertion. -/
def sortStable {α : Type} (le : α → α → Bool) (xs : List α) : List α :=
  xs.foldl (fun acc x => insStable le x acc) []

theorem insStable_perm {α : Type} (le : α → α → Bool) (x : α) (l : List α) :
    List.Perm (insStable le x l) (x :: l) := by
  induction l with
  | nil => simp [insStable]
  | cons y ys ih =>
    by_cases h : (le x y && !le y x) = true
    · simp [insStable, h]
    · simp only [insStable, Bool.not_eq_true] at h ⊢
      rw [h]
      exact ((ih.cons y).trans (List.Perm.swap x y ys))

theorem sortStable_perm {α : Type} (le : α → α → Bool) (xs : List α) :
    List.Perm (sortStable le xs) xs := by
  suffices h : ∀ acc : List α,
      List.Perm (xs.foldl (fun acc x => insStable le x acc) acc) (acc ++ xs) by
    simpa [sortStable] using h []
  induction xs with
  | nil => intro acc; simp
  | cons x xs ih =>
    intro acc
    simp only [List.foldl_cons]
    refine (ih (insStable le x acc)).trans ?_
    refine (List.Perm.append_right xs ((insStable_perm le x acc))).trans ?_
    exact (List.perm_middle).symm

end MedGemma

namespace MedGemma

/-- A KVT4 record: (cluster, keyword, value, timestamp). -/
structure KVT where
  cluster : Str
  keyword : Str
  value : Str
  timestamp : Str
deriving DecidableEq, Repr

/-- Membership of an embedded string in a list of literal strings. -/
def strMem (s : Str) (l : List String) : Bool := l.any (fun x => x.toList = s)

/-- CANONICAL_VITALS from kvt_utils.py. -/
def canonicalVitals : List String :=
  ["Heart Rate", "Systolic BP", "Diastolic BP", "Respiratory Rate",
   "Temperature", "SpO2", "Weight"]

/-- CANONICAL_LABS from kvt_utils.py. -/
def canonicalLabs : List String :=
  ["Hemoglobin", "Hematocrit", "WBC", "Platelet", "Sodium", "Potassium",
   "Creatinine", "BUN", "Glucose", "Bicarbonate"]

/-- CANONICAL_DEMOGRAPHICS from kvt_utils.py. -/
def canonicalDemographics : List String := ["Age", "Sex"]

/-- Utilization keyword set used across kvt_utils.py. -/
def utilizationKeywords : List String :=
  ["Prior Admissions 12mo", "ED Visits 6mo", "Days Since Last Admission",
   "Current Length of Stay"]

/-- Disposition keyword set used across kvt_utils.py. -/
def dispositionKeywords : List String := ["Discharge Disposition", "Mental Status"]

/-- Procedures keyword set used across kvt_utils.py. -/
def proceduresKeywords : List String :=
  ["Any Procedure", "Surgery", "Dialysis", "Mechanical Ventilation"]

/-- Medications keyword set used across kvt_utils.py. -/
def medicationsKeywords : List String :=
  ["Medication Count", "New Medications Count", "Polypharmacy", "Anticoagulation",
   "Insulin Therapy", "Opioid Therapy", "Diuretic Therapy"]

/-- READMISSION_CLUSTERS from kvt_utils.py. -/
def readmissionClusters : List String :=
  ["DEMOGRAPHICS", "VITALS", "LABS", "PROBLEMS", "SYMPTOMS", "MEDICATIONS",
   "PROCEDURES", "UTILIZATION", "DISPOSITION"]

/-- STRICT_KEYWORDS_READMISSION from kvt_utils.py: the per-cluster canonical
keyword whitelists (PROBLEMS/SYMPTOMS are open-vocabulary and absent). -/
def strictClusterKeywords (c : Str) : Option (List String) :=
  if c = "DEMOGRAPHICS".toList then some canonicalDemographics
  else if c = "VITALS".toList then some canonicalVitals
  else if c = "LABS".toList then some canonicalLabs
  else if c = "MEDICATIONS".toList then some medicationsKeywords
  else if c = "PROCEDURES".toList then some proceduresKeywords
  else if c = "UTILIZATION".toList then some utilizationKeywords
  else if c = "DISPOSITION".toList then some dispositionKeywords
  else none

/-- kvt_utils._infer_cluster_from_keyword: canonical keyword → cluster name. -/
def inferClusterFromKeyword (keyword : Str) : Str :=
  let k := trimL keyword
  if k = [] then []
  else if strMem k canonicalVitals then "VITALS".toList
  else if strMem k canonicalLabs then "LABS".toList
  else if strMem k canonicalDemographics then "DEMOGRAPHICS".toList
  else if strMem k utilizationKeywords then "UTILIZATION".toList
  else if strMem k dispositionKeywords then "DISPOSITION".toList
  else if strMem k proceduresKeywords then "PROCEDURES".toList
  else if strMem k medicationsKeywords then "MEDICATIONS".toList
  else []

/-- Match of an unsigned number token \d+(\.\d+)? anchored at the start of s,
returning (token, rest of the string).  Greedy digit runs need no
backtracking for this pattern. -/
def numTokAt (s : Str) : Option (Str × Str) :=
  let d1 := s.takeWhile Char.isDigit
  let r := s.dropWhile Char.isDigit
  if d1 = [] then none
  else if r.head? = some '.' then
    let d2 := r.tail.takeWhile Char.isDigit
    if d2 = [] then some (d1, r)
    else some (d1 ++ '.' :: d2, r.tail.dropWhile Char.isDigit)
  else some (d1, r)

/-- Match of the regex -?\d+(\.\d+)? anchored at the start of s (the number
token, or none). -/
def numMatchAt (s : Str) : Option Str :=
  if s.head? = some '-' then (numTokAt s.tail).map (fun p => '-' :: p.1)
  else (numTokAt s).map (fun p => p.1)

/-- kvt_utils normalize_readmission_kvt4_lines._first_number:
re.search(r"-?\d+(?:\.\d+)?", value), i.e. the match at the leftmost
position where the number pattern matches. -/
def firstNumTok : Str → Option Str
  | [] => none
  | c :: cs =>
    match numMatchAt (c :: cs) with
    | some m => some m
    | none => firstNumTok cs

/-- Match of the blood-pressure regex (\d+(?:\.\d+)?)\s*/\s*(\d+(?:\.\d+)?)
anchored at the start of s, returning the two captured number tokens. -/
def bpMatchAt (s : Str) : Option (Str × Str) :=
  (numTokAt s).bind (fun p =>
    if (p.2.dropWhile Char.isWhitespace).head? = some '/' then
      (numTokAt ((p.2.dropWhile Char.isWhitespace).tail.dropWhile Char.isWhitespace)).map
        (fun q => (p.1, q.1))
    else none)

/-- re.search of the blood-pressure regex: leftmost match. -/
def bpSearch : Str → Option (Str × Str)
  | [] => none
  | c :: cs =>
    match bpMatchAt (c :: cs) with
    | some m => some m
    | none => bpSearch cs

/-- kvt_utils normalize_readmission_kvt4_lines._normalize_timestamp. -/
def normTs (t : Str) : Str :=
  let tt := trimL t
  if tt = [] then "Unknown".toList
  else if strMem tt ["Admission", "Discharge", "Past", "Unknown"] then tt
  else if lowerL tt = "adm".toList then "Admission".toList
  else if lowerL tt = "dc".toList then "Discharge".toList
  else "Unknown".toList

/-- kvt_utils normalize_readmission_kvt4_lines._fill_unknown_timestamp. -/
def fillUnknownTs (cluster _keyword value : Str) : Str :=
  let c := upperL (trimL cluster)
  let v := lowerL (trimL value)
  if c = "DISPOSITION".toList then "Discharge".toList
  else if c = "UTILIZATION".toList then "Past".toList
  else if c = "PROBLEMS".toList then
    (if v = "acute".toList then "Discharge".toList
     else if v = "chronic".toList then "Past".toList
     else "Past".toList)
  else if strMem c ["DEMOGRAPHICS", "VITALS", "LABS", "SYMPTOMS", "MEDICATIONS",
                    "PROCEDURES"] then "Admission".toList
  else "Admission".toList

/-- Association list from a list of literal string pairs. -/
def aliasMap (l : List (String × String)) : List (Str × Str) :=
  l.map (fun p => (p.1.toList, p.2.toList))

/-- vital_alias from normalize_readmission_kvt4_lines. -/
def vitalAlias : List (Str × Str) := aliasMap
  [("HR", "Heart Rate"), ("Pulse", "Heart Rate"), ("Temp", "Temperature"),
   ("O2 Sat", "SpO2"), ("Oxygen Saturation", "SpO2"), ("SpO2", "SpO2"),
   ("Resp", "Respiratory Rate"), ("RR", "Respiratory Rate"),
   ("Blood Pressure", "Blood Pressure"), ("BP", "Blood Pressure"),
   ("Systolic", "Systolic BP"), ("Diastolic", "Diastolic BP"),
   ("SBP", "Systolic BP"), ("DBP", "Diastolic BP")]

/-- lab_alias from normalize_readmission_kvt4_lines. -/
def labAlias : List (Str × Str) := aliasMap
  [("Hgb", "Hemoglobin"), ("Hct", "Hematocrit"), ("Plt", "Platelet"),
   ("Platelets", "Platelet"), ("Na", "Sodium"), ("K", "Potassium"),
   ("Cr", "Creatinine"), ("HCO3", "Bicarbonate"), ("Bicarb", "Bicarbonate"),
   ("WBC", "WBC"), ("BUN", "BUN")]

/-- sex_alias from normalize_readmission_kvt4_lines. -/
def sexAlias : List (Str × Str) := aliasMap
  [("m", "male"), ("male", "male"), ("f", "female"), ("female", "female")]

/-- Leading markdown bullet removal: re.sub(r"^[-*•]\s+", "", s). -/
def stripBullet (s : Str) : Str :=
  match s with
  | c :: c2 :: rest =>
    if (c = '-' ∨ c = '*' ∨ c = '•') ∧ c2.isWhitespace then
      (c2 :: rest).dropWhile Char.isWhitespace
    else s
  | _ => s

/-- The 4-field case of _parse_line (pipe count 3): the trimmed pieces. -/
def parse4Fields : List Str → Option KVT
  | [c, k, v, t] =>
    if c = [] ∨ k = [] ∨ v = [] then none
    else some ⟨c, k, v, if t = [] then "Unknown".toList else t⟩
  | _ => none

/-- The 3-field case of _parse_line (pipe count 2): either
CLUSTER|Keyword|Value (missing timestamp) or Keyword|Value|Timestamp
(missing cluster, inferred from the keyword). -/
def parse3Fields : List Str → Option KVT
  | [a, b, c] =>
    if a = [] ∨ b = [] ∨ c = [] then none
    else
      if strMem (upperL (trimL (stripSet ['*', '<', '>'] (trimL a)))) readmissionClusters then
        some ⟨upperL (trimL (stripSet ['*', '<', '>'] (trimL a))), b, c, "Unknown".toList⟩
      else
        if inferClusterFromKeyword a = [] then none
        else some ⟨inferClusterFromKeyword a, a, b, if c = [] then "Unknown".toList else c⟩
  | _ => none

/-- kvt_utils normalize_readmission_kvt4_lines._parse_line on the stripped,
bullet-free line. -/
def parseKvtCore (s : Str) : Option KVT :=
  if s = [] then none
  else if countC '|' s = 3 then parse4Fields ((splitOnC '|' s).map trimL)
  else if countC '|' s = 2 then parse3Fields ((splitOnC '|' s).map trimL)
  else none

/-- kvt_utils normalize_readmission_kvt4_lines._parse_line. -/
def parseKvtLine (line : Str) : Option KVT :=
  parseKvtCore (trimL (stripBullet (trimL line)))

/-- Outcome of the per-cluster value normalization inside
normalize_readmission_kvt4_lines: drop the record, expand a blood-pressure
pair, or keep with a (possibly rewritten) keyword and value. -/
inductive NormOut
  | drop
  | bp (sbp dbp : Str)
  | keep (k v : Str)
deriving DecidableEq, Repr

/-- DEMOGRAPHICS branch of the first-pass normalization. -/
def normDemoC (kNorm vNorm : Str) : NormOut :=
  if kNorm = "Sex".toList then
    (aGet? sexAlias (lowerL (trimL vNorm))).elim .drop (fun vv => .keep kNorm vv)
  else if kNorm = "Age".toList then
    (firstNumTok vNorm).elim .drop (fun n => .keep kNorm n)
  else .keep kNorm vNorm

/-- VITALS branch of the first-pass normalization (keyword aliasing, the
Blood Pressure pair expansion, numeric-only enforcement). -/
def normVitalsC (kNorm vNorm : Str) : NormOut :=
  if aGetD vitalAlias kNorm kNorm = "Blood Pressure".toList then
    (bpSearch vNorm).elim .drop (fun p => .bp p.1 p.2)
  else
    (firstNumTok vNorm).elim .drop (fun n => .keep (aGetD vitalAlias kNorm kNorm) n)

/-- LABS branch of the first-pass normalization. -/
def normLabsC (kNorm vNorm : Str) : NormOut :=
  (firstNumTok vNorm).elim .drop (fun n => .keep (aGetD labAlias kNorm kNorm) n)

/-- UTILIZATION branch of the first-pass normalization. -/
def normUtilC (kNorm vNorm : Str) : NormOut :=
  (firstNumTok vNorm).elim .drop (fun n => .keep kNorm n)

/-- MEDICATIONS branch of the first-pass normalization. -/
def normMedsC (kNorm vNorm : Str) : NormOut :=
  if strMem kNorm ["Medication Count", "New Medications Count"] then
    (firstNumTok vNorm).elim .drop (fun n => .keep kNorm n)
  else if strMem kNorm ["Polypharmacy", "Anticoagulation", "Insulin Therapy",
                        "Opioid Therapy", "Diuretic Therapy"] then
    if strMem (lowerL (trimL vNorm)) ["yes", "y", "true", "1"] then
      .keep kNorm "yes".toList
    else if strMem (lowerL (trimL vNorm)) ["no", "n", "false", "0"] then
      .keep kNorm "no".toList
    else .drop
  else .keep kNorm vNorm

/-- PROCEDURES branch of the first-pass normalization. -/
def normProcC (kNorm vNorm : Str) : NormOut :=
  if kNorm = "Dialysis".toList then
    if strMem (replaceL "canceled".toList "cancelled".toList (lowerL (trimL vNorm)))
        ["decided", "started", "done", "cancelled", "no"] then
      .keep kNorm (replaceL "canceled".toList "cancelled".toList (lowerL (trimL vNorm)))
    else if strMem (replaceL "canceled".toList "cancelled".toList (lowerL (trimL vNorm)))
        ["yes", "y", "true", "1", "performed", "present", "active", "positive"] then
      .keep kNorm "decided".toList
    else if strMem (replaceL "canceled".toList "cancelled".toList (lowerL (trimL vNorm)))
        ["n", "false", "0", "absent", "negative", "none"] then
      .keep kNorm "no".toList
    else .drop
  else if kNorm = "Mechanical Ventilation".toList then
    if lowerL (trimL vNorm) = "no".toList then .keep kNorm "no".toList
    else (firstNumTok vNorm).elim (.keep kNorm "yes".toList) (fun n => .keep kNorm n)
  else if strMem kNorm ["Any Procedure", "Surgery"] then
    if strMem (lowerL (trimL vNorm)) ["yes", "y", "true", "1", "performed", "done",
        "started", "present"] then .keep kNorm "yes".toList
    else if strMem (lowerL (trimL vNorm)) ["no", "n", "false", "0", "absent",
        "not performed", "cancelled"] then .keep kNorm "no".toList
    else .drop
  else
    if strMem (lowerL (trimL vNorm)) ["yes", "y", "true", "1", "performed", "done",
        "started", "present"] then .keep kNorm "yes".toList
    else if strMem (lowerL (trimL vNorm)) ["no", "n", "false", "0", "absent",
        "not performed", "cancelled"] then .keep kNorm "no".toList
    else .drop

/-- DISPOSITION branch of the first-pass normalization. -/
def normDispC (kNorm vNorm : Str) : NormOut :=
  if kNorm = "Discharge Disposition".toList then
    if containsSub "home with".toList (lowerL (trimL vNorm)) ||
       containsSub "home w".toList (lowerL (trimL vNorm)) ||
       containsSub "services".toList (lowerL (trimL vNorm)) then
      .keep kNorm "Home with Services".toList
    else if lowerL (trimL vNorm) = "home".toList ||
        startsWithL "home ".toList (lowerL (trimL vNorm)) then
      .keep kNorm "Home".toList
    else if containsSub "snf".toList (lowerL (trimL vNorm)) ||
        containsSub "skilled nursing".toList (lowerL (trimL vNorm)) then
      .keep kNorm "SNF".toList
    else if containsSub "rehab".toList (lowerL (trimL vNorm)) then
      .keep kNorm "Rehab".toList
    else if containsSub "ltac".toList (lowerL (trimL vNorm)) then
      .keep kNorm "LTAC".toList
    else if containsSub "hospice".toList (lowerL (trimL vNorm)) then
      .keep kNorm "Hospice".toList
    else if containsSub "ama".toList (lowerL (trimL vNorm)) ||
        containsSub "against medical advice".toList (lowerL (trimL vNorm)) then
      .keep kNorm "AMA".toList
    else .drop
  else if kNorm = "Mental Status".toList then
    if containsSub "confus".toList (lowerL (trimL vNorm)) then
      .keep kNorm "confused".toList
    else if containsSub "letharg".toList (lowerL (trimL vNorm)) then
      .keep kNorm "lethargic".toList
    else if containsSub "alert".toList (lowerL (trimL vNorm)) then
      .keep kNorm "alert".toList
    else if containsSub "orient".toList (lowerL (trimL vNorm)) then
      .keep kNorm "oriented".toList
    else .drop
  else .keep kNorm vNorm

/-- PROBLEMS branch of the first-pass normalization. -/
def normProbC (kNorm vNorm : Str) : NormOut :=
  if strMem (collapseWs (lowerL (trimL vNorm)))
      ["chronic", "acute", "exist", "not exist"] then
    .keep kNorm (collapseWs (lowerL (trimL vNorm)))
  else if strMem (collapseWs (lowerL (trimL vNorm)))
      ["past", "history", "historical", "pmh", "chronic condition",
       "chronic disease"] then .keep kNorm "chronic".toList
  else if strMem (collapseWs (lowerL (trimL vNorm)))
      ["discharge", "discharged", "active", "current"] then
    .keep kNorm "acute".toList
  else if strMem (collapseWs (lowerL (trimL vNorm)))
      ["present", "yes", "true", "1", "positive", "confirmed", "exists"] then
    .keep kNorm "exist".toList
  else if strMem (collapseWs (lowerL (trimL vNorm)))
      ["no", "none", "false", "0", "absent", "negative", "not present",
       "ruled out"] then .keep kNorm "not exist".toList
  else .drop

/-- SYMPTOMS branch of the first-pass normalization. -/
def normSympC (kNorm vNorm : Str) : NormOut :=
  if strMem (collapseWs (lowerL (trimL vNorm))) ["yes", "no", "severe"] then
    .keep kNorm (collapseWs (lowerL (trimL vNorm)))
  else if strMem (collapseWs (lowerL (trimL vNorm)))
      ["present", "positive", "true", "1", "y", "symptomatic"] then
    .keep kNorm "yes".toList
  else if strMem (collapseWs (lowerL (trimL vNorm)))
      ["none", "absent", "negative", "false", "0", "n", "denied", "denies"] then
    .keep kNorm "no".toList
  else if containsSub "severe".toList (collapseWs (lowerL (trimL vNorm))) ||
      strMem (collapseWs (lowerL (trimL vNorm))) ["marked", "significant"] then
    .keep kNorm "severe".toList
  else .drop

/-- The cluster-specific normalization block of
normalize_readmission_kvt4_lines (first pass), given the upper-cased cluster,
the stripped keyword and the stripped value. -/
def clusterNormalize (cUp kNorm vNorm : Str) : NormOut :=
  if cUp = "DEMOGRAPHICS".toList then normDemoC kNorm vNorm
  else if cUp = "VITALS".toList then normVitalsC kNorm vNorm
  else if cUp = "LABS".toList then normLabsC kNorm vNorm
  else if cUp = "UTILIZATION".toList then normUtilC kNorm vNorm
  else if cUp = "MEDICATIONS".toList then normMedsC kNorm vNorm
  else if cUp = "PROCEDURES".toList then normProcC kNorm vNorm
  else if cUp = "DISPOSITION".toList then normDispC kNorm vNorm
  else if cUp = "PROBLEMS".toList then normProbC kNorm vNorm
  else if cUp = "SYMPTOMS".toList then normSympC kNorm vNorm
  else .keep kNorm vNorm

/-- The strict-keyword gate of normalize_readmission_kvt4_lines: a record in
an objective cluster survives only with a canonical keyword. -/
def keepStrictOK (cUp k2 : Str) : Bool :=
  (strictClusterKeywords cUp).elim true (fun kws => strMem k2 kws)

/-- The records a single normalization outcome contributes (strict-keyword
gate and unknown-timestamp fill applied to kept records; blood-pressure
expansion bypasses both, as in the source where it appends and continues). -/
def normStepOut (fillUnk : Bool) (cUp tN : Str) : NormOut → List KVT
  | .drop => []
  | .bp sbp dbp =>
    [⟨"VITALS".toList, "Systolic BP".toList, sbp, tN⟩,
     ⟨"VITALS".toList, "Diastolic BP".toList, dbp, tN⟩]
  | .keep k2 v2 =>
    if keepStrictOK cUp k2 then
      [⟨cUp, k2, v2,
        if fillUnk ∧ tN = "Unknown".toList then fillUnknownTs cUp k2 v2 else tN⟩]
    else []

/-- One iteration of the first pass of normalize_readmission_kvt4_lines: the
records (0, 1 or 2) a single input line contributes to normalized_candidates.
The environment defaults are modelled: MEDGEMMA_ALLOWED_CLUSTERS unset and
MEDGEMMA_TIMESTAMP_FILL_UNKNOWN given by the fillUnk flag (code default: on). -/
def normStep (fillUnk : Bool) (line : Str) : List KVT :=
  (parseKvtLine line).elim [] (fun r =>
    if strMem (trimL r.value) ["___", "__", "_", "N/A", "NA", "null", "None"] then []
    else
      normStepOut fillUnk (upperL (trimL (stripSet ['*', '<', '>'] (trimL r.cluster))))
        (normTs r.timestamp)
        (clusterNormalize (upperL (trimL (stripSet ['*', '<', '>'] (trimL r.cluster))))
          (trimL r.keyword) (trimL r.value)))

/-- All normalized candidates of the first pass, in input order. -/
def normCandidates (fillUnk : Bool) (lines : List Str) : List KVT :=
  lines.flatMap (normStep fillUnk)

/-- The dedup rank of a timestamp under the default priority env
MEDGEMMA_TIMESTAMP_PRIORITY = "Discharge,Admission,Past,Unknown"
(lower rank wins; unknown strings rank 999). -/
def tsRankN (t : Str) : Nat :=
  if t = "Discharge".toList then 0
  else if t = "Admission".toList then 1
  else if t = "Past".toList then 2
  else if t = "Unknown".toList then 3
  else 999

/-- Dedup key: (cluster, keyword). -/
def kvtKey (r : KVT) : Str × Str := (r.cluster, r.keyword)

/-- One step of the second (dedup) pass: the best dict keyed by
(cluster, keyword); a strictly better timestamp rank replaces in place. -/
def bestInsert (m : List KVT) (r : KVT) : List KVT :=
  match m.find? (fun e => decide (kvtKey e = kvtKey r)) with
  | none => m ++ [r]
  | some prev =>
    if tsRankN r.timestamp < tsRankN prev.timestamp then
      m.map (fun e => if kvtKey e = kvtKey r then r else e)
    else m

/-- The full dedup pass over the candidate list. -/
def dedupBest (cands : List KVT) : List KVT := cands.foldl bestInsert []

/-- The output ordering of normalize_readmission_kvt4_lines:
out_lines.sort(key=(cluster, keyword)), on records. -/
def kvtLe (a b : KVT) : Bool :=
  ltL a.cluster b.cluster ||
    (decide (a.cluster = b.cluster) &&
      (ltL a.keyword b.keyword || decide (a.keyword = b.keyword)))

/-- kvt_utils.normalize_readmission_kvt4_lines at the record level: first-pass
normalization, timestamp-priority dedup, stable sort by (cluster, keyword).
The stats dict of the source (metrics only) is not modelled. -/
def normalizeRecs (fillUnk : Bool) (lines : List Str) : List KVT :=
  sortStable kvtLe (dedupBest (normCandidates fillUnk lines))

/-- Rendering of a record back to a KVT4 line. -/
def renderKvt (r : KVT) : Str :=
  r.cluster ++ '|' :: r.keyword ++ '|' :: r.value ++ '|' :: r.timestamp

/-- kvt_utils.normalize_readmission_kvt4_lines: the normalized output lines. -/
def normalizeKvt4Lines (fillUnk : Bool) (lines : List Str) : List Str :=
  (normalizeRecs fillUnk lines).map renderKvt

end MedGemma

namespace MedGemma

/-- Full match of the anchored numeric regex \d+(\.\d+)? (unsigned). -/
def isUNumTok (s : Str) : Bool :=
  let d1 := s.takeWhile Char.isDigit
  let r := s.dropWhile Char.isDigit
  decide (d1 ≠ []) &&
    (decide (r = []) ||
      (decide (r.head? = some '.') && decide (r.tail ≠ []) && r.tail.all Char.isDigit))

/-- Full match of the anchored numeric regex -?\d+(\.\d+)?\, i.e. the pattern
_NUM_RE of the pipeline and the numeric-purity regex of the spec. -/
def isNumOnly (s : Str) : Bool :=
  if s.head? = some '-' then isUNumTok s.tail else isUNumTok s

theorem takeWhile_append_of_all {α : Type} (p : α → Bool) {a : List α} (b : List α)
    (ha : ∀ c ∈ a, p c = true) :
    (a ++ b).takeWhile p = a ++ b.takeWhile p := by
  induction a with
  | nil => simp
  | cons x xs ih =>
    have hx := ha x (List.mem_cons_self _ _)
    simp only [List.cons_append, List.takeWhile_cons, hx, if_true]
    rw [ih (fun c hc => ha c (List.mem_cons_of_mem _ hc))]

theorem dropWhile_append_of_all {α : Type} (p : α → Bool) {a : List α} (b : List α)
    (ha : ∀ c ∈ a, p c = true) :
    (a ++ b).dropWhile p = b.dropWhile p := by
  induction a with
  | nil => simp
  | cons x xs ih =>
    have hx := ha x (List.mem_cons_self _ _)
    simp only [List.cons_append, List.dropWhile_cons, hx, if_true]
    exact ih (fun c hc => ha c (List.mem_cons_of_mem _ hc))

theorem takeWhile_eq_self_of_all {α : Type} (p : α → Bool) {a : List α}
    (ha : ∀ c ∈ a, p c = true) : a.takeWhile p = a := by
  induction a with
  | nil => simp
  | cons x xs ih =>
    simp only [List.takeWhile_cons, ha x (List.mem_cons_self _ _), if_true]
    rw [ih (fun c hc => ha c (List.mem_cons_of_mem _ hc))]

theorem dropWhile_eq_nil_of_all {α : Type} (p : α → Bool) {a : List α}
    (ha : ∀ c ∈ a, p c = true) : a.dropWhile p = [] := by
  induction a with
  | nil => simp
  | cons x xs ih =>
    simp only [List.dropWhile_cons, ha x (List.mem_cons_self _ _), if_true]
    exact ih (fun c hc => ha c (List.mem_cons_of_mem _ hc))

theorem dropWhile_eq_self_of_head {α : Type} (p : α → Bool) :
    ∀ a : List α, (∀ x l, a = x :: l → p x = false) → a.dropWhile p = a := by
  intro a h
  cases a with
  | nil => simp
  | cons x l =>
    simp only [List.dropWhile_cons, h x l rfl]
    simp

/-- A string whose characters are all non-whitespace is its own strip. -/
theorem trimL_eq_self_of_no_ws {a : Str} (ha : ∀ c ∈ a, c.isWhitespace = false) :
    trimL a = a := by
  unfold trimL
  have h1 : a.dropWhile Char.isWhitespace = a := by
    apply dropWhile_eq_self_of_head
    intro x l hxl
    exact ha x (hxl ▸ List.mem_cons_self _ _)
  rw [h1]
  have h2 : a.reverse.dropWhile Char.isWhitespace = a.reverse := by
    apply dropWhile_eq_self_of_head
    intro x l hxl
    have : x ∈ a.reverse := hxl ▸ List.mem_cons_self _ _
    exact ha x (List.mem_reverse.mp this)
  rw [h2, List.reverse_reverse]

/-- Splitting an append whose left part is separator-free peels off one piece. -/
theorem splitOnC_append_sep {sep : Char} {a : Str} (r : Str)
    (ha : ∀ c ∈ a, c ≠ sep) :
    splitOnC sep (a ++ sep :: r) = a :: splitOnC sep r := by
  induction a with
  | nil => simp [splitOnC]
  | cons x xs ih =>
    have hx : ¬ x = sep := ha x (List.mem_cons_self _ _)
    have ih' := ih (fun c hc => ha c (List.mem_cons_of_mem _ hc))
    simp only [List.cons_append, splitOnC, hx, if_false, List.append_eq, ih']

/-- Splitting a separator-free string yields a single piece. -/
theorem splitOnC_eq_single {sep : Char} {a : Str} (ha : ∀ c ∈ a, c ≠ sep) :
    splitOnC sep a = [a] := by
  induction a with
  | nil => rfl
  | cons x xs ih =>
    have hx : ¬ x = sep := ha x (List.mem_cons_self _ _)
    have ih' := ih (fun c hc => ha c (List.mem_cons_of_mem _ hc))
    simp only [splitOnC, hx, if_false, ih']

theorem countC_append (ch : Char) (a b : Str) :
    countC ch (a ++ b) = countC ch a + countC ch b := by
  simp [countC, List.countP_append]

theorem countC_eq_zero_of_all {ch : Char} {a : Str} (ha : ∀ c ∈ a, c ≠ ch) :
    countC ch a = 0 := by
  simp only [countC, List.countP_eq_zero]
  intro c hc
  simpa using ha c hc

end MedGemma

namespace MedGemma

/-- Characterization of an unsigned numeric token: either a nonempty digit
string, or digits, a dot, and more digits. -/
theorem isUNumTok_spec {s : Str} (h : isUNumTok s = true) :
    (s ≠ [] ∧ ∀ c ∈ s, c.isDigit = true) ∨
    (∃ d1 d2, s = d1 ++ '.' :: d2 ∧ d1 ≠ [] ∧ d2 ≠ [] ∧
      (∀ c ∈ d1, c.isDigit = true) ∧ (∀ c ∈ d2, c.isDigit = true)) := by
  unfold isUNumTok at h
  simp only [Bool.and_eq_true, Bool.or_eq_true, decide_eq_true_eq] at h
  obtain ⟨h1, h2⟩ := h
  have hsplit := List.takeWhile_append_dropWhile (p := Char.isDigit) (l := s)
  rcases h2 with h2 | h2
  · left
    constructor
    · intro hs; rw [hs] at h1; simp at h1
    · intro c hc
      rw [← hsplit, h2, List.append_nil] at hc
      exact List.mem_takeWhile_imp hc
  · right
    obtain ⟨⟨hh, ht⟩, hall⟩ := h2
    have hkeep : ∀ c' ∈ s.takeWhile Char.isDigit, c'.isDigit = true := by
      intro c' hc'; exact List.mem_takeWhile_imp hc'
    have hmem : '.' ∈ (s.dropWhile Char.isDigit).head? := Option.mem_def.mpr hh
    have hr := List.cons_head?_tail hmem
    refine ⟨s.takeWhile Char.isDigit, (s.dropWhile Char.isDigit).tail, ?_, h1, ht,
      hkeep, ?_⟩
    · have hjoin : s.takeWhile Char.isDigit ++ '.' :: (s.dropWhile Char.isDigit).tail
          = s.takeWhile Char.isDigit ++ s.dropWhile Char.isDigit := by rw [hr]
      exact (hjoin.trans hsplit).symm
    · intro c' hc'
      exact List.all_eq_true.mp hall c' hc'

/-- Every character of an unsigned numeric token is a digit or the dot. -/
theorem isUNumTok_chars {s : Str} (h : isUNumTok s = true) :
    ∀ c ∈ s, c.isDigit = true ∨ c = '.' := by
  rcases isUNumTok_spec h with ⟨_, hall⟩ | ⟨d1, d2, hs, _, _, h1, h2⟩
  · intro c hc; exact Or.inl (hall c hc)
  · intro c hc
    rw [hs] at hc
    rcases List.mem_append.mp hc with hc | hc
    · exact Or.inl (h1 c hc)
    · rcases List.mem_cons.mp hc with hc | hc
      · exact Or.inr hc
      · exact Or.inl (h2 c hc)

/-- An unsigned numeric token is nonempty and starts with a digit. -/
theorem isUNumTok_head {s : Str} (h : isUNumTok s = true) :
    ∃ c cs, s = c :: cs ∧ c.isDigit = true := by
  rcases isUNumTok_spec h with ⟨hne, hall⟩ | ⟨d1, d2, hs, hd1, _, h1, _⟩
  · rcases s with _ | ⟨c, cs⟩
    · exact absurd rfl hne
    · exact ⟨c, cs, rfl, hall c (List.mem_cons_self _ _)⟩
  · rcases d1 with _ | ⟨c, cs⟩
    · exact absurd rfl hd1
    · exact ⟨c, cs ++ '.' :: d2, by simpa using hs, h1 c (List.mem_cons_self _ _)⟩

/-- Anchored unsigned-number match on token ++ '/' :: xs returns exactly the
token: the slash stops both the digit run and the optional fraction. -/
theorem numTokAt_append_slash {t : Str} (xs : Str) (h : isUNumTok t = true) :
    numTokAt (t ++ '/' :: xs) = some (t, '/' :: xs) := by
  rcases isUNumTok_spec h with ⟨hne, hall⟩ | ⟨d1, d2, hs, hd1, hd2, h1, h2⟩
  · have htake : (t ++ '/' :: xs).takeWhile Char.isDigit = t := by
      rw [takeWhile_append_of_all _ _ hall]
      simp [List.takeWhile_cons]
    have hdrop : (t ++ '/' :: xs).dropWhile Char.isDigit = '/' :: xs := by
      rw [dropWhile_append_of_all _ _ hall]
      simp [List.dropWhile_cons]
    unfold numTokAt
    simp only [htake, hdrop]
    rw [if_neg (by simpa using hne)]
    simp
  · subst hs
    have htake : ((d1 ++ '.' :: d2) ++ '/' :: xs).takeWhile Char.isDigit = d1 := by
      rw [List.append_assoc, takeWhile_append_of_all _ _ h1]
      simp [List.takeWhile_cons]
    have hdrop : ((d1 ++ '.' :: d2) ++ '/' :: xs).dropWhile Char.isDigit
        = '.' :: (d2 ++ '/' :: xs) := by
      rw [List.append_assoc, dropWhile_append_of_all _ _ h1]
      simp [List.dropWhile_cons]
    have htake2 : (d2 ++ '/' :: xs).takeWhile Char.isDigit = d2 := by
      rw [takeWhile_append_of_all _ _ h2]
      simp [List.takeWhile_cons]
    have hdrop2 : (d2 ++ '/' :: xs).dropWhile Char.isDigit = '/' :: xs := by
      rw [dropWhile_append_of_all _ _ h2]
      simp [List.dropWhile_cons]
    unfold numTokAt
    simp only [htake, hdrop, List.head?_cons, List.tail_cons, htake2, hdrop2,
      Option.some.injEq]
    rw [if_neg (by simpa using hd1), if_pos trivial, if_neg (by simpa using hd2)]

/-- Anchored unsigned-number match on exactly a numeric token consumes it. -/
theorem numTokAt_self {t : Str} (h : isUNumTok t = true) :
    numTokAt t = some (t, []) := by
  rcases isUNumTok_spec h with ⟨hne, hall⟩ | ⟨d1, d2, hs, hd1, hd2, h1, h2⟩
  · have htake := takeWhile_eq_self_of_all Char.isDigit hall
    have hdrop := dropWhile_eq_nil_of_all Char.isDigit hall
    unfold numTokAt
    simp only [htake, hdrop]
    rw [if_neg (by simpa using hne)]
    simp
  · subst hs
    have htake : (d1 ++ '.' :: d2).takeWhile Char.isDigit = d1 := by
      rw [takeWhile_append_of_all _ _ h1]
      simp [List.takeWhile_cons]
    have hdrop : (d1 ++ '.' :: d2).dropWhile Char.isDigit = '.' :: d2 := by
      rw [dropWhile_append_of_all _ _ h1]
      simp [List.dropWhile_cons]
    have htake2 := takeWhile_eq_self_of_all Char.isDigit h2
    have hdrop2 := dropWhile_eq_nil_of_all Char.isDigit h2
    unfold numTokAt
    simp only [htake, hdrop, List.head?_cons, List.tail_cons, htake2, hdrop2,
      Option.some.injEq]
    rw [if_neg (by simpa using hd1), if_pos trivial, if_neg (by simpa using hd2)]

end MedGemma

namespace MedGemma

/-- A digit character is not a whitespace character. -/
theorem not_ws_of_digit {c : Char} (h : c.isDigit = true) : c.isWhitespace = false := by
  unfold Char.isDigit at h
  simp only [Bool.and_eq_true, decide_eq_true_eq] at h
  unfold Char.isWhitespace
  simp only [Bool.or_eq_false_iff, decide_eq_false_iff_not]
  refine ⟨⟨⟨?_, ?_⟩, ?_⟩, ?_⟩ <;> (intro hc; subst hc; revert h; decide)

/-- A digit character is not the minus sign. -/
theorem digit_ne_minus {c : Char} (h : c.isDigit = true) : c ≠ '-' := by
  intro hc; rw [hc] at h; revert h; decide

/-- A nonempty all-digit string is an unsigned numeric token. -/
theorem isUNumTok_of_digits {d : Str} (hne : d ≠ []) (hall : ∀ c ∈ d, c.isDigit = true) :
    isUNumTok d = true := by
  unfold isUNumTok
  rw [takeWhile_eq_self_of_all _ hall, dropWhile_eq_nil_of_all _ hall]
  simp [hne]

/-- digits.digits is an unsigned numeric token. -/
theorem isUNumTok_of_frac {d1 d2 : Str} (h1 : d1 ≠ []) (h2 : d2 ≠ [])
    (ha1 : ∀ c ∈ d1, c.isDigit = true) (ha2 : ∀ c ∈ d2, c.isDigit = true) :
    isUNumTok (d1 ++ '.' :: d2) = true := by
  unfold isUNumTok
  have htake : (d1 ++ '.' :: d2).takeWhile Char.isDigit = d1 := by
    rw [takeWhile_append_of_all _ _ ha1]
    simp [List.takeWhile_cons]
  have hdrop : (d1 ++ '.' :: d2).dropWhile Char.isDigit = '.' :: d2 := by
    rw [dropWhile_append_of_all _ _ ha1]
    simp [List.dropWhile_cons]
  rw [htake, hdrop]
  simp only [List.head?_cons, List.tail_cons, Bool.and_eq_true, Bool.or_eq_true,
    decide_eq_true_eq, List.all_eq_true]
  exact ⟨h1, Or.inr ⟨⟨trivial, by simpa using h2⟩, ha2⟩⟩

/-- The token produced by an anchored unsigned-number match is a numeric token. -/
theorem numTokAt_isUNum {s tok rest : Str} (h : numTokAt s = some (tok, rest)) :
    isUNumTok tok = true := by
  unfold numTokAt at h
  by_cases h1 : s.takeWhile Char.isDigit = []
  · rw [if_pos h1] at h; exact absurd h (by simp)
  · rw [if_neg h1] at h
    have hd1 : ∀ c ∈ s.takeWhile Char.isDigit, c.isDigit = true := by
      intro c hc; exact List.mem_takeWhile_imp hc
    by_cases h2 : (s.dropWhile Char.isDigit).head? = some '.'
    · rw [if_pos h2] at h
      by_cases h3 : (s.dropWhile Char.isDigit).tail.takeWhile Char.isDigit = []
      · rw [if_pos h3] at h
        simp only [Option.some.injEq, Prod.mk.injEq] at h
        exact h.1 ▸ isUNumTok_of_digits h1 hd1
      · rw [if_neg h3] at h
        simp only [Option.some.injEq, Prod.mk.injEq] at h
        refine h.1 ▸ isUNumTok_of_frac h1 h3 hd1 ?_
        intro c hc; exact List.mem_takeWhile_imp hc
    · rw [if_neg h2] at h
      simp only [Option.some.injEq, Prod.mk.injEq] at h
      exact h.1 ▸ isUNumTok_of_digits h1 hd1

/-- An unsigned numeric token also fully matches the signed numeric regex. -/
theorem isNumOnly_of_isUNumTok {s : Str} (h : isUNumTok s = true) :
    isNumOnly s = true := by
  obtain ⟨c, cs, hs, hc⟩ := isUNumTok_head h
  subst hs
  unfold isNumOnly
  rw [if_neg]
  · exact h
  · simp only [List.head?_cons, Option.some.injEq]
    exact digit_ne_minus hc

/-- The token produced by the anchored signed-number match fully matches the
numeric regex. -/
theorem numMatchAt_isNumOnly {s m : Str} (h : numMatchAt s = some m) :
    isNumOnly m = true := by
  unfold numMatchAt at h
  by_cases h1 : s.head? = some '-'
  · rw [if_pos h1] at h
    rcases hn : numTokAt s.tail with _ | ⟨tok, rest⟩
    · rw [hn] at h; exact absurd h (by simp)
    · rw [hn] at h
      simp only [Option.map_some', Option.some.injEq] at h
      subst h
      unfold isNumOnly
      simp only [List.head?_cons, List.tail_cons, if_pos]
      exact numTokAt_isUNum hn
  · rw [if_neg h1] at h
    rcases hn : numTokAt s with _ | ⟨tok, rest⟩
    · rw [hn] at h; exact absurd h (by simp)
    · rw [hn] at h
      simp only [Option.map_some', Option.some.injEq] at h
      subst h
      exact isNumOnly_of_isUNumTok (numTokAt_isUNum hn)

/-- The token extracted by _first_number fully matches the numeric regex. -/
theorem firstNumTok_isNumOnly {s m : Str} (h : firstNumTok s = some m) :
    isNumOnly m = true := by
  induction s with
  | nil => exact absurd h (by simp [firstNumTok])
  | cons c cs ih =>
    unfold firstNumTok at h
    rcases hn : numMatchAt (c :: cs) with _ | m'
    · rw [hn] at h
      exact ih h
    · rw [hn] at h
      simp only [Option.some.injEq] at h
      exact h ▸ numMatchAt_isNumOnly hn

/-- Both tokens found by the blood-pressure matcher are numeric tokens. -/
theorem bpMatchAt_isUNum {s a b : Str} (h : bpMatchAt s = some (a, b)) :
    isUNumTok a = true ∧ isUNumTok b = true := by
  unfold bpMatchAt at h
  rcases hn : numTokAt s with _ | ⟨sbp, rest⟩
  · rw [hn] at h; exact absurd h (by simp)
  · rw [hn, Option.some_bind] at h
    by_cases h2 : (((sbp, rest).2.dropWhile Char.isWhitespace).head? = some '/')
    · rw [if_pos h2] at h
      rcases hn2 : numTokAt (((sbp, rest).2.dropWhile Char.isWhitespace).tail.dropWhile
          Char.isWhitespace) with _ | ⟨tok2, rest2⟩
      · rw [hn2] at h; exact absurd h (by simp)
      · rw [hn2] at h
        simp only [Option.map_some', Option.some.injEq, Prod.mk.injEq] at h
        refine ⟨h.1 ▸ numTokAt_isUNum hn, h.2 ▸ numTokAt_isUNum hn2⟩
    · rw [if_neg h2] at h; exact absurd h (by simp)

/-- Both tokens found by the blood-pressure search are numeric tokens. -/
theorem bpSearch_isUNum {s a b : Str} (h : bpSearch s = some (a, b)) :
    isUNumTok a = true ∧ isUNumTok b = true := by
  induction s with
  | nil => exact absurd h (by simp [bpSearch])
  | cons c cs ih =>
    unfold bpSearch at h
    rcases hn : bpMatchAt (c :: cs) with _ | p
    · rw [hn] at h
      exact ih h
    · rw [hn] at h
      simp only [Option.some.injEq] at h
      rw [h] at hn
      exact bpMatchAt_isUNum hn

/-- On a value of the exact shape token/token the blood-pressure search
matches at position zero and captures the two tokens. -/
theorem bpSearch_exact {a b : Str} (ha : isUNumTok a = true) (hb : isUNumTok b = true) :
    bpSearch (a ++ '/' :: b) = some (a, b) := by
  obtain ⟨c, cs, hs, hc⟩ := isUNumTok_head ha
  have hws : ('/' :: b).dropWhile Char.isWhitespace = '/' :: b := by
    simp [List.dropWhile_cons]
  have hwsb : b.dropWhile Char.isWhitespace = b := by
    apply dropWhile_eq_self_of_head
    intro x l hxl
    obtain ⟨x', l', hb', hx'⟩ := isUNumTok_head hb
    rw [hb'] at hxl
    injection hxl with e1 e2
    subst e1
    exact not_ws_of_digit hx'
  have hmatch : bpMatchAt (a ++ '/' :: b) = some (a, b) := by
    unfold bpMatchAt
    rw [numTokAt_append_slash _ ha, Option.some_bind]
    simp only [hws, List.head?_cons, List.tail_cons]
    rw [if_pos trivial, hwsb, numTokAt_self hb]
    rfl
  have hred : bpSearch ((c :: cs) ++ '/' :: b)
      = match bpMatchAt ((c :: cs) ++ '/' :: b) with
        | some m => some m
        | none => bpSearch (cs ++ '/' :: b) := rfl
  rw [hs] at hmatch ⊢
  rw [hred, hmatch]

end MedGemma

namespace MedGemma

/-- The invariant carried through the dedup fold of
normalize_readmission_kvt4_lines: the best dict has pairwise-distinct keys,
each entry is one of the processed candidates and has minimal timestamp rank
among processed candidates with its key, and every processed candidate's key
is represented. -/
def DedupInv (processed m : List KVT) : Prop :=
  List.Pairwise (fun a b => kvtKey a ≠ kvtKey b) m ∧
  (∀ r ∈ m, r ∈ processed ∧
    ∀ c ∈ processed, kvtKey c = kvtKey r → tsRankN r.timestamp ≤ tsRankN c.timestamp) ∧
  (∀ c ∈ processed, ∃ r ∈ m, kvtKey r = kvtKey c)

theorem kvtKey_update (x e : KVT) :
    kvtKey (if kvtKey e = kvtKey x then x else e) = kvtKey e := by
  split
  · next h => exact h.symm
  · rfl

theorem bestInsert_inv {processed m : List KVT} (x : KVT) (hinv : DedupInv processed m) :
    DedupInv (processed ++ [x]) (bestInsert m x) := by
  obtain ⟨hpw, hmin, hcover⟩ := hinv
  rcases hf : m.find? (fun e => decide (kvtKey e = kvtKey x)) with _ | prev
  · -- no entry with this key yet: append
    have hbi : bestInsert m x = m ++ [x] := by unfold bestInsert; rw [hf]
    rw [hbi]
    have hnone : ∀ e ∈ m, kvtKey e ≠ kvtKey x := by
      intro e he
      have := List.find?_eq_none.mp hf e he
      simpa using this
    refine ⟨?_, ?_, ?_⟩
    · rw [List.pairwise_append]
      refine ⟨hpw, List.pairwise_singleton _ _, ?_⟩
      intro a ha b hb
      rw [List.mem_singleton.mp hb]
      exact hnone a ha
    · intro r hr
      rcases List.mem_append.mp hr with hr | hr
      · obtain ⟨hrp, hrmin⟩ := hmin r hr
        refine ⟨List.mem_append_left _ hrp, ?_⟩
        intro c hc hkey
        rcases List.mem_append.mp hc with hc | hc
        · exact hrmin c hc hkey
        · rw [List.mem_singleton.mp hc] at hkey
          exact absurd hkey.symm (hnone r hr)
      · rw [List.mem_singleton.mp hr]
        refine ⟨List.mem_append_right _ (List.mem_singleton_self _), ?_⟩
        intro c hc hkey
        rcases List.mem_append.mp hc with hc | hc
        · obtain ⟨e, he, hekey⟩ := hcover c hc
          exact absurd (hekey.trans hkey) (hnone e he)
        · rw [List.mem_singleton.mp hc]
    · intro c hc
      rcases List.mem_append.mp hc with hc | hc
      · obtain ⟨r, hr, hrkey⟩ := hcover c hc
        exact ⟨r, List.mem_append_left _ hr, hrkey⟩
      · rw [List.mem_singleton.mp hc]
        exact ⟨x, List.mem_append_right _ (List.mem_singleton_self _), rfl⟩
  · -- an entry with this key exists
    have hbi : bestInsert m x =
        if tsRankN x.timestamp < tsRankN prev.timestamp then
          m.map (fun e => if kvtKey e = kvtKey x then x else e)
        else m := by unfold bestInsert; rw [hf]
    rw [hbi]
    have hprevm : prev ∈ m := List.mem_of_find?_eq_some hf
    have hprevkey : kvtKey prev = kvtKey x := by
      have := List.find?_some hf
      simpa using this
    obtain ⟨hprevp, hprevmin⟩ := hmin prev hprevm
    by_cases hrank : tsRankN x.timestamp < tsRankN prev.timestamp
    · rw [if_pos hrank]
      refine ⟨?_, ?_, ?_⟩
      · rw [List.pairwise_map]
        refine hpw.imp_of_mem ?_
        intro a b _ _ hab
        rw [kvtKey_update, kvtKey_update]
        exact hab
      · intro r hr
        obtain ⟨e, he, hre⟩ := List.mem_map.mp hr
        by_cases hekey : kvtKey e = kvtKey x
        · rw [if_pos hekey] at hre
          subst hre
          refine ⟨List.mem_append_right _ (List.mem_singleton_self _), ?_⟩
          intro c hc hkey
          rcases List.mem_append.mp hc with hc | hc
          · have h1 := hprevmin c hc (by rw [hkey, ← hprevkey])
            exact (Nat.le_of_lt hrank).trans h1
          · rw [List.mem_singleton.mp hc]
        · rw [if_neg hekey] at hre
          subst hre
          obtain ⟨hrp, hrmin⟩ := hmin e he
          refine ⟨List.mem_append_left _ hrp, ?_⟩
          intro c hc hkey
          rcases List.mem_append.mp hc with hc | hc
          · exact hrmin c hc hkey
          · rw [List.mem_singleton.mp hc] at hkey
            exact absurd hkey.symm hekey
      · intro c hc
        rcases List.mem_append.mp hc with hc | hc
        · obtain ⟨r, hr, hrkey⟩ := hcover c hc
          refine ⟨if kvtKey r = kvtKey x then x else r, List.mem_map_of_mem _ hr, ?_⟩
          rw [kvtKey_update]
          exact hrkey
        · rw [List.mem_singleton.mp hc]
          refine ⟨if kvtKey prev = kvtKey x then x else prev,
            List.mem_map_of_mem _ hprevm, ?_⟩
          rw [kvtKey_update]
          exact hprevkey
    · rw [if_neg hrank]
      refine ⟨hpw, ?_, ?_⟩
      · intro r hr
        obtain ⟨hrp, hrmin⟩ := hmin r hr
        refine ⟨List.mem_append_left _ hrp, ?_⟩
        intro c hc hkey
        rcases List.mem_append.mp hc with hc | hc
        · exact hrmin c hc hkey
        · rw [List.mem_singleton.mp hc] at hkey
          have h1 : tsRankN r.timestamp ≤ tsRankN prev.timestamp :=
            hrmin prev hprevp (by rw [hprevkey, hkey])
          have h2 : tsRankN prev.timestamp ≤ tsRankN x.timestamp := Nat.le_of_not_lt hrank
          rw [List.mem_singleton.mp hc]
          exact h1.trans h2
      · intro c hc
        rcases List.mem_append.mp hc with hc | hc
        · exact hcover c hc
        · rw [List.mem_singleton.mp hc]
          exact ⟨prev, hprevm, hprevkey⟩

theorem dedupBest_foldl_inv (rest : List KVT) :
    ∀ processed m, DedupInv processed m → DedupInv (processed ++ rest) (rest.foldl bestInsert m) := by
  induction rest with
  | nil => intro processed m h; simpa using h
  | cons x xs ih =>
    intro processed m h
    have h1 := ih (processed ++ [x]) (bestInsert m x) (bestInsert_inv x h)
    simpa [List.append_assoc] using h1

/-- The dedup pass of normalize_readmission_kvt4_lines keeps at most one
record per (cluster, keyword), each survivor is a candidate, and each
survivor's timestamp rank is minimal among same-key candidates. -/
theorem dedupBest_spec (cands : List KVT) :
    List.Pairwise (fun a b => kvtKey a ≠ kvtKey b) (dedupBest cands) ∧
    (∀ r ∈ dedupBest cands, r ∈ cands ∧
      ∀ c ∈ cands, kvtKey c = kvtKey r → tsRankN r.timestamp ≤ tsRankN c.timestamp) := by
  have h0 : DedupInv [] [] := by
    refine ⟨List.Pairwise.nil, ?_, ?_⟩ <;> simp
  have h := dedupBest_foldl_inv cands [] [] h0
  simp only [List.nil_append] at h
  exact ⟨h.1, h.2.1⟩

end MedGemma

namespace MedGemma

theorem elim_eq_cases {α β : Type} {o : Option α} {x : β} {f : α → β} {y : β}
    (h : o.elim x f = y) : (o = none ∧ x = y) ∨ ∃ a, o = some a ∧ f a = y := by
  cases o with
  | none => exact Or.inl ⟨rfl, h⟩
  | some a => exact Or.inr ⟨a, rfl, h⟩

theorem elim_ne {α β : Type} {o : Option α} {x : β} {f : α → β} {y : β}
    (hx : x ≠ y) (hf : ∀ a, f a ≠ y) : o.elim x f ≠ y := by
  cases o with
  | none => exact hx
  | some a => exact hf a

theorem normDemoC_ne_bp (k v a b : Str) : normDemoC k v ≠ .bp a b := by
  unfold normDemoC
  split_ifs
  · exact elim_ne (fun h => NormOut.noConfusion h) (fun vv h => NormOut.noConfusion h)
  · exact elim_ne (fun h => NormOut.noConfusion h) (fun n h => NormOut.noConfusion h)
  · exact fun h => NormOut.noConfusion h

theorem normLabsC_ne_bp (k v a b : Str) : normLabsC k v ≠ .bp a b := by
  unfold normLabsC
  exact elim_ne (fun h => NormOut.noConfusion h) (fun n h => NormOut.noConfusion h)

theorem normUtilC_ne_bp (k v a b : Str) : normUtilC k v ≠ .bp a b := by
  unfold normUtilC
  exact elim_ne (fun h => NormOut.noConfusion h) (fun n h => NormOut.noConfusion h)

theorem normMedsC_ne_bp (k v a b : Str) : normMedsC k v ≠ .bp a b := by
  unfold normMedsC
  split_ifs
  · exact elim_ne (fun h => NormOut.noConfusion h) (fun n h => NormOut.noConfusion h)
  all_goals exact fun h => NormOut.noConfusion h

theorem normProcC_ne_bp (k v a b : Str) : normProcC k v ≠ .bp a b := by
  unfold normProcC
  split_ifs
  all_goals
    first
    | exact elim_ne (fun h => NormOut.noConfusion h) (fun n h => NormOut.noConfusion h)
    | exact fun h => NormOut.noConfusion h

theorem normDispC_ne_bp (k v a b : Str) : normDispC k v ≠ .bp a b := by
  unfold normDispC
  split_ifs
  all_goals exact fun h => NormOut.noConfusion h

theorem normProbC_ne_bp (k v a b : Str) : normProbC k v ≠ .bp a b := by
  unfold normProbC
  split_ifs
  all_goals exact fun h => NormOut.noConfusion h

theorem normSympC_ne_bp (k v a b : Str) : normSympC k v ≠ .bp a b := by
  unfold normSympC
  split_ifs
  all_goals exact fun h => NormOut.noConfusion h

/-- A blood-pressure expansion can only come from the VITALS branch, and its
two values are the tokens captured by the blood-pressure regex search. -/
theorem normVitalsC_bp {k v a b : Str} (h : normVitalsC k v = .bp a b) :
    bpSearch v = some (a, b) := by
  unfold normVitalsC at h
  split_ifs at h
  · rcases elim_eq_cases h with ⟨_, h2⟩ | ⟨p, hp, h2⟩
    · exact absurd h2 (fun h => NormOut.noConfusion h)
    · rcases p with ⟨pa, pb⟩
      injection h2 with e1 e2
      rw [hp]
      simp only [Option.some.injEq, Prod.mk.injEq]
      exact ⟨e1, e2⟩
  · rcases elim_eq_cases h with ⟨_, h2⟩ | ⟨n, hn, h2⟩
    · exact absurd h2 (fun h => NormOut.noConfusion h)
    · exact absurd h2 (fun h => NormOut.noConfusion h)

/-- A kept VITALS value is the token extracted by _first_number. -/
theorem normVitalsC_keep_numeric {k v k2 v2 : Str} (h : normVitalsC k v = .keep k2 v2) :
    isNumOnly v2 = true := by
  unfold normVitalsC at h
  split_ifs at h
  · rcases elim_eq_cases h with ⟨_, h2⟩ | ⟨p, hp, h2⟩
    · exact absurd h2 (fun h => NormOut.noConfusion h)
    · exact absurd h2 (fun h => NormOut.noConfusion h)
  · rcases elim_eq_cases h with ⟨_, h2⟩ | ⟨n, hn, h2⟩
    · exact absurd h2 (fun h => NormOut.noConfusion h)
    · injection h2 with e1 e2
      exact e2 ▸ firstNumTok_isNumOnly hn

/-- A kept LABS value is the token extracted by _first_number. -/
theorem normLabsC_keep_numeric {k v k2 v2 : Str} (h : normLabsC k v = .keep k2 v2) :
    isNumOnly v2 = true := by
  unfold normLabsC at h
  rcases elim_eq_cases h with ⟨_, h2⟩ | ⟨n, hn, h2⟩
  · exact absurd h2 (fun h => NormOut.noConfusion h)
  · injection h2 with e1 e2
    exact e2 ▸ firstNumTok_isNumOnly hn

/-- A kept UTILIZATION value is the token extracted by _first_number. -/
theorem normUtilC_keep_numeric {k v k2 v2 : Str} (h : normUtilC k v = .keep k2 v2) :
    isNumOnly v2 = true := by
  unfold normUtilC at h
  rcases elim_eq_cases h with ⟨_, h2⟩ | ⟨n, hn, h2⟩
  · exact absurd h2 (fun h => NormOut.noConfusion h)
  · injection h2 with e1 e2
    exact e2 ▸ firstNumTok_isNumOnly hn

/-- Any blood-pressure expansion yields regex-exact numeric tokens. -/
theorem clusterNormalize_bp {cUp k v a b : Str}
    (h : clusterNormalize cUp k v = .bp a b) :
    isUNumTok a = true ∧ isUNumTok b = true := by
  unfold clusterNormalize at h
  split_ifs at h
  · exact absurd h (normDemoC_ne_bp k v a b)
  · exact bpSearch_isUNum (normVitalsC_bp h)
  · exact absurd h (normLabsC_ne_bp k v a b)
  · exact absurd h (normUtilC_ne_bp k v a b)
  · exact absurd h (normMedsC_ne_bp k v a b)
  · exact absurd h (normProcC_ne_bp k v a b)
  · exact absurd h (normDispC_ne_bp k v a b)
  · exact absurd h (normProbC_ne_bp k v a b)
  · exact absurd h (normSympC_ne_bp k v a b)

/-- A record kept in one of the numeric clusters VITALS/LABS/UTILIZATION has
a value that fully matches the numeric regex. -/
theorem clusterNormalize_numeric_value {cUp k v k2 v2 : Str}
    (hmem : strMem cUp ["VITALS", "LABS", "UTILIZATION"] = true)
    (heq : clusterNormalize cUp k v = .keep k2 v2) : isNumOnly v2 = true := by
  have hcup : cUp = "VITALS".toList ∨ cUp = "LABS".toList ∨ cUp = "UTILIZATION".toList := by
    simp only [strMem, List.any_eq_true, decide_eq_true_eq, List.mem_cons,
      List.mem_singleton, List.not_mem_nil] at hmem
    rcases hmem with ⟨x, hx, hxe⟩
    rcases hx with rfl | rfl | rfl | hx
    · exact Or.inl hxe.symm
    · exact Or.inr (Or.inl hxe.symm)
    · exact Or.inr (Or.inr hxe.symm)
    · exact hx.elim
  rcases hcup with hcup | hcup | hcup <;> subst hcup
  · unfold clusterNormalize at heq
    rw [if_neg (by decide), if_pos rfl] at heq
    exact normVitalsC_keep_numeric heq
  · unfold clusterNormalize at heq
    rw [if_neg (by decide), if_neg (by decide), if_pos rfl] at heq
    exact normLabsC_keep_numeric heq
  · unfold clusterNormalize at heq
    rw [if_neg (by decide), if_neg (by decide), if_neg (by decide), if_pos rfl] at heq
    exact normUtilC_keep_numeric heq

end MedGemma

namespace MedGemma

theorem getLast_append_right {α : Type} {l1 l2 : List α} (h : l2 ≠ [])
    (hh : l1 ++ l2 ≠ []) : (l1 ++ l2).getLast hh = l2.getLast h := by
  rw [List.getLast_append]
  rw [dif_neg (by simpa using h)]

/-- A string with non-whitespace first and last characters is its own strip. -/
theorem trimL_eq_self_of_ends {s : Str} (hne : s ≠ [])
    (hhead : (s.head hne).isWhitespace = false)
    (hlast : (s.getLast hne).isWhitespace = false) : trimL s = s := by
  unfold trimL
  have h1 : s.dropWhile Char.isWhitespace = s := by
    apply dropWhile_eq_self_of_head
    intro x l hxl
    have hx : s.head hne = x := by
      rw [List.head_eq_iff_head?_eq_some]
      rw [hxl]
      rfl
    rw [← hx]
    exact hhead
  rw [h1]
  have hner : s.reverse ≠ [] := by simpa using hne
  have h2 : s.reverse.dropWhile Char.isWhitespace = s.reverse := by
    apply dropWhile_eq_self_of_head
    intro x l hxl
    have hx : s.reverse.head hner = x := by
      rw [List.head_eq_iff_head?_eq_some]
      rw [hxl]
      rfl
    rw [List.head_reverse] at hx
    rw [← hx]
    exact hlast
  rw [h2, List.reverse_reverse]

/-- The last character of an unsigned numeric token is a digit. -/
theorem isUNumTok_last {t : Str} (h : isUNumTok t = true) (hne : t ≠ []) :
    (t.getLast hne).isDigit = true := by
  rcases isUNumTok_spec h with ⟨_, hall⟩ | ⟨d1, d2, hs, _, hd2, _, h2⟩
  · exact hall _ (List.getLast_mem hne)
  · subst hs
    have hq : ('.' :: d2) ≠ [] := by simp
    rw [getLast_append_right hq]
    have : ('.' :: d2).getLast hq = d2.getLast hd2 := by
      cases d2 with
      | nil => exact absurd rfl hd2
      | cons y ys => rw [List.getLast_cons]
    rw [this]
    exact h2 _ (List.getLast_mem hd2)

end MedGemma

namespace MedGemma

theorem stripBullet_eq_self {c : Char} {rest : Str}
    (h : ¬(c = '-' ∨ c = '*' ∨ c = '•')) : stripBullet (c :: rest) = c :: rest := by
  cases rest with
  | nil => rfl
  | cons c2 r =>
    have hred : stripBullet (c :: c2 :: r)
        = if (c = '-' ∨ c = '*' ∨ c = '•') ∧ c2.isWhitespace = true then
            (c2 :: r).dropWhile Char.isWhitespace
          else c :: c2 :: r := rfl
    rw [hred, if_neg]
    intro hcon
    exact h hcon.1

theorem countC_cons (ch x : Char) (xs : Str) :
    countC ch (x :: xs) = countC ch xs + if x = ch then 1 else 0 := by
  simp [countC, List.countP_cons]

/-- Every character of the value token/token is a digit, a dot or a slash. -/
theorem bpVal_chars {sbp dbp : Str} (hs : isUNumTok sbp = true)
    (hd : isUNumTok dbp = true) :
    ∀ c ∈ sbp ++ '/' :: dbp, c.isDigit = true ∨ c = '.' ∨ c = '/' := by
  intro c hc
  rcases List.mem_append.mp hc with hc | hc
  · rcases isUNumTok_chars hs c hc with h | h
    · exact Or.inl h
    · exact Or.inr (Or.inl h)
  · rcases List.mem_cons.mp hc with rfl | hc
    · exact Or.inr (Or.inr rfl)
    · rcases isUNumTok_chars hd c hc with h | h
      · exact Or.inl h
      · exact Or.inr (Or.inl h)

theorem bpVal_no_pipe {sbp dbp : Str} (hs : isUNumTok sbp = true)
    (hd : isUNumTok dbp = true) : ∀ c ∈ sbp ++ '/' :: dbp, c ≠ '|' := by
  intro c hc he
  subst he
  rcases bpVal_chars hs hd _ hc with h | h | h
  · exact absurd h (by decide)
  · exact absurd h (by decide)
  · exact absurd h (by decide)

theorem bpVal_ne_nil {sbp dbp : Str} : sbp ++ '/' :: dbp ≠ [] := by
  simp

/-- The value token/token is its own strip. -/
theorem bpVal_trim {sbp dbp : Str} (hs : isUNumTok sbp = true)
    (hd : isUNumTok dbp = true) : trimL (sbp ++ '/' :: dbp) = sbp ++ '/' :: dbp := by
  obtain ⟨c1, cs1, hsc, hc1⟩ := isUNumTok_head hs
  obtain ⟨hdne, _⟩ : dbp ≠ [] ∧ True := by
    obtain ⟨c2, cs2, hdc, _⟩ := isUNumTok_head hd
    exact ⟨by rw [hdc]; simp, trivial⟩
  refine trimL_eq_self_of_ends bpVal_ne_nil ?_ ?_
  · have hh : (sbp ++ '/' :: dbp).head bpVal_ne_nil = c1 := by
      rw [List.head_eq_iff_head?_eq_some, hsc]
      rfl
    rw [hh]
    exact not_ws_of_digit hc1
  · have hcons : ('/' :: dbp) ≠ [] := by simp
    have h1 : (sbp ++ '/' :: dbp).getLast bpVal_ne_nil = ('/' :: dbp).getLast hcons :=
      getLast_append_right hcons _
    have h2 : ('/' :: dbp).getLast hcons = dbp.getLast hdne := by
      cases dbp with
      | nil => exact absurd rfl hdne
      | cons y ys => rw [List.getLast_cons]
    rw [h1, h2]
    exact not_ws_of_digit (isUNumTok_last hd hdne)

/-- _parse_line on a well-formed VITALS Blood Pressure KVT4 line whose value
is token/token. -/
theorem parse_bp_line {sbp dbp T : Str}
    (hs : isUNumTok sbp = true) (hd : isUNumTok dbp = true)
    (hT1 : T ≠ []) (hT2 : ∀ c ∈ T, c ≠ '|')
    (hT3 : trimL T = T)
    (hTrev : ∀ x l, T.reverse = x :: l → x.isWhitespace = false) :
    parseKvtLine ("VITALS|Blood Pressure|".toList ++ sbp ++ '/' :: dbp ++ '|' :: T)
      = some ⟨"VITALS".toList, "Blood Pressure".toList, sbp ++ '/' :: dbp, T⟩ := by
  have hassoc :
      ("VITALS|Blood Pressure|".toList ++ sbp ++ '/' :: dbp ++ '|' :: T)
        = "VITALS".toList ++ '|' ::
            ("Blood Pressure".toList ++ '|' :: ((sbp ++ '/' :: dbp) ++ '|' :: T)) := by
    simp only [List.append_assoc, List.cons_append, List.nil_append]
    rfl
  obtain ⟨x0, l0, hT0⟩ : ∃ x0 l0, T.reverse = x0 :: l0 := by
    cases hTr : T.reverse with
    | nil => exact absurd (List.reverse_eq_nil_iff.mp hTr) hT1
    | cons a b => exact ⟨a, b, rfl⟩
  have hrev : ("VITALS|Blood Pressure|".toList ++ sbp ++ '/' :: dbp ++ '|' :: T).reverse
      = x0 :: (l0 ++ '|' :: (dbp.reverse ++ '/' ::
          (sbp.reverse ++ ("VITALS|Blood Pressure|".toList).reverse))) := by
    simp only [List.reverse_append, List.reverse_cons, List.append_assoc,
      List.cons_append, List.nil_append, hT0]
  -- the full line is its own strip
  have htrimL : trimL ("VITALS|Blood Pressure|".toList ++ sbp ++ '/' :: dbp ++ '|' :: T)
      = ("VITALS|Blood Pressure|".toList ++ sbp ++ '/' :: dbp ++ '|' :: T) := by
    unfold trimL
    have h1 : ("VITALS|Blood Pressure|".toList ++ sbp ++ '/' :: dbp ++ '|' :: T).dropWhile
        Char.isWhitespace = ("VITALS|Blood Pressure|".toList ++ sbp ++ '/' :: dbp ++ '|' :: T) := by
      apply dropWhile_eq_self_of_head
      intro x l hxl
      have hcons : ("VITALS|Blood Pressure|".toList ++ sbp ++ '/' :: dbp ++ '|' :: T)
          = 'V' :: ("ITALS|Blood Pressure|".toList ++ sbp ++ '/' :: dbp ++ '|' :: T) := rfl
      rw [hcons] at hxl
      injection hxl with e1 _
      rw [← e1]
      decide
    have h2 : ("VITALS|Blood Pressure|".toList ++ sbp ++ '/' :: dbp ++ '|' :: T).reverse.dropWhile
        Char.isWhitespace
        = ("VITALS|Blood Pressure|".toList ++ sbp ++ '/' :: dbp ++ '|' :: T).reverse := by
      apply dropWhile_eq_self_of_head
      intro x l hxl
      rw [hrev] at hxl
      injection hxl with e1 _
      rw [← e1]
      exact hTrev x0 l0 hT0
    rw [h1, h2, List.reverse_reverse]
  have hbullet : stripBullet ("VITALS|Blood Pressure|".toList ++ sbp ++ '/' :: dbp ++ '|' :: T)
      = ("VITALS|Blood Pressure|".toList ++ sbp ++ '/' :: dbp ++ '|' :: T) := by
    have hcons : ("VITALS|Blood Pressure|".toList ++ sbp ++ '/' :: dbp ++ '|' :: T)
        = 'V' :: ("ITALS|Blood Pressure|".toList ++ sbp ++ '/' :: dbp ++ '|' :: T) := rfl
    rw [hcons, stripBullet_eq_self (by decide)]
  have hcount : countC '|' ("VITALS|Blood Pressure|".toList ++ sbp ++ '/' :: dbp ++ '|' :: T)
      = 3 := by
    rw [hassoc]
    rw [countC_append, countC_cons, countC_append, countC_cons, countC_append, countC_cons]
    rw [countC_eq_zero_of_all (a := "VITALS".toList) (by decide)]
    rw [countC_eq_zero_of_all (a := "Blood Pressure".toList) (by decide)]
    rw [countC_eq_zero_of_all (bpVal_no_pipe hs hd)]
    rw [countC_eq_zero_of_all hT2]
    decide
  have hsplit : splitOnC '|' ("VITALS|Blood Pressure|".toList ++ sbp ++ '/' :: dbp ++ '|' :: T)
      = ["VITALS".toList, "Blood Pressure".toList, sbp ++ '/' :: dbp, T] := by
    rw [hassoc]
    rw [splitOnC_append_sep _ (by decide)]
    rw [splitOnC_append_sep _ (by decide)]
    rw [splitOnC_append_sep _ (bpVal_no_pipe hs hd)]
    rw [splitOnC_eq_single hT2]
  have hLne : ("VITALS|Blood Pressure|".toList ++ sbp ++ '/' :: dbp ++ '|' :: T) ≠ [] := by
    intro h
    have hcons : ("VITALS|Blood Pressure|".toList ++ sbp ++ '/' :: dbp ++ '|' :: T)
        = 'V' :: ("ITALS|Blood Pressure|".toList ++ sbp ++ '/' :: dbp ++ '|' :: T) := rfl
    rw [hcons] at h
    exact List.cons_ne_nil _ _ h
  unfold parseKvtLine
  rw [htrimL, hbullet, htrimL]
  unfold parseKvtCore
  rw [if_neg hLne, if_pos hcount, hsplit]
  have hmap : (["VITALS".toList, "Blood Pressure".toList, sbp ++ '/' :: dbp, T]).map trimL
      = ["VITALS".toList, "Blood Pressure".toList, sbp ++ '/' :: dbp, T] := by
    simp only [List.map_cons, List.map_nil]
    rw [show trimL "VITALS".toList = "VITALS".toList by decide]
    rw [show trimL "Blood Pressure".toList = "Blood Pressure".toList by decide]
    rw [bpVal_trim hs hd, hT3]
  rw [hmap]
  have hred : parse4Fields ["VITALS".toList, "Blood Pressure".toList, sbp ++ '/' :: dbp, T]
      = if "VITALS".toList = ([] : Str) ∨ "Blood Pressure".toList = ([] : Str) ∨
            sbp ++ '/' :: dbp = ([] : Str) then none
        else some ⟨"VITALS".toList, "Blood Pressure".toList, sbp ++ '/' :: dbp,
          if T = [] then "Unknown".toList else T⟩ := rfl
  rw [hred, if_neg, if_neg hT1]
  push_neg
  refine ⟨by decide, by decide, bpVal_ne_nil⟩

end MedGemma

namespace MedGemma

theorem elim_some {α β : Type} (a : α) (x : β) (f : α → β) :
    (some a).elim x f = f a := rfl

theorem elim_none {α β : Type} (x : β) (f : α → β) :
    (none : Option α).elim x f = x := rfl

/-- A token/token value is never one of the placeholder strings. -/
theorem bpVal_not_placeholder {sbp dbp : Str} (hs : isUNumTok sbp = true) :
    strMem (sbp ++ '/' :: dbp) ["___", "__", "_", "N/A", "NA", "null", "None"] = false := by
  obtain ⟨c1, cs1, hsc, hc1⟩ := isUNumTok_head hs
  subst hsc
  unfold strMem
  rw [List.any_eq_false]
  intro x hx
  simp only [List.cons_append] at *
  simp only [List.mem_cons, List.not_mem_nil, or_false] at hx
  rcases hx with rfl | rfl | rfl | rfl | rfl | rfl | rfl <;>
  · simp only [decide_eq_true_eq]
    intro h
    injection h with e1 _
    rw [← e1] at hc1
    exact absurd hc1 (by decide)

/-- normStep on a well-formed VITALS Blood Pressure line with a token/token
value: the two expanded records, carrying the normalized input timestamp. -/
theorem normStep_bp {sbp dbp T : Str} (fillUnk : Bool)
    (hs : isUNumTok sbp = true) (hd : isUNumTok dbp = true)
    (hT1 : T ≠ []) (hT2 : ∀ c ∈ T, c ≠ '|')
    (hT3 : trimL T = T) (hT4 : normTs T = T)
    (hTrev : ∀ x l, T.reverse = x :: l → x.isWhitespace = false) :
    normStep fillUnk ("VITALS|Blood Pressure|".toList ++ sbp ++ '/' :: dbp ++ '|' :: T)
      = [⟨"VITALS".toList, "Systolic BP".toList, sbp, T⟩,
         ⟨"VITALS".toList, "Diastolic BP".toList, dbp, T⟩] := by
  unfold normStep
  rw [parse_bp_line hs hd hT1 hT2 hT3 hTrev, elim_some]
  have hproj1 : (KVT.mk "VITALS".toList "Blood Pressure".toList (sbp ++ '/' :: dbp) T).value
      = sbp ++ '/' :: dbp := rfl
  have hproj2 : (KVT.mk "VITALS".toList "Blood Pressure".toList (sbp ++ '/' :: dbp) T).cluster
      = "VITALS".toList := rfl
  have hproj3 : (KVT.mk "VITALS".toList "Blood Pressure".toList (sbp ++ '/' :: dbp) T).keyword
      = "Blood Pressure".toList := rfl
  have hproj4 : (KVT.mk "VITALS".toList "Blood Pressure".toList (sbp ++ '/' :: dbp) T).timestamp
      = T := rfl
  rw [hproj1, hproj2, hproj3, hproj4]
  rw [bpVal_trim hs hd]
  rw [if_neg (by rw [bpVal_not_placeholder hs]; simp)]
  rw [show upperL (trimL (stripSet ['*', '<', '>'] (trimL "VITALS".toList)))
      = "VITALS".toList by decide]
  rw [show trimL "Blood Pressure".toList = "Blood Pressure".toList by decide]
  rw [hT4]
  unfold clusterNormalize
  rw [if_neg (by decide), if_pos rfl]
  unfold normVitalsC
  rw [if_pos (by decide)]
  rw [bpSearch_exact hs hd, elim_some]
  rfl

/-- normalize_readmission_kvt4_lines on the single-line input consisting of a
well-formed VITALS Blood Pressure line with token/token value: exactly the
two expanded records, in the sorted output order Diastolic before Systolic. -/
theorem normalizeRecs_bp {sbp dbp T : Str} (fillUnk : Bool)
    (hs : isUNumTok sbp = true) (hd : isUNumTok dbp = true)
    (hT1 : T ≠ []) (hT2 : ∀ c ∈ T, c ≠ '|')
    (hT3 : trimL T = T) (hT4 : normTs T = T)
    (hTrev : ∀ x l, T.reverse = x :: l → x.isWhitespace = false) :
    normalizeRecs fillUnk
        ["VITALS|Blood Pressure|".toList ++ sbp ++ '/' :: dbp ++ '|' :: T]
      = [⟨"VITALS".toList, "Diastolic BP".toList, dbp, T⟩,
         ⟨"VITALS".toList, "Systolic BP".toList, sbp, T⟩] := by
  unfold normalizeRecs normCandidates
  rw [List.flatMap_cons, List.flatMap_nil, List.append_nil]
  rw [normStep_bp fillUnk hs hd hT1 hT2 hT3 hT4 hTrev]
  rfl

end MedGemma

namespace MedGemma

/-- Key uniqueness and minimal-rank survival transfer from the dedup pass to
the sorted output of normalize_readmission_kvt4_lines. -/
theorem normalizeRecs_spec (fillUnk : Bool) (lines : List Str) :
    List.Pairwise (fun a b => kvtKey a ≠ kvtKey b) (normalizeRecs fillUnk lines) ∧
    ∀ r ∈ normalizeRecs fillUnk lines,
      r ∈ normCandidates fillUnk lines ∧
      ∀ c ∈ normCandidates fillUnk lines, kvtKey c = kvtKey r →
        tsRankN r.timestamp ≤ tsRankN c.timestamp := by
  have hperm := sortStable_perm kvtLe (dedupBest (normCandidates fillUnk lines))
  obtain ⟨hpw, hmin⟩ := dedupBest_spec (normCandidates fillUnk lines)
  constructor
  · exact (hperm.pairwise_iff (fun h => (h ·.symm))).mpr hpw
  · intro r hr
    exact hmin r (hperm.mem_iff.mp hr)

end MedGemma

namespace MedGemma

/-- C1: After Stage-2 sanitation (the KVT4 normalization
normalize_readmission_kvt4_lines, which the pipeline applies last), at most
one record remains per (cluster, keyword) — in particular for every
objective cluster pair — and each surviving record is one of the normalized
candidate records, with a timestamp of maximal priority (minimal rank) in
the configured order Discharge > Admission > Past > Unknown among all
candidates of the same (cluster, keyword).  For the input pair
VITALS|Heart Rate|88|Admission and VITALS|Heart Rate|72|Discharge the single
surviving record has value 72 and timestamp Discharge. -/
theorem claim_C1_objective_dedup_priority (fillUnk : Bool) (lines : List Str) :
    List.Pairwise (fun a b => kvtKey a ≠ kvtKey b) (normalizeRecs fillUnk lines) ∧
    (∀ r ∈ normalizeRecs fillUnk lines,
      r ∈ normCandidates fillUnk lines ∧
      ∀ c ∈ normCandidates fillUnk lines, kvtKey c = kvtKey r →
        tsRankN r.timestamp ≤ tsRankN c.timestamp) ∧
    normalizeKvt4Lines true
        ["VITALS|Heart Rate|88|Admission".toList, "VITALS|Heart Rate|72|Discharge".toList]
      = ["VITALS|Heart Rate|72|Discharge".toList] ∧
    tsRankN "Discharge".toList < tsRankN "Admission".toList ∧
    tsRankN "Admission".toList < tsRankN "Past".toList ∧
    tsRankN "Past".toList < tsRankN "Unknown".toList :=
  ⟨(normalizeRecs_spec fillUnk lines).1, (normalizeRecs_spec fillUnk lines).2,
    by decide, by decide, by decide, by decide⟩

/-- Witness for C1 at a concrete input: the surviving Heart Rate record of
the S3 scenario is the Discharge one, and its rank is minimal against the
Admission candidate. -/
theorem claim_C1_objective_dedup_priority_witness :
    tsRankN "Discharge".toList ≤ tsRankN "Admission".toList :=
  ((claim_C1_objective_dedup_priority true
      ["VITALS|Heart Rate|88|Admission".toList,
       "VITALS|Heart Rate|72|Discharge".toList]).2.1
    ⟨"VITALS".toList, "Heart Rate".toList, "72".toList, "Discharge".toList⟩
    (by decide)).2
    ⟨"VITALS".toList, "Heart Rate".toList, "88".toList, "Admission".toList⟩
    (by decide) (by decide)

/-- C6: normalizing the single line VITALS|Blood Pressure|140/90|Admission
yields exactly the two records VITALS|Systolic BP|140|Admission and
VITALS|Diastolic BP|90|Admission (the output is sorted by keyword, so the
Diastolic record is listed first); in general, a VITALS Blood Pressure line
whose value is SBP/DBP for numeric tokens SBP and DBP, with a canonical
timestamp, expands into exactly the two facts Systolic BP=SBP and
Diastolic BP=DBP carrying the timestamp of the input line. -/
theorem claim_C6_bp_pair_expansion (sbp dbp : Str) (ts : String)
    (hs : isUNumTok sbp = true) (hd : isUNumTok dbp = true)
    (hts : ts ∈ (["Admission", "Discharge", "Past"] : List String)) :
    normalizeRecs true
        ["VITALS|Blood Pressure|".toList ++ sbp ++ '/' :: dbp ++ '|' :: ts.toList]
      = [⟨"VITALS".toList, "Diastolic BP".toList, dbp, ts.toList⟩,
         ⟨"VITALS".toList, "Systolic BP".toList, sbp, ts.toList⟩] ∧
    normalizeKvt4Lines true ["VITALS|Blood Pressure|140/90|Admission".toList]
      = ["VITALS|Diastolic BP|90|Admission".toList,
         "VITALS|Systolic BP|140|Admission".toList] := by
  constructor
  · have hts3 : ts = "Admission" ∨ ts = "Discharge" ∨ ts = "Past" := by
      simpa using hts
    rcases hts3 with rfl | rfl | rfl <;>
      exact normalizeRecs_bp true hs hd (by decide) (by decide) (by decide) (by decide)
        (by intro x l h; injection h with e _; rw [← e]; decide)
  · decide

/-- Witness for C6 at the concrete S1 scenario input 140/90 at Admission. -/
theorem claim_C6_bp_pair_expansion_witness :
    normalizeRecs true
        ["VITALS|Blood Pressure|".toList ++ "140".toList ++ '/' :: "90".toList ++
          '|' :: ("Admission" : String).toList]
      = [⟨"VITALS".toList, "Diastolic BP".toList, "90".toList, ("Admission" : String).toList⟩,
         ⟨"VITALS".toList, "Systolic BP".toList, "140".toList, ("Admission" : String).toList⟩] :=
  (claim_C6_bp_pair_expansion "140".toList "90".toList "Admission"
    (by decide) (by decide) (by decide)).1

end MedGemma

namespace MedGemma

/-- The Stage-2 sanitizer feature flags read via _env_truthy_stage2; the
validated profile (v41_validated defaults) has all four off, the experimental
profile has all four on. -/
structure Stage2Policy where
  recover3part : Bool
  reclassifyNonNumeric : Bool
  expandSemanticLines : Bool
  objectiveTsCanonicalAll : Bool
deriving DecidableEq, Repr

/-- The validated policy profile (all experimental recovery off). -/
def validatedPolicy : Stage2Policy := ⟨false, false, false, false⟩

/-- The experimental policy profile (all recovery on). -/
def experimentalPolicy : Stage2Policy := ⟨true, true, true, true⟩

/-- The scope argument of _sanitize_stage2_lines. -/
inductive Scope
  | objective
  | all
deriving DecidableEq, Repr

/-- _TEXT_PLACEHOLDERS of the pipeline script. -/
def textPlaceholders : List String :=
  ["", "not stated", "none", "none.", "unknown", "n/a", "na", "null", "...", "___"]

/-- The objective clusters of _sanitize_stage2_lines. -/
def s2ObjectiveClusters : List String :=
  ["DEMOGRAPHICS", "VITALS", "LABS", "UTILIZATION", "DISPOSITION"]

/-- The numeric clusters of _sanitize_stage2_lines. -/
def s2NumericClusters : List String := ["VITALS", "LABS", "UTILIZATION"]

/-- The semantic clusters of _sanitize_stage2_lines. -/
def s2SemanticClusters : List String :=
  ["PROBLEMS", "SYMPTOMS", "MEDICATIONS", "PROCEDURES"]

/-- _KW_TO_CLUSTER of _sanitize_stage2_lines: exact keyword → cluster. -/
def kwToCluster (kw : Str) : Str :=
  if strMem kw canonicalVitals then "VITALS".toList
  else if strMem kw canonicalLabs then "LABS".toList
  else if strMem kw ["Sex", "Age"] then "DEMOGRAPHICS".toList
  else if strMem kw utilizationKeywords then "UTILIZATION".toList
  else if strMem kw dispositionKeywords then "DISPOSITION".toList
  else if strMem kw proceduresKeywords then "PROCEDURES".toList
  else if strMem kw medicationsKeywords then "MEDICATIONS".toList
  else []

/-- ts_rank of _sanitize_stage2_lines: Discharge/DC=2, Admission/ADM=1,
everything else (including Past and Unknown) 0. -/
def tsRankS (ts : Str) : Nat :=
  if strMem (lowerL (trimL ts)) ["discharge", "dc"] then 2
  else if strMem (lowerL (trimL ts)) ["admission", "adm"] then 1
  else 0

/-- Python " ".join(s.split()): strip plus whitespace-run collapapse. -/
def pyWsNorm (s : Str) : Str := collapseWs (trimL s)

/-- Python s.rstrip(chars). -/
def rstripSet (cs : List Char) (s : Str) : Str :=
  (s.reverse.dropWhile (cs.contains ·)).reverse

/-- _normalize_semantic_keyword of _sanitize_stage2_lines. -/
def normSemKeyword (keyword : Str) : Str :=
  rstripSet [' ', ':', ';', ',', '.'] (pyWsNorm keyword)

/-- Split on every semicolon or newline (re.split on runs; empty pieces are
filtered by the caller, so per-character splitting is equivalent). -/
def splitSemiNl : Str → List Str
  | [] => [[]]
  | c :: cs =>
    if c = ';' ∨ c = '\n' then [] :: splitSemiNl cs
    else
      match splitSemiNl cs with
      | h :: t => (c :: h) :: t
      | [] => [[c]]

/-- _split_semantic_items of _sanitize_stage2_lines. -/
def splitSemanticItems (value : Str) : List Str :=
  if trimL value = [] then []
  else
    let level1 := ((splitSemiNl (trimL value)).map trimL).filter (fun x => x ≠ [])
    let parts := level1.flatMap (fun seg =>
      ((splitOnC ',' seg).map trimL).filter (fun x => x ≠ []))
    (parts.foldl (fun acc item =>
      let v := stripSet [' ', '-'] (pyWsNorm item)
      if v = [] then acc
      else if strMem (lowerL v) textPlaceholders then acc
      else if strMem (lowerL v) ["none", "nil"] then acc
      else if acc.contains v then acc
      else acc ++ [v]) [])

/-- _normalize_problem_value of _sanitize_stage2_lines. -/
def s2NormProblemValue (value tsRaw : Str) : Option Str :=
  if pyWsNorm (lowerL (trimL value)) = [] ∨
      strMem (pyWsNorm (lowerL (trimL value))) textPlaceholders then none
  else if strMem (pyWsNorm (lowerL (trimL value)))
      ["chronic", "acute", "exist", "not exist"] then
    some (pyWsNorm (lowerL (trimL value)))
  else if strMem (pyWsNorm (lowerL (trimL value)))
      ["past", "history", "historical", "pmh", "chronic condition",
       "chronic disease"] then some "chronic".toList
  else if strMem (pyWsNorm (lowerL (trimL value)))
      ["discharge", "discharged", "active", "current"] then some "acute".toList
  else if strMem (pyWsNorm (lowerL (trimL value)))
      ["present", "yes", "true", "1", "positive", "confirmed", "exists"] then
    some "exist".toList
  else if strMem (pyWsNorm (lowerL (trimL value)))
      ["no", "none", "false", "0", "absent", "negative", "not present",
       "ruled out"] then some "not exist".toList
  else if strMem (lowerL (trimL tsRaw)) ["discharge", "dc"] ∧
      containsSub "discharg".toList (pyWsNorm (lowerL (trimL value))) then
    some "acute".toList
  else if lowerL (trimL tsRaw) = "past".toList ∧
      (containsSub "hist".toList (pyWsNorm (lowerL (trimL value))) ∨
        containsSub "past".toList (pyWsNorm (lowerL (trimL value)))) then
    some "chronic".toList
  else none

/-- _normalize_symptom_value of _sanitize_stage2_lines. -/
def s2NormSymptomValue (value : Str) : Option Str :=
  if pyWsNorm (lowerL (trimL value)) = [] ∨
      strMem (pyWsNorm (lowerL (trimL value))) textPlaceholders then none
  else if strMem (pyWsNorm (lowerL (trimL value))) ["yes", "no", "severe"] then
    some (pyWsNorm (lowerL (trimL value)))
  else if strMem (pyWsNorm (lowerL (trimL value)))
      ["present", "positive", "true", "1", "y", "symptomatic"] then
    some "yes".toList
  else if strMem (pyWsNorm (lowerL (trimL value)))
      ["none", "absent", "negative", "false", "0", "n", "denied", "denies"] then
    some "no".toList
  else if containsSub "severe".toList (pyWsNorm (lowerL (trimL value))) ∨
      strMem (pyWsNorm (lowerL (trimL value))) ["marked", "significant"] then
    some "severe".toList
  else none

/-- _expand_semantic_line of _sanitize_stage2_lines, at the record level
(all produced fields are pipe-free, so the string form is recovered by
renderKvt). -/
def expandSemanticLine (clusterU keyword value tsRaw : Str) : List KVT :=
  if ¬ strMem clusterU ["PROBLEMS", "SYMPTOMS"] then
    [⟨clusterU, keyword, value, tsRaw⟩]
  else if clusterU = "PROBLEMS".toList then
    if strMem (lowerL (normSemKeyword keyword))
        ["discharge dx", "working dx", "complication", "complications"] ∧
        splitSemanticItems value ≠ [] then
      (splitSemanticItems value).map (fun it =>
        ⟨"PROBLEMS".toList, it, "acute".toList, "Discharge".toList⟩)
    else if strMem (lowerL (normSemKeyword keyword))
        ["pmh/comorbidities", "pmh", "comorbidities", "past medical history"] ∧
        splitSemanticItems value ≠ [] then
      (splitSemanticItems value).map (fun it =>
        ⟨"PROBLEMS".toList, it, "chronic".toList, "Past".toList⟩)
    else
      (s2NormProblemValue value tsRaw).elim [] (fun nv =>
        [⟨"PROBLEMS".toList, normSemKeyword keyword, nv,
          if lowerL (trimL tsRaw) = "unknown".toList then
            (if nv = "acute".toList then "Discharge".toList
             else if nv = "chronic".toList then "Past".toList
             else "Admission".toList)
          else tsRaw⟩])
  else
    if strMem (lowerL (normSemKeyword keyword))
        ["adm symptoms", "admission symptoms", "admission sx"] ∧
        splitSemanticItems value ≠ [] then
      (splitSemanticItems value).map (fun it =>
        ⟨"SYMPTOMS".toList, it, "yes".toList, "Admission".toList⟩)
    else if strMem (lowerL (normSemKeyword keyword))
        ["dc symptoms", "discharge symptoms", "discharge sx"] ∧
        splitSemanticItems value ≠ [] then
      (splitSemanticItems value).map (fun it =>
        ⟨"SYMPTOMS".toList, it, "yes".toList, "Discharge".toList⟩)
    else
      (s2NormSymptomValue value).elim [] (fun nv =>
        [⟨"SYMPTOMS".toList, normSemKeyword keyword, nv, tsRaw⟩])

end MedGemma

namespace MedGemma

/-- The cluster token cleanup of _sanitize_stage2_lines:
cluster.strip().strip("*<>").strip().upper(). -/
def s2ClusterU (c : Str) : Str :=
  upperL (trimL (stripSet ['*', '<', '>'] (trimL c)))

/-- The canonical default timestamp used by recovery and by the canonical
objective-timestamp rewrite of _sanitize_stage2_lines. -/
def s2DefaultTs (clusterU : Str) : Str :=
  if clusterU = "DISPOSITION".toList then "Discharge".toList
  else if clusterU = "UTILIZATION".toList then "Past".toList
  else "Admission".toList

/-- The 3-part recovery of _sanitize_stage2_lines (case A: missing timestamp,
case B: missing cluster), applied only under the recover_3part flag. -/
def s2Recover (pol : Stage2Policy) (parts : List Str) : List Str :=
  if pol.recover3part then
    match parts with
    | [a, b, c] =>
      if strMem (s2ClusterU a) (s2ObjectiveClusters ++ s2SemanticClusters) &&
          !b.isEmpty && !c.isEmpty then
        [s2ClusterU a, b, c, s2DefaultTs (s2ClusterU a)]
      else if !(kwToCluster a).isEmpty && !a.isEmpty && !b.isEmpty &&
          !c.isEmpty then
        [kwToCluster a, a, b, c]
      else [a, b, c]
    | other => other
  else parts

/-- value.strip(); if it starts with "$", lstrip("$") and strip again. -/
def s2StripDollar (v : Str) : Str :=
  if (trimL v).head? = some '$' then trimL ((trimL v).dropWhile (· = '$'))
  else trimL v

/-- timestamp.strip() plus the ADM/DC shorthand normalization. -/
def s2NormTs (ts : Str) : Str :=
  if lowerL (trimL ts) = "adm".toList then "Admission".toList
  else if lowerL (trimL ts) = "dc".toList then "Discharge".toList
  else trimL ts

/-- The reclassification of semantic-cluster lines carrying canonical
non-numeric objective keywords, applied only under the reclassify flag. -/
def s2Reclass (pol : Stage2Policy) (clusterU keyword : Str) : Str :=
  if pol.reclassifyNonNumeric && strMem clusterU s2SemanticClusters &&
      !(kwToCluster keyword).isEmpty &&
      !(strMem (kwToCluster keyword) s2NumericClusters) &&
      strMem (kwToCluster keyword) s2ObjectiveClusters then kwToCluster keyword
  else clusterU

/-- The loop state of _sanitize_stage2_lines: best_objective (a dict in
insertion order, values carrying their ts_rank) and other_lines. -/
structure S2State where
  best : List (KVT × Nat)
  others : List KVT
deriving Repr

/-- best_objective update: insert, or replace in place iff the new rank is
strictly greater than the stored one. -/
def s2BestInsert (best : List (KVT × Nat)) (r : KVT) (rk : Nat) :
    List (KVT × Nat) :=
  (best.find? (fun e => decide (kvtKey e.1 = kvtKey r))).elim (best ++ [(r, rk)])
    (fun prev =>
      if prev.2 < rk then
        best.map (fun e => if kvtKey e.1 = kvtKey r then (r, rk) else e)
      else best)

/-- The per-record dispatch of _sanitize_stage2_lines after field cleanup:
placeholder drop, numeric gate, reclassification, objective/semantic/unknown
routing. -/
def s2Process (pol : Stage2Policy) (scope : Scope) (st : S2State)
    (clusterU keyword value ts : Str) : S2State :=
  if lowerL value = "not stated".toList then st
  else if strMem clusterU s2NumericClusters && !isNumOnly value then st
  else if strMem (s2Reclass pol clusterU keyword) s2ObjectiveClusters then
    ⟨s2BestInsert st.best ⟨s2Reclass pol clusterU keyword, keyword, value, ts⟩
      (tsRankS ts), st.others⟩
  else if strMem (s2Reclass pol clusterU keyword) s2SemanticClusters then
    if scope = Scope.all then
      if pol.expandSemanticLines then
        ⟨st.best, st.others ++
          expandSemanticLine (s2Reclass pol clusterU keyword) keyword value ts⟩
      else
        ⟨st.best, st.others ++
          [⟨s2Reclass pol clusterU keyword, keyword, value, ts⟩]⟩
    else st
  else
    if scope = Scope.all then
      ⟨st.best, st.others ++ [⟨s2Reclass pol clusterU keyword, keyword, value, ts⟩]⟩
    else st

/-- One iteration of the main loop of _sanitize_stage2_lines: split on pipes,
strip each field, recover 3-part lines, require 4 nonempty fields, clean the
value and timestamp, dispatch. -/
def s2Step (pol : Stage2Policy) (scope : Scope) (st : S2State) (ln : Str) :
    S2State :=
  match s2Recover pol ((splitOnC '|' ln).map trimL) with
  | [cluster, keyword, value, timestamp] =>
    if cluster.isEmpty || keyword.isEmpty || value.isEmpty ||
        timestamp.isEmpty then st
    else
      s2Process pol scope st (s2ClusterU cluster) keyword
        (s2StripDollar value) (s2NormTs timestamp)
  | _ => st

/-- The timestamp written out for a best_objective entry: canonical when
scope=objective or the canonical-all flag is set, else the stored one. -/
def s2OutTs (pol : Stage2Policy) (scope : Scope) (c ts : Str) : Str :=
  if decide (scope = Scope.objective) || pol.objectiveTsCanonicalAll then
    s2DefaultTs c
  else ts

/-- The best_objective output records, in dict insertion order. -/
def s2ObjOut (pol : Stage2Policy) (scope : Scope) (best : List (KVT × Nat)) :
    List KVT :=
  best.map (fun e =>
    ⟨e.1.cluster, e.1.keyword, e.1.value, s2OutTs pol scope e.1.cluster e.1.timestamp⟩)

/-- The seen-set append of _sanitize_stage2_lines: the record is kept only if
its rendered line differs from every line already in the output (the Python
code dedups the rendered strings; seen = set(out) plus each appended line). -/
def seenAppend (out : List KVT) (r : KVT) : List KVT :=
  if renderKvt r ∈ out.map renderKvt then out else out ++ [r]

/-- The output assembly of _sanitize_stage2_lines: best_objective lines with
the timestamp rewrite, then (scope=all only) the exact-string-deduped
other_lines, then the stable sort by (cluster, keyword). -/
def s2Output (pol : Stage2Policy) (scope : Scope) (st : S2State) : List KVT :=
  if scope = Scope.objective then sortStable kvtLe (s2ObjOut pol scope st.best)
  else sortStable kvtLe (st.others.foldl seenAppend (s2ObjOut pol scope st.best))

/-- _sanitize_stage2_lines at the record level (every field of every record is
a pipe-free piece of a pipe-split, so the rendered lines and the records are
in bijection and the string sort key (split[0], split[1]) is exactly
(cluster, keyword)). -/
def sanitizeStage2Recs (pol : Stage2Policy) (scope : Scope) (lines : List Str) :
    List KVT :=
  s2Output pol scope (lines.foldl (s2Step pol scope) ⟨[], []⟩)

/-- _sanitize_stage2_lines: the sanitized output lines. -/
def sanitizeStage2Lines (pol : Stage2Policy) (scope : Scope) (lines : List Str) :
    List Str :=
  (sanitizeStage2Recs pol scope lines).map renderKvt

end MedGemma

namespace MedGemma

theorem strMem_cases {c : Str} {l : List String} (h : strMem c l = true) :
    ∃ x ∈ l, x.toList = c := by
  simpa only [strMem, List.any_eq_true, decide_eq_true_eq] using h

/-- Numeric clusters are objective clusters. -/
theorem strMem_numeric_objective {c : Str} (h : strMem c s2NumericClusters = true) :
    strMem c s2ObjectiveClusters = true := by
  obtain ⟨x, hx, hxc⟩ := strMem_cases h
  subst hxc
  simp only [s2NumericClusters, List.mem_cons, List.not_mem_nil, or_false] at hx
  rcases hx with rfl | rfl | rfl <;> decide

/-- Semantic clusters are not numeric clusters. -/
theorem strMem_semantic_not_numeric {c : Str}
    (h : strMem c s2SemanticClusters = true) :
    strMem c s2NumericClusters = false := by
  obtain ⟨x, hx, hxc⟩ := strMem_cases h
  subst hxc
  simp only [s2SemanticClusters, List.mem_cons, List.not_mem_nil, or_false] at hx
  rcases hx with rfl | rfl | rfl | rfl <;> decide

/-- The reclassification never targets a numeric cluster: if its result is
numeric, it did not fire. -/
theorem s2Reclass_numeric_eq {pol : Stage2Policy} {c k : Str}
    (h : strMem (s2Reclass pol c k) s2NumericClusters = true) :
    s2Reclass pol c k = c := by
  unfold s2Reclass at h ⊢
  split_ifs at h ⊢ with hcond
  · simp only [Bool.and_eq_true, Bool.not_eq_true'] at hcond
    obtain ⟨⟨⟨⟨_, _⟩, _⟩, hd⟩, _⟩ := hcond
    rw [h] at hd
    exact absurd hd (by decide)
  · rfl

/-- Every record produced by the semantic expansion carries the original
semantic cluster or PROBLEMS/SYMPTOMS. -/
theorem expandSemanticLine_cluster {cU k v t : Str} {r : KVT}
    (hr : r ∈ expandSemanticLine cU k v t) :
    r.cluster = cU ∨ r.cluster = "PROBLEMS".toList ∨ r.cluster = "SYMPTOMS".toList := by
  unfold expandSemanticLine at hr
  by_cases h0 : ¬ strMem cU ["PROBLEMS", "SYMPTOMS"] = true
  · rw [if_pos h0] at hr
    exact Or.inl (by rw [List.mem_singleton.mp hr])
  · rw [if_neg h0] at hr
    by_cases h1 : cU = "PROBLEMS".toList
    · rw [if_pos h1] at hr
      by_cases h2 : strMem (lowerL (normSemKeyword k))
          ["discharge dx", "working dx", "complication", "complications"] = true ∧
          splitSemanticItems v ≠ []
      · rw [if_pos h2] at hr
        obtain ⟨it, _, hie⟩ := List.mem_map.mp hr
        exact Or.inr (Or.inl (by rw [← hie]))
      · rw [if_neg h2] at hr
        by_cases h3 : strMem (lowerL (normSemKeyword k))
            ["pmh/comorbidities", "pmh", "comorbidities", "past medical history"] = true ∧
            splitSemanticItems v ≠ []
        · rw [if_pos h3] at hr
          obtain ⟨it, _, hie⟩ := List.mem_map.mp hr
          exact Or.inr (Or.inl (by rw [← hie]))
        · rw [if_neg h3] at hr
          cases hv : s2NormProblemValue v t with
          | none =>
            rw [hv, elim_none] at hr
            exact absurd hr (List.not_mem_nil r)
          | some nv =>
            rw [hv, elim_some] at hr
            exact Or.inr (Or.inl (by rw [List.mem_singleton.mp hr]))
    · rw [if_neg h1] at hr
      by_cases h4 : strMem (lowerL (normSemKeyword k))
          ["adm symptoms", "admission symptoms", "admission sx"] = true ∧
          splitSemanticItems v ≠ []
      · rw [if_pos h4] at hr
        obtain ⟨it, _, hie⟩ := List.mem_map.mp hr
        exact Or.inr (Or.inr (by rw [← hie]))
      · rw [if_neg h4] at hr
        by_cases h5 : strMem (lowerL (normSemKeyword k))
            ["dc symptoms", "discharge symptoms", "discharge sx"] = true ∧
            splitSemanticItems v ≠ []
        · rw [if_pos h5] at hr
          obtain ⟨it, _, hie⟩ := List.mem_map.mp hr
          exact Or.inr (Or.inr (by rw [← hie]))
        · rw [if_neg h5] at hr
          cases hv : s2NormSymptomValue v with
          | none =>
            rw [hv, elim_none] at hr
            exact absurd hr (List.not_mem_nil r)
          | some nv =>
            rw [hv, elim_some] at hr
            exact Or.inr (Or.inr (by rw [List.mem_singleton.mp hr]))

/-- Every entry of the updated best_objective dict is an old entry or the
newly offered one. -/
theorem s2BestInsert_mem {best : List (KVT × Nat)} {r : KVT} {rk : Nat}
    {e : KVT × Nat} (he : e ∈ s2BestInsert best r rk) :
    e ∈ best ∨ e = (r, rk) := by
  unfold s2BestInsert at he
  cases hf : best.find? (fun e => decide (kvtKey e.1 = kvtKey r)) with
  | none =>
    rw [hf] at he
    simp only [elim_none] at he
    rcases List.mem_append.mp he with h | h
    · exact Or.inl h
    · exact Or.inr (List.mem_singleton.mp h)
  | some prev =>
    rw [hf] at he
    simp only [elim_some] at he
    by_cases hrank : prev.2 < rk
    · rw [if_pos hrank] at he
      obtain ⟨a, ha, hae⟩ := List.mem_map.mp he
      by_cases hk : kvtKey a.1 = kvtKey r
      · rw [if_pos hk] at hae
        exact Or.inr hae.symm
      · rw [if_neg hk] at hae
        exact Or.inl (hae ▸ ha)
    · rw [if_neg hrank] at he
      exact Or.inl he

/-- The best_objective update keeps the (cluster, keyword) keys pairwise
distinct. -/
theorem s2BestInsert_keys {best : List (KVT × Nat)} {r : KVT} {rk : Nat}
    (h : List.Pairwise (fun a b => kvtKey a.1 ≠ kvtKey b.1) best) :
    List.Pairwise (fun a b => kvtKey a.1 ≠ kvtKey b.1) (s2BestInsert best r rk) := by
  unfold s2BestInsert
  cases hf : best.find? (fun e => decide (kvtKey e.1 = kvtKey r)) with
  | none =>
    have hnone := List.find?_eq_none.mp hf
    simp only [elim_none]
    rw [List.pairwise_append]
    refine ⟨h, List.pairwise_singleton _ _, ?_⟩
    intro a ha b hb
    rw [List.mem_singleton.mp hb]
    intro hk
    exact hnone a ha (decide_eq_true hk)
  | some prev =>
    simp only [elim_some]
    by_cases hrank : prev.2 < rk
    · rw [if_pos hrank]
      refine List.Pairwise.map _ (fun a b hab => ?_) h
      have hka : kvtKey (if kvtKey a.1 = kvtKey r then (r, rk) else a).1 = kvtKey a.1 := by
        by_cases hk : kvtKey a.1 = kvtKey r
        · rw [if_pos hk, hk]
        · rw [if_neg hk]
      have hkb : kvtKey (if kvtKey b.1 = kvtKey r then (r, rk) else b).1 = kvtKey b.1 := by
        by_cases hk : kvtKey b.1 = kvtKey r
        · rw [if_pos hk, hk]
        · rw [if_neg hk]
      rw [hka, hkb]
      exact hab
    · rw [if_neg hrank]
      exact h

end MedGemma

namespace MedGemma

/-- A record produced by the first normalization pass in one of the numeric
clusters VITALS/LABS/UTILIZATION carries a regex-numeric value. -/
theorem normStep_numeric {fillUnk : Bool} {line : Str} {r : KVT}
    (hr : r ∈ normStep fillUnk line)
    (hnum : strMem r.cluster s2NumericClusters = true) :
    isNumOnly r.value = true := by
  unfold normStep at hr
  cases hp : parseKvtLine line with
  | none =>
    rw [hp, elim_none] at hr
    exact absurd hr (List.not_mem_nil r)
  | some p =>
    rw [hp, elim_some] at hr
    by_cases hph : strMem (trimL p.value)
        ["___", "__", "_", "N/A", "NA", "null", "None"] = true
    · rw [if_pos hph] at hr
      exact absurd hr (List.not_mem_nil r)
    · rw [if_neg hph] at hr
      cases hcn : clusterNormalize
          (upperL (trimL (stripSet ['*', '<', '>'] (trimL p.cluster))))
          (trimL p.keyword) (trimL p.value) with
      | drop =>
        rw [hcn] at hr
        exact absurd hr (List.not_mem_nil r)
      | bp a b =>
        rw [hcn] at hr
        obtain ⟨ha, hb⟩ := clusterNormalize_bp hcn
        simp only [normStepOut] at hr
        rcases List.mem_cons.mp hr with rfl | hr2
        · exact isNumOnly_of_isUNumTok ha
        · rw [List.mem_singleton.mp hr2]
          exact isNumOnly_of_isUNumTok hb
      | keep k2 v2 =>
        rw [hcn] at hr
        simp only [normStepOut] at hr
        by_cases hks : keepStrictOK
            (upperL (trimL (stripSet ['*', '<', '>'] (trimL p.cluster)))) k2 = true
        · rw [if_pos hks] at hr
          rw [List.mem_singleton.mp hr] at hnum ⊢
          exact clusterNormalize_numeric_value hnum hcn
        · rw [if_neg hks] at hr
          exact absurd hr (List.not_mem_nil r)

/-- Numeric purity of normalize_readmission_kvt4_lines: every output record
in VITALS/LABS/UTILIZATION has a regex-numeric value. -/
theorem normalizeRecs_numeric {fillUnk : Bool} {lines : List Str} {r : KVT}
    (hr : r ∈ normalizeRecs fillUnk lines)
    (hnum : strMem r.cluster s2NumericClusters = true) :
    isNumOnly r.value = true := by
  obtain ⟨hc, _⟩ := (normalizeRecs_spec fillUnk lines).2 r hr
  obtain ⟨l, hl, hstep⟩ := List.mem_flatMap.mp hc
  exact normStep_numeric hstep hnum

/-- The loop invariant of _sanitize_stage2_lines: best_objective keys are
pairwise distinct, numeric-cluster best entries have numeric values, and
other_lines never carry a numeric cluster. -/
def S2Inv (st : S2State) : Prop :=
  List.Pairwise (fun a b => kvtKey a.1 ≠ kvtKey b.1) st.best ∧
  (∀ e ∈ st.best, strMem e.1.cluster s2NumericClusters = true →
    isNumOnly e.1.value = true) ∧
  (∀ r ∈ st.others, strMem r.cluster s2NumericClusters = false)

theorem s2Process_inv {pol : Stage2Policy} {scope : Scope} {st : S2State}
    {cU k v ts : Str} (hinv : S2Inv st) :
    S2Inv (s2Process pol scope st cU k v ts) := by
  obtain ⟨hkeys, hbest, hoth⟩ := hinv
  unfold s2Process
  split_ifs with h1 h2 h3 h4 h5 h6 h7
  · exact ⟨hkeys, hbest, hoth⟩
  · exact ⟨hkeys, hbest, hoth⟩
  · refine ⟨s2BestInsert_keys hkeys, ?_, hoth⟩
    intro e he hnum
    rcases s2BestInsert_mem he with he' | heq
    · exact hbest e he' hnum
    · subst heq
      have hc := s2Reclass_numeric_eq hnum
      rw [hc] at hnum
      cases hnv : isNumOnly v with
      | true => exact rfl
      | false =>
        exact absurd (by rw [hnum, hnv]; rfl :
          (strMem cU s2NumericClusters && !isNumOnly v) = true) h2
  · refine ⟨hkeys, hbest, ?_⟩
    intro r hrm
    rcases List.mem_append.mp hrm with h | h
    · exact hoth r h
    · rcases expandSemanticLine_cluster h with hc | hc | hc
      · rw [hc]
        exact strMem_semantic_not_numeric h4
      · rw [hc]; decide
      · rw [hc]; decide
  · refine ⟨hkeys, hbest, ?_⟩
    intro r hrm
    rcases List.mem_append.mp hrm with h | h
    · exact hoth r h
    · rw [List.mem_singleton.mp h]
      exact strMem_semantic_not_numeric h4
  · exact ⟨hkeys, hbest, hoth⟩
  · refine ⟨hkeys, hbest, ?_⟩
    intro r hrm
    rcases List.mem_append.mp hrm with h | h
    · exact hoth r h
    · rw [List.mem_singleton.mp h]
      cases hm : strMem (s2Reclass pol cU k) s2NumericClusters with
      | false => exact rfl
      | true => exact absurd (strMem_numeric_objective hm) h3
  · exact ⟨hkeys, hbest, hoth⟩

theorem s2Step_inv {pol : Stage2Policy} {scope : Scope} {st : S2State}
    {ln : Str} (hinv : S2Inv st) : S2Inv (s2Step pol scope st ln) := by
  unfold s2Step
  cases hm : s2Recover pol ((splitOnC '|' ln).map trimL) with
  | nil => exact hinv
  | cons a t =>
    cases t with
    | nil => exact hinv
    | cons b t2 =>
      cases t2 with
      | nil => exact hinv
      | cons c t3 =>
        cases t3 with
        | nil => exact hinv
        | cons d t4 =>
          cases t4 with
          | cons e t5 => exact hinv
          | nil =>
            show S2Inv (if (a.isEmpty || b.isEmpty || c.isEmpty || d.isEmpty) = true
              then st
              else s2Process pol scope st (s2ClusterU a) b (s2StripDollar c)
                (s2NormTs d))
            split_ifs with hemp
            · exact hinv
            · exact s2Process_inv hinv

theorem s2Foldl_inv (pol : Stage2Policy) (scope : Scope) (lines : List Str) :
    ∀ st, S2Inv st → S2Inv (lines.foldl (s2Step pol scope) st) := by
  induction lines with
  | nil => intro st h; exact h
  | cons x xs ih =>
    intro st h
    exact ih _ (s2Step_inv h)

end MedGemma

namespace MedGemma

/-- Every record surviving the exact-string semantic dedup came from the seed
list or from other_lines. -/
theorem seenAppend_foldl_mem {others : List KVT} :
    ∀ {init : List KVT} {r : KVT}, r ∈ others.foldl seenAppend init →
      r ∈ init ∨ r ∈ others := by
  induction others with
  | nil =>
    intro init r h
    exact Or.inl h
  | cons x xs ih =>
    intro init r h
    rcases ih h with h1 | h1
    · unfold seenAppend at h1
      split_ifs at h1
      · exact Or.inl h1
      · rcases List.mem_append.mp h1 with h2 | h2
        · exact Or.inl h2
        · rw [List.mem_singleton.mp h2]
          exact Or.inr (List.mem_cons_self x xs)
    · exact Or.inr (List.mem_cons_of_mem x h1)

/-- The exact-string semantic dedup preserves duplicate-freeness. -/
theorem seenAppend_foldl_nodup {others : List KVT} :
    ∀ {init : List KVT}, init.Nodup → (others.foldl seenAppend init).Nodup := by
  induction others with
  | nil => intro init h; exact h
  | cons x xs ih =>
    intro init h
    apply ih
    unfold seenAppend
    split_ifs with hmem
    · exact h
    · rw [List.nodup_append]
      refine ⟨h, List.nodup_singleton x, ?_⟩
      intro a ha hax
      rw [List.mem_singleton.mp hax] at ha
      exact hmem (List.mem_map_of_mem renderKvt ha)

/-- The rendered best_objective records keep their pairwise-distinct keys. -/
theorem s2ObjOut_key_pairwise {pol : Stage2Policy} {scope : Scope}
    {best : List (KVT × Nat)}
    (h : List.Pairwise (fun a b => kvtKey a.1 ≠ kvtKey b.1) best) :
    List.Pairwise (fun a b => kvtKey a ≠ kvtKey b) (s2ObjOut pol scope best) := by
  unfold s2ObjOut
  exact List.Pairwise.map _ (fun a b hab => hab) h

theorem s2ObjOut_nodup {pol : Stage2Policy} {scope : Scope}
    {best : List (KVT × Nat)}
    (h : List.Pairwise (fun a b => kvtKey a.1 ≠ kvtKey b.1) best) :
    (s2ObjOut pol scope best).Nodup :=
  (s2ObjOut_key_pairwise h).imp (fun hk heq => hk (congrArg kvtKey heq))

/-- The cluster and value of every rendered best_objective record are those of
its dict entry. -/
theorem s2ObjOut_mem {pol : Stage2Policy} {scope : Scope}
    {best : List (KVT × Nat)} {r : KVT} (hr : r ∈ s2ObjOut pol scope best) :
    ∃ e ∈ best, r.cluster = e.1.cluster ∧ r.value = e.1.value := by
  unfold s2ObjOut at hr
  obtain ⟨e, he, hee⟩ := List.mem_map.mp hr
  exact ⟨e, he, by rw [← hee], by rw [← hee]⟩

/-- The empty loop state satisfies the invariant. -/
theorem s2Inv_init : S2Inv ⟨[], []⟩ := by
  refine ⟨List.Pairwise.nil, ?_, ?_⟩
  · intro e he
    exact absurd he (List.not_mem_nil e)
  · intro r hr
    exact absurd hr (List.not_mem_nil r)

/-- Numeric purity of _sanitize_stage2_lines: every output record in
VITALS/LABS/UTILIZATION has a regex-numeric value. -/
theorem sanitizeStage2Recs_numeric {pol : Stage2Policy} {scope : Scope}
    {lines : List Str} {r : KVT}
    (hr : r ∈ sanitizeStage2Recs pol scope lines)
    (hnum : strMem r.cluster s2NumericClusters = true) :
    isNumOnly r.value = true := by
  have hinv := s2Foldl_inv pol scope lines ⟨[], []⟩ s2Inv_init
  obtain ⟨hkeys, hbest, hoth⟩ := hinv
  unfold sanitizeStage2Recs s2Output at hr
  split_ifs at hr with hsc
  · have hr2 := (sortStable_perm kvtLe _).mem_iff.mp hr
    obtain ⟨e, he, hce, hve⟩ := s2ObjOut_mem hr2
    rw [hve]
    exact hbest e he (by rw [← hce]; exact hnum)
  · have hr2 := (sortStable_perm kvtLe _).mem_iff.mp hr
    rcases seenAppend_foldl_mem hr2 with h | h
    · obtain ⟨e, he, hce, hve⟩ := s2ObjOut_mem h
      rw [hve]
      exact hbest e he (by rw [← hce]; exact hnum)
    · have hfalse := hoth r h
      rw [hnum] at hfalse
      exact absurd hfalse (by decide)

end MedGemma

namespace MedGemma

/-- C5: after sanitation (normalize_readmission_kvt4_lines at the record
level, and _sanitize_stage2_lines for every policy profile and scope), every
output record whose cluster is VITALS, LABS or UTILIZATION carries a value
that fully matches the anchored numeric regex -?\d+(\.\d+)?. -/
theorem claim_C5_numeric_purity :
    (∀ (fillUnk : Bool) (lines : List Str) (r : KVT),
      r ∈ normalizeRecs fillUnk lines →
      strMem r.cluster s2NumericClusters = true → isNumOnly r.value = true) ∧
    (∀ (pol : Stage2Policy) (scope : Scope) (lines : List Str) (r : KVT),
      r ∈ sanitizeStage2Recs pol scope lines →
      strMem r.cluster s2NumericClusters = true → isNumOnly r.value = true) :=
  ⟨fun _ _ _ hr hn => normalizeRecs_numeric hr hn,
   fun _ _ _ _ hr hn => sanitizeStage2Recs_numeric hr hn⟩

theorem claim_C5_numeric_purity_witness :
    isNumOnly "12.5".toList = true ∧ isNumOnly "99".toList = true :=
  ⟨claim_C5_numeric_purity.1 true ["LABS|WBC|12.5 K/uL|Admission".toList]
      ⟨"LABS".toList, "WBC".toList, "12.5".toList, "Admission".toList⟩
      (by decide) (by decide),
   claim_C5_numeric_purity.2 validatedPolicy Scope.all
      ["VITALS|Heart Rate|99|Admission".toList]
      ⟨"VITALS".toList, "Heart Rate".toList, "99".toList, "Admission".toList⟩
      (by decide) (by decide)⟩

/-- C7 (counterexample to the claimed (cluster, keyword, timestamp) dedup):
with the validated policy and scope=all, the inputs PROBLEMS|HTN|chronic|Past
and PROBLEMS|HTN|acute|Past both survive _sanitize_stage2_lines, so the
output holds two distinct semantic records sharing cluster, keyword and
timestamp. -/
theorem claim_C7_counterexample :
    ∃ r1 ∈ sanitizeStage2Recs validatedPolicy Scope.all
        ["PROBLEMS|HTN|chronic|Past".toList, "PROBLEMS|HTN|acute|Past".toList],
      ∃ r2 ∈ sanitizeStage2Recs validatedPolicy Scope.all
        ["PROBLEMS|HTN|chronic|Past".toList, "PROBLEMS|HTN|acute|Past".toList],
      strMem r1.cluster s2SemanticClusters = true ∧
      r1.cluster = r2.cluster ∧ r1.keyword = r2.keyword ∧
      r1.timestamp = r2.timestamp ∧ r1 ≠ r2 := by
  refine ⟨⟨"PROBLEMS".toList, "HTN".toList, "chronic".toList, "Past".toList⟩,
    by decide,
    ⟨"PROBLEMS".toList, "HTN".toList, "acute".toList, "Past".toList⟩,
    by decide, by decide, rfl, rfl, rfl, by decide⟩

/-- C7 (amended): after Stage-2 sanitation with scope=all the output list
holds no duplicate record — semantic lines are deduplicated by exact full-line
identity (cluster, keyword, value and timestamp all equal), not by the
(cluster, keyword, timestamp) triple. -/
theorem claim_C7_semantic_dedup_exact (pol : Stage2Policy) (lines : List Str) :
    (sanitizeStage2Recs pol Scope.all lines).Nodup := by
  have hinv := s2Foldl_inv pol Scope.all lines ⟨[], []⟩ s2Inv_init
  unfold sanitizeStage2Recs s2Output
  rw [if_neg (by decide : ¬ (Scope.all = Scope.objective))]
  rw [(sortStable_perm kvtLe _).nodup_iff]
  exact seenAppend_foldl_nodup (s2ObjOut_nodup hinv.1)

end MedGemma

namespace MedGemma

/-- The section-presence scan of _drop_hallucinated_negatives: a guarded
cluster is present when some markdown line, stripped, starts with "## " and
names it (stripped and upper-cased). The upstream markdown is joined with
newlines, so splitting on the newline character models str.splitlines. -/
def mdPresent (md : Str) (cluster : Str) : Bool :=
  (splitOnC '\n' md).any (fun ln =>
    startsWithL "## ".toList (trimL ln) &&
      decide (upperL (trimL ((trimL ln).drop 3)) = cluster))

/-- The keep decision of _drop_hallucinated_negatives for a 4-field line:
drop guarded-cluster (MEDICATIONS/PROCEDURES) negatives from absent sections,
except the PROCEDURES|Any Procedure fallback. -/
def hallucGuardKeep (md c k v : Str) : Bool :=
  !(strMem (upperL (trimL c)) ["MEDICATIONS", "PROCEDURES"] &&
    !mdPresent md (upperL (trimL c)) &&
    decide (lowerL (trimL v) = "no".toList) &&
    !(decide (upperL (trimL c) = "PROCEDURES".toList) &&
      decide (trimL k = "Any Procedure".toList)))

/-- The per-line keep decision: lines that do not split into exactly four
pipe-separated fields always pass through. -/
def dropHallucinatedKeep (md : Str) (ln : Str) : Bool :=
  match splitOnC '|' ln with
  | [c, k, v, _] => hallucGuardKeep md c k v
  | _ => true

/-- _drop_hallucinated_negatives (the dropped-count print is metrics only). -/
def dropHallucinatedNegatives (lines : List Str) (md : Str) : List Str :=
  lines.filter (dropHallucinatedKeep md)

theorem dropHallucinatedKeep_eq {md ln c k v t : Str}
    (h : splitOnC '|' ln = [c, k, v, t]) :
    dropHallucinatedKeep md ln = hallucGuardKeep md c k v := by
  unfold dropHallucinatedKeep
  rw [h]

theorem hallucGuardKeep_meds {md c k v : Str}
    (hc : upperL (trimL c) = "MEDICATIONS".toList)
    (hpres : mdPresent md "MEDICATIONS".toList = false)
    (hk : hallucGuardKeep md c k v = true) :
    lowerL (trimL v) ≠ "no".toList := by
  intro hv
  unfold hallucGuardKeep at hk
  rw [hc, hv, hpres] at hk
  simp only [Bool.not_eq_true'] at hk
  rw [(by decide : decide ("MEDICATIONS".toList = "PROCEDURES".toList) = false)] at hk
  simp only [Bool.false_and, Bool.not_false, Bool.and_true] at hk
  exact absurd hk (by decide)

theorem hallucGuardKeep_proc {md c k v : Str}
    (hc : upperL (trimL c) = "PROCEDURES".toList)
    (hpres : mdPresent md "PROCEDURES".toList = false)
    (hv : lowerL (trimL v) = "no".toList)
    (hk : hallucGuardKeep md c k v = true) :
    trimL k = "Any Procedure".toList := by
  by_contra hne
  unfold hallucGuardKeep at hk
  rw [hc, hv, hpres] at hk
  simp only [Bool.not_eq_true'] at hk
  rw [decide_eq_false hne] at hk
  exact absurd hk (by decide)

end MedGemma

namespace MedGemma

/-- C8: when the Stage-1 markdown holds no "## MEDICATIONS" header, the
hallucinated-negative guard keeps no MEDICATIONS record with value "no"; when
it holds no "## PROCEDURES" header, every surviving PROCEDURES record with
value "no" is the Any Procedure weak fallback; the output is a subsequence of
the input (original order, records unchanged) containing every kept line; and
the concrete absent-markdown example keeps exactly the fallback and the
non-guarded record. -/
theorem claim_C8_hallucinated_negative_guard :
    (∀ (md : Str) (lines : List Str) (ln c k v t : Str),
      mdPresent md "MEDICATIONS".toList = false →
      ln ∈ dropHallucinatedNegatives lines md →
      splitOnC '|' ln = [c, k, v, t] →
      upperL (trimL c) = "MEDICATIONS".toList →
      lowerL (trimL v) ≠ "no".toList) ∧
    (∀ (md : Str) (lines : List Str) (ln c k v t : Str),
      mdPresent md "PROCEDURES".toList = false →
      ln ∈ dropHallucinatedNegatives lines md →
      splitOnC '|' ln = [c, k, v, t] →
      upperL (trimL c) = "PROCEDURES".toList →
      lowerL (trimL v) = "no".toList →
      trimL k = "Any Procedure".toList) ∧
    (∀ (md : Str) (lines : List Str),
      List.Sublist (dropHallucinatedNegatives lines md) lines ∧
      ∀ ln ∈ lines, dropHallucinatedKeep md ln = true →
        ln ∈ dropHallucinatedNegatives lines md) ∧
    dropHallucinatedNegatives
      ["MEDICATIONS|Anticoagulation|no|Admission".toList,
       "PROCEDURES|Surgery|no|Admission".toList,
       "PROCEDURES|Dialysis|no|Admission".toList,
       "PROCEDURES|Mechanical Ventilation|no|Admission".toList,
       "PROCEDURES|Any Procedure|no|Admission".toList,
       "VITALS|Heart Rate|88|Admission".toList] [] =
      ["PROCEDURES|Any Procedure|no|Admission".toList,
       "VITALS|Heart Rate|88|Admission".toList] := by
  refine ⟨?_, ?_, ?_, by decide⟩
  · intro md lines ln c k v t hpres hmem hsplit hc
    have hk := (List.mem_filter.mp hmem).2
    rw [dropHallucinatedKeep_eq hsplit] at hk
    exact hallucGuardKeep_meds hc hpres hk
  · intro md lines ln c k v t hpres hmem hsplit hc hv
    have hk := (List.mem_filter.mp hmem).2
    rw [dropHallucinatedKeep_eq hsplit] at hk
    exact hallucGuardKeep_proc hc hpres hv hk
  · intro md lines
    refine ⟨List.filter_sublist lines, ?_⟩
    intro ln hln hkeep
    exact List.mem_filter.mpr ⟨hln, hkeep⟩

theorem claim_C8_hallucinated_negative_guard_witness :
    lowerL (trimL "yes".toList) ≠ "no".toList ∧
    trimL "Any Procedure ".toList = "Any Procedure".toList ∧
    "VITALS|Heart Rate|88|Admission".toList ∈
      dropHallucinatedNegatives ["VITALS|Heart Rate|88|Admission".toList] [] :=
  ⟨claim_C8_hallucinated_negative_guard.1 []
      ["MEDICATIONS|Warfarin|yes|Admission".toList]
      "MEDICATIONS|Warfarin|yes|Admission".toList
      "MEDICATIONS".toList "Warfarin".toList "yes".toList "Admission".toList
      (by decide) (by decide) (by decide) (by decide),
   claim_C8_hallucinated_negative_guard.2.1 []
      ["PROCEDURES|Any Procedure |no|Admission".toList]
      "PROCEDURES|Any Procedure |no|Admission".toList
      "PROCEDURES".toList "Any Procedure ".toList "no".toList "Admission".toList
      (by decide) (by decide) (by decide) (by decide) (by decide),
   (claim_C8_hallucinated_negative_guard.2.2.1 []
      ["VITALS|Heart Rate|88|Admission".toList]).2
      "VITALS|Heart Rate|88|Admission".toList (by decide) (by decide)⟩

end MedGemma

namespace MedGemma

/-- First index of a substring (Python str.find, -1 becoming none). -/
def findSub (needle : Str) : Str → Option Nat
  | [] => if needle.isEmpty then some 0 else none
  | c :: cs =>
    if needle.isPrefixOf (c :: cs) then some 0
    else (findSub needle cs).map (· + 1)

/-- Last index of a character (Python str.rfind). -/
def rfindChar (c : Char) (s : Str) : Option Nat :=
  (findSub [c] s.reverse).map (fun i => s.length - 1 - i)

/-- urllib.parse result record (scheme, netloc, path, params, query,
fragment). -/
structure UrlParts where
  scheme : Str
  netloc : Str
  path : Str
  params : Str
  query : Str
  fragment : Str
deriving Repr, DecidableEq

/-- urllib.parse.scheme_chars. -/
def schemeChar (c : Char) : Bool :=
  c.isAlpha || c.isDigit || c = '+' || c = '-' || c = '.'

/-- The scheme split of urllib.parse.urlsplit: a valid scheme before the
first colon is taken off and lower-cased. -/
def splitScheme (u : Str) : Str × Str :=
  match findSub [':'] u with
  | some i =>
    if decide (0 < i) && u.head?.elim false (fun c => c.isAlpha) &&
        (u.take i).all schemeChar then
      (lowerL (u.take i), u.drop (i + 1))
    else ([], u)
  | none => ([], u)

/-- The netloc split of urlsplit: after a leading //, up to the first of
/, ? or #. -/
def splitNetloc (u : Str) : Str × Str :=
  if startsWithL "//".toList u then
    ((u.drop 2).takeWhile (fun c => !(c = '/' || c = '?' || c = '#')),
     (u.drop 2).dropWhile (fun c => !(c = '/' || c = '?' || c = '#')))
  else ([], u)

/-- Split at the first #, if any (rest, fragment). -/
def splitFragment (u : Str) : Str × Str :=
  match findSub ['#'] u with
  | some i => (u.take i, u.drop (i + 1))
  | none => (u, [])

/-- Split at the first ?, if any (rest, query). -/
def splitQuery (u : Str) : Str × Str :=
  match findSub ['?'] u with
  | some i => (u.take i, u.drop (i + 1))
  | none => (u, [])

/-- urllib.parse.uses_params. -/
def usesParams : List String :=
  ["", "ftp", "hdl", "prospero", "http", "imap", "https", "shttp", "rtsp",
   "rtsps", "rtspu", "sip", "sips", "mms", "sftp", "tel"]

/-- urllib.parse.uses_netloc. -/
def usesNetloc : List String :=
  ["", "ftp", "http", "gopher", "nntp", "telnet", "imap", "wais", "file",
   "mms", "https", "shttp", "snews", "prospero", "rtsp", "rtsps", "rtspu",
   "rsync", "svn", "svn+ssh", "sftp", "nfs", "git", "git+ssh", "ws", "wss"]

/-- The params split of urllib.parse.urlparse (_splitparams): a semicolon in
the last path segment starts the params, for schemes that use them. -/
def splitParamsP (scheme p : Str) : Str × Str :=
  if strMem scheme usesParams && containsSub [';'] p then
    if containsSub ['/'] p then
      match rfindChar '/' p with
      | none => (p, [])
      | some j =>
        match findSub [';'] (p.drop j) with
        | none => (p, [])
        | some k => (p.take (j + k), p.drop (j + k + 1))
    else
      match findSub [';'] p with
      | none => (p, [])
      | some k => (p.take k, p.drop (k + 1))
  else (p, [])

/-- urllib.parse.urlparse, modelled for URLs free of ASCII control
characters (the caller strips surrounding whitespace first, and the unsafe
tab/newline removal of the library is the identity on such inputs). -/
def urlparseM (u : Str) : UrlParts :=
  let s1 := splitScheme u
  let s2 := splitNetloc s1.2
  let s3 := splitFragment s2.2
  let s4 := splitQuery s3.1
  let s5 := splitParamsP s1.1 s4.1
  ⟨s1.1, s2.1, s5.1, s5.2, s4.2, s3.2⟩

/-- urllib.parse.urlunsplit. -/
def urlunsplitM (scheme netloc path query fragment : Str) : Str :=
  let u1 := if netloc ≠ [] ∨
      (scheme ≠ [] ∧ strMem scheme usesNetloc = true ∧
        ¬ startsWithL "//".toList path = true) then
      "//".toList ++ netloc ++
        (if path ≠ [] ∧ path.head? ≠ some '/' then '/' :: path else path)
    else path
  let u2 := if scheme ≠ [] then scheme ++ ':' :: u1 else u1
  let u3 := if query ≠ [] then u2 ++ '?' :: query else u2
  if fragment ≠ [] then u3 ++ '#' :: fragment else u3

/-- urllib.parse.urlunparse. -/
def urlunparseM (scheme netloc path params query fragment : Str) : Str :=
  urlunsplitM scheme netloc
    (if params ≠ [] then path ++ ';' :: params else path) query fragment

/-- The scheme completion of _normalize_urls: prefix http:// when the input
has no "://". -/
def ensureScheme (u : Str) : Str :=
  if containsSub "://".toList u then u else "http://".toList ++ u

/-- The endpoint-path trim of _normalize_urls: taken iff the FIRST substring
occurrence of "/v1" in the path is followed by nothing or a slash. -/
def v1TrimPath (path : Str) : Str :=
  match findSub "/v1".toList path with
  | none => path
  | some i =>
    if path.drop (i + 3) = [] ∨ (path.drop (i + 3)).head? = some '/' then
      path.take i
    else path

/-- The root URL computed by OpenAICompatibleChatClient._normalize_urls for a
nonempty input. -/
def normalizeRoot (url : Str) : Str :=
  rstripSet ['/'] (urlunparseM (urlparseM (ensureScheme (trimL url))).scheme
    (urlparseM (ensureScheme (trimL url))).netloc
    (v1TrimPath (rstripSet ['/'] (urlparseM (ensureScheme (trimL url))).path))
    [] (urlparseM (ensureScheme (trimL url))).query
    (urlparseM (ensureScheme (trimL url))).fragment)

/-- OpenAICompatibleChatClient._normalize_urls. -/
def normalizeUrls (url : Str) : Str × Str :=
  if trimL url = [] then ([], "/v1".toList)
  else (normalizeRoot url, normalizeRoot url ++ "/v1".toList)

end MedGemma

namespace MedGemma

/-- C9 (counterexample to trimming at every real segment boundary): the path
of http://localhost:8080/v1x/v1 contains "/v1" at a real segment boundary
(index 4, followed by nothing), yet _normalize_urls does not trim it — the
code inspects only the first substring occurrence of "/v1" (index 0, followed
by "x/..."), so the root keeps the whole path and v1 stacks another /v1. -/
theorem claim_C9_counterexample :
    normalizeUrls "http://localhost:8080/v1x/v1".toList =
      ("http://localhost:8080/v1x/v1".toList,
       "http://localhost:8080/v1x/v1/v1".toList) ∧
    ((rstripSet ['/'] (urlparseM (ensureScheme
        (trimL "http://localhost:8080/v1x/v1".toList))).path).drop (4 + 3) = []
      ∧ "/v1".toList.isPrefixOf ((rstripSet ['/'] (urlparseM (ensureScheme
        (trimL "http://localhost:8080/v1x/v1".toList))).path).drop 4)) := by
  decide

/-- C9 (amended): _normalize_urls is a total function returning
(root, root ++ "/v1") on every input; a root URL, a /v1 URL and a full
endpoint URL all yield the same (root, v1); a scheme-less input gets the
http:// prefix; an /api/v1 prefix is preserved in the root; /v1beta is not
trimmed. Trimming is decided by the first substring occurrence of "/v1"
only. -/
theorem claim_C9_url_normalization :
    (∀ url : Str, (normalizeUrls url).2 = (normalizeUrls url).1 ++ "/v1".toList) ∧
    normalizeUrls "http://127.0.0.1:1245".toList =
      ("http://127.0.0.1:1245".toList, "http://127.0.0.1:1245/v1".toList) ∧
    normalizeUrls "http://127.0.0.1:1245/v1".toList =
      ("http://127.0.0.1:1245".toList, "http://127.0.0.1:1245/v1".toList) ∧
    normalizeUrls "http://127.0.0.1:1245/v1/chat/completions".toList =
      ("http://127.0.0.1:1245".toList, "http://127.0.0.1:1245/v1".toList) ∧
    normalizeUrls "127.0.0.1:1245/v1/models".toList =
      ("http://127.0.0.1:1245".toList, "http://127.0.0.1:1245/v1".toList) ∧
    normalizeUrls "http://localhost:8080/api/v1/chat/completions".toList =
      ("http://localhost:8080/api".toList, "http://localhost:8080/api/v1".toList) ∧
    normalizeUrls "http://localhost:8080/v1beta".toList =
      ("http://localhost:8080/v1beta".toList,
       "http://localhost:8080/v1beta/v1".toList) := by
  refine ⟨?_, by decide, by decide, by decide, by decide, by decide, by decide⟩
  intro url
  unfold normalizeUrls
  split_ifs
  · rfl
  · rfl

end MedGemma

namespace MedGemma

/-- A parsed fact value of the risk engine: Python floats are modelled by
exact rationals. Where the code renders a numeric value back to a string
(str(f.value)), the rendering is digits/sign/dot and never equals any of the
categorical words it is compared against; it is modelled by the digit
marker "0". -/
inductive PValue
  | num (q : ℚ)
  | str (s : Str)
deriving DecidableEq, Repr

def pvNum? : PValue → Option ℚ
  | .num q => some q
  | .str _ => none

/-- str(f.value) at the model level (see PValue). -/
def pvStr : PValue → Str
  | .num _ => ['0']
  | .str s => s

/-- ParsedFact of readmission_risk_engine.py. -/
structure ParsedFact where
  cluster : Str
  keyword : Str
  value : PValue
  timestamp : Str
  isNumeric : Bool
  plausibilityOk : Bool
deriving DecidableEq, Repr

/-- The facts-by-cluster dict of the engine (keys are the nine valid
clusters). -/
structure FactsDict where
  demographics : List ParsedFact := []
  vitals : List ParsedFact := []
  labs : List ParsedFact := []
  problems : List ParsedFact := []
  symptoms : List ParsedFact := []
  medications : List ParsedFact := []
  procedures : List ParsedFact := []
  utilization : List ParsedFact := []
  disposition : List ParsedFact := []
deriving DecidableEq, Repr

/-- One range row of scoring_rules.json (min/max/score/label; the label text
only feeds explainability strings and the Polypharmacy containment check). -/
structure RangeRule where
  lo : ℚ
  hi : ℚ
  pts : Int
  label : Str
deriving DecidableEq, Repr

/-- One keyword entry of scoring_rules.json (the fields the engine reads:
type, ranges, values, plausibility, missing_score, score_if_any_positive). -/
structure KwRule where
  rtype : Option Str := none
  ranges : List RangeRule := []
  values : List (Str × Int) := []
  plausibility : Option (ℚ × ℚ) := none
  missingScore : Option Int := none
  scoreIfAnyPositive : Int := 0
deriving DecidableEq, Repr

/-- One SNOMED problem / symptom urgency group (id, synonyms, risk_weight;
the display name only feeds explainability strings). -/
structure ConceptGroup where
  gid : Str
  synonyms : List Str
  risk_weight : Int
deriving DecidableEq, Repr

/-- The configuration bundle of the engine (scoring_rules.json keyword maps
per cluster plus the two group files); the JSON configs live outside the
repository snapshot, so the engine is verified for every bundle. -/
structure EngineRules where
  demographics : List (Str × KwRule) := []
  vitals : List (Str × KwRule) := []
  labs : List (Str × KwRule) := []
  medications : List (Str × KwRule) := []
  procedures : List (Str × KwRule) := []
  utilization : List (Str × KwRule) := []
  disposition : List (Str × KwRule) := []
  problemGroups : List ConceptGroup := []
  symptomGroups : List ConceptGroup := []
deriving DecidableEq, Repr

/-- _build_synonym_index: lowercase stripped synonym → group id, first
writer wins. -/
def buildSynIndex (groups : List ConceptGroup) : List (Str × Str) :=
  groups.foldl (fun idx g =>
    g.synonyms.foldl (fun idx syn =>
      if (aGet? idx (lowerL (trimL syn))).isSome then idx
      else idx ++ [(lowerL (trimL syn), g.gid)]) idx) []

def groupById (groups : List ConceptGroup) (gid : Str) : Option ConceptGroup :=
  groups.find? (fun g => decide (g.gid = gid))

/-- The separator class of the keyword tokenizer [\s,;/\-()] (regex \s is
space, tab, newline, carriage return, vertical tab, form feed). -/
def isWordSep (c : Char) : Bool :=
  c.isWhitespace || c.toNat = 11 || c.toNat = 12 ||
    c = ',' || c = ';' || c = '/' || c = '-' || c = '(' || c = ')'

/-- Per-character split on a predicate (empty pieces kept). -/
def perCharSplit (p : Char → Bool) : Str → List Str
  | [] => [[]]
  | c :: cs =>
    if p c then [] :: perCharSplit p cs
    else
      match perCharSplit p cs with
      | h :: t => (c :: h) :: t
      | [] => [[c]]

/-- re.split on separator RUNS: interior empty pieces are dropped while the
edge empties of leading/trailing separators are kept. -/
def splitRunsBy (p : Char → Bool) (s : Str) : List Str :=
  (if s.head?.elim false p then [([] : Str)] else []) ++
    ((perCharSplit p s).filter (fun x => x ≠ [])) ++
    (if s = [] ∨ s.getLast?.elim false p then [([] : Str)] else [])

end MedGemma

namespace MedGemma

/-- _match_to_group: exact synonym match first, then the best word-boundary
match, then the best raw substring match of length at least 4; longer
synonyms win, earlier index entries win ties. -/
def matchToGroup (idx : List (Str × Str)) (groups : List ConceptGroup)
    (keyword : Str) : Option ConceptGroup :=
  if (aGet? idx (lowerL (trimL keyword))).getD [] ≠ [] then
    groupById groups ((aGet? idx (lowerL (trimL keyword))).getD [])
  else
    let kw := lowerL (trimL keyword)
    let kwWords := splitRunsBy isWordSep kw
    let best := idx.foldl (fun (acc : (Option Str × Nat) × (Option Str × Nat)) e =>
      if ¬ containsSub e.1 kw then acc
      else
        let isWord := kwWords.contains e.1 ∨ startsWithL (e.1 ++ [' ']) kw = true ∨
          endsWithL (' ' :: e.1) kw = true ∨ containsSub (' ' :: e.1 ++ [' ']) kw = true
        if isWord ∧ e.1.length > acc.1.2 then ((some e.2, e.1.length), acc.2)
        else if ¬ isWord ∧ 4 ≤ e.1.length ∧ e.1.length > acc.2.2 then
          (acc.1, (some e.2, e.1.length))
        else acc) ((none, 0), (none, 0))
    if best.1.1.getD [] ≠ [] then groupById groups (best.1.1.getD [])
    else if best.2.1.getD [] ≠ [] then groupById groups (best.2.1.getD [])
    else none

/-- _score_range_keyword: first matching inclusive range wins. -/
def scoreRangeKw (rules : KwRule) (v : ℚ) : Int × Str :=
  match rules.ranges.find? (fun r => decide (r.lo ≤ v ∧ v ≤ r.hi)) with
  | some r => (r.pts, r.label)
  | none => (0, [])

/-- Banker's rounding (Python round) on rationals. -/
def roundHEQ (q : ℚ) : Int :=
  if Int.fract q < 1/2 then ⌊q⌋
  else if 1/2 < Int.fract q then ⌊q⌋ + 1
  else if ⌊q⌋ % 2 = 0 then ⌊q⌋ else ⌊q⌋ + 1

/-- The demographics loop: accumulated points and the age_found flag. -/
def demoFold (rules : List (Str × KwRule)) (facts : List ParsedFact) :
    Int × Bool :=
  facts.foldl (fun (acc : Int × Bool) f =>
    if f.keyword = "Age".toList ∧ f.isNumeric = true then
      (acc.1 + (pvNum? f.value).elim 0
        (fun v => (scoreRangeKw (aGetD rules "Age".toList {}) v).1), true)
    else if f.keyword = "Sex".toList then
      (acc.1 + aGetD (aGetD rules "Sex".toList {}).values (lowerL (pvStr f.value)) 0,
        acc.2)
    else acc) (0, false)

/-- score_demographics: Age range points (with the missing-Age default of 2)
plus Sex value points. -/
def score_demographics (rules : List (Str × KwRule)) (facts : List ParsedFact) :
    Int :=
  (demoFold rules facts).1 +
    (if (demoFold rules facts).2 then 0
     else ((aGetD rules "Age".toList {}).missingScore).getD 2)

/-- score_vitals: range points for numeric, plausible facts with a rule that
is not no_direct_score. -/
def score_vitals (rules : List (Str × KwRule)) (facts : List ParsedFact) : Int :=
  facts.foldl (fun acc f =>
    if f.isNumeric = true ∧ f.plausibilityOk = true then
      match aGet? rules f.keyword with
      | some kr =>
        if kr.rtype = some "no_direct_score".toList then acc
        else acc + (pvNum? f.value).elim 0 (fun v => (scoreRangeKw kr v).1)
      | none => acc
    else acc) 0

/-- score_labs: range points for numeric, plausible facts with a rule. -/
def score_labs (rules : List (Str × KwRule)) (facts : List ParsedFact) : Int :=
  facts.foldl (fun acc f =>
    if f.isNumeric = true ∧ f.plausibilityOk = true then
      match aGet? rules f.keyword with
      | some kr => acc + (pvNum? f.value).elim 0 (fun v => (scoreRangeKw kr v).1)
      | none => acc
    else acc) 0

end MedGemma

namespace MedGemma

/-- The problems loop: group id → maximal risk weight, insertion order. -/
def problemsFold (idx : List (Str × Str)) (groups : List ConceptGroup)
    (facts : List ParsedFact) : List (Str × Int) :=
  facts.foldl (fun ag f =>
    if strMem (trimL (lowerL (pvStr f.value))) ["chronic", "acute", "exist"] then
      match matchToGroup idx groups f.keyword with
      | some g =>
        match aGet? ag g.gid with
        | none => ag ++ [(g.gid, g.risk_weight)]
        | some w =>
          if g.risk_weight > w then
            ag.map (fun e => if e.1 = g.gid then (g.gid, g.risk_weight) else e)
          else ag
      | none => ag
    else ag) []

/-- score_problems: sum of maximal group weights plus the multimorbidity
bonus, capped at 40. -/
def score_problems (idx : List (Str × Str)) (groups : List ConceptGroup)
    (facts : List ParsedFact) : Int :=
  min (((problemsFold idx groups facts).map (·.2)).sum +
    (if (problemsFold idx groups facts).length > 3 then
      min (((problemsFold idx groups facts).length : Int) - 3) 5 else 0)) 40

/-- The symptoms loop: group id → maximal (weight × severity multiplier),
plus the active-symptom count. -/
def symptomsFold (idx : List (Str × Str)) (groups : List ConceptGroup)
    (facts : List ParsedFact) : List (Str × ℚ) × Nat :=
  facts.foldl (fun (st : List (Str × ℚ) × Nat) f =>
    if trimL (lowerL (pvStr f.value)) = "severe".toList ∨
        trimL (lowerL (pvStr f.value)) = "yes".toList then
      match matchToGroup idx groups f.keyword with
      | some g =>
        match aGet? st.1 g.gid with
        | none =>
          (st.1 ++ [(g.gid, (g.risk_weight : ℚ) *
            (if trimL (lowerL (pvStr f.value)) = "severe".toList then 3/2 else 1))],
            st.2 + 1)
        | some w0 =>
          if (g.risk_weight : ℚ) *
              (if trimL (lowerL (pvStr f.value)) = "severe".toList then 3/2 else 1) > w0 then
            (st.1.map (fun e => if e.1 = g.gid then (g.gid, (g.risk_weight : ℚ) *
              (if trimL (lowerL (pvStr f.value)) = "severe".toList then 3/2 else 1))
              else e), st.2 + 1)
          else (st.1, st.2 + 1)
      | none => (st.1, st.2 + 1)
    else st) ([], 0)

/-- score_symptoms: banker's-rounded sum of maximal weighted groups plus the
active-count bonus, capped at 15. -/
def score_symptoms (idx : List (Str × Str)) (groups : List ConceptGroup)
    (facts : List ParsedFact) : Int :=
  min (roundHEQ (((symptomsFold idx groups facts).1.map (·.2)).sum +
    (if (symptomsFold idx groups facts).2 > 3 then 2 else 0))) 15

/-- The medications loop: (points, Medication Count value, Polypharmacy
factor seen). A factor string contains "Polypharmacy" exactly when the scored
keyword or range label does (categorical values are lower-cased and numeric
renderings carry no letters). -/
def medsFold (rules : List (Str × KwRule)) (facts : List ParsedFact) :
    Int × Option ℚ × Bool :=
  facts.foldl (fun (st : Int × Option ℚ × Bool) f =>
    match aGet? rules f.keyword with
    | none => st
    | some kr =>
      if kr.rtype = some "range".toList ∧ f.isNumeric = true then
        match pvNum? f.value with
        | some v =>
          ((st.1 + (scoreRangeKw kr v).1,
            if f.keyword = "Medication Count".toList then some v else st.2.1,
            st.2.2 || (decide ((scoreRangeKw kr v).1 > 0) &&
              (containsSub "Polypharmacy".toList f.keyword ||
                containsSub "Polypharmacy".toList (scoreRangeKw kr v).2))))
        | none => st
      else if kr.rtype = some "categorical".toList then
        (st.1 + aGetD kr.values (trimL (lowerL (pvStr f.value))) 0,
          st.2.1,
          st.2.2 || (decide (aGetD kr.values (trimL (lowerL (pvStr f.value))) 0 > 0) &&
            containsSub "Polypharmacy".toList f.keyword))
      else st) (0, none, false)

/-- score_medications: rule points plus the derived polypharmacy bonus (+3 if
Medication Count ≥ 5 and no Polypharmacy factor), capped at 15. -/
def score_medications (rules : List (Str × KwRule)) (facts : List ParsedFact) :
    Int :=
  min ((medsFold rules facts).1 +
    (match (medsFold rules facts).2.1 with
     | some mc =>
       if mc ≥ 5 ∧ (medsFold rules facts).2.2 = false then 3 else 0
     | none => 0)) 15

end MedGemma

namespace MedGemma

/-- The procedures loop: (points, specific_scored flag). -/
def procFold (rules : List (Str × KwRule)) (facts : List ParsedFact) :
    Int × Bool :=
  facts.foldl (fun (st : Int × Bool) f =>
    match aGet? rules f.keyword with
    | none => st
    | some kr =>
      if f.keyword = "Mechanical Ventilation".toList then
        if f.isNumeric = true ∧ (pvNum? f.value).elim false (fun v => decide (v > 0)) = true then
          (st.1 + kr.scoreIfAnyPositive, true)
        else if trimL (lowerL (pvStr f.value)) ≠ "no".toList then
          (st.1 + kr.scoreIfAnyPositive, true)
        else st
      else if f.keyword = "Dialysis".toList ∨ f.keyword = "Surgery".toList then
        (st.1 + aGetD kr.values (trimL (lowerL (pvStr f.value))) 0,
          st.2 || decide (aGetD kr.values (trimL (lowerL (pvStr f.value))) 0 > 0))
      else st) (0, false)

/-- score_procedures: specific procedures, with the Any Procedure generic
fallback only when no specific procedure scored, capped at 15. -/
def score_procedures (rules : List (Str × KwRule)) (facts : List ParsedFact) :
    Int :=
  min (if (procFold rules facts).2 = false then
      match facts.find? (fun f => decide (f.keyword = "Any Procedure".toList)) with
      | some f =>
        (procFold rules facts).1 +
          aGetD (aGetD rules "Any Procedure".toList {}).values
            (trimL (lowerL (pvStr f.value))) 0
      | none => (procFold rules facts).1
    else (procFold rules facts).1) 15

/-- score_utilization: range points of numeric facts with a rule, capped
at 20. -/
def score_utilization (rules : List (Str × KwRule)) (facts : List ParsedFact) :
    Int :=
  min (facts.foldl (fun acc f =>
    if f.isNumeric = true then
      match aGet? rules f.keyword with
      | some kr => acc + (pvNum? f.value).elim 0 (fun v => (scoreRangeKw kr v).1)
      | none => acc
    else acc) 0) 20

/-- _normalize_discharge_disposition. -/
def normDischargeDisposition (value : Str) : Str :=
  if trimL value = [] then trimL value
  else if strMem (lowerL (trimL value))
      ["home with service", "home w service", "home with svc", "home w/ service"] then
    "Home with Services".toList
  else if strMem (lowerL (trimL value))
      ["home with services", "home w services", "home w/ services", "home health",
       "home health care"] then
    "Home with Services".toList
  else if strMem (lowerL (trimL value)) ["hospice residence", "hospice care"] then
    "Hospice".toList
  else trimL value

/-- _normalize_mental_status. -/
def normMentalStatus (value : Str) : Str :=
  if trimL value = [] then trimL value
  else if containsSub "alert".toList (lowerL (trimL value)) = true ∧
      containsSub "orient".toList (lowerL (trimL value)) = true then
    "alert".toList
  else if strMem (lowerL (trimL value)) ["a&o", "ao", "a/ox3", "a/ox4"] then
    "alert".toList
  else trimL value

/-- score_disposition: value points after disposition/mental-status
normalization, exact then lower-case lookup, capped at 15. -/
def score_disposition (rules : List (Str × KwRule)) (facts : List ParsedFact) :
    Int :=
  min (facts.foldl (fun acc f =>
    match aGet? rules f.keyword with
    | none => acc
    | some kr =>
      acc + aGetD kr.values
        (if f.keyword = "Discharge Disposition".toList then
          normDischargeDisposition (trimL (pvStr f.value))
         else if f.keyword = "Mental Status".toList then
          normMentalStatus (trimL (pvStr f.value))
         else trimL (pvStr f.value))
        (aGetD kr.values
          (lowerL (if f.keyword = "Discharge Disposition".toList then
            normDischargeDisposition (trimL (pvStr f.value))
           else if f.keyword = "Mental Status".toList then
            normMentalStatus (trimL (pvStr f.value))
           else trimL (pvStr f.value)))
          0)) 0) 15

end MedGemma

namespace MedGemma

/-- get_val of detect_interactions: first numeric fact with the keyword. -/
def getVal (l : List ParsedFact) (kw : Str) : Option ℚ :=
  (l.find? (fun f => decide (f.keyword = kw) && f.isNumeric)).bind
    (fun f => pvNum? f.value)

/-- get_str of detect_interactions: first fact with the keyword, value
lower-cased and stripped. -/
def getStr (l : List ParsedFact) (kw : Str) : Option Str :=
  (l.find? (fun f => decide (f.keyword = kw))).map
    (fun f => trimL (lowerL (pvStr f.value)))

/-- v is not None and v > c. -/
def ovGt (o : Option ℚ) (c : ℚ) : Bool := o.elim false (fun v => decide (c < v))

/-- v is not None and v < c. -/
def ovLt (o : Option ℚ) (c : ℚ) : Bool := o.elim false (fun v => decide (v < c))

/-- has_symptom_group of detect_interactions. -/
def hasSymptomGroup (R : EngineRules) (facts : FactsDict) (gid : Str) : Bool :=
  facts.symptoms.any (fun f =>
    (decide (trimL (lowerL (pvStr f.value)) = "yes".toList) ||
      decide (trimL (lowerL (pvStr f.value)) = "severe".toList)) &&
    (matchToGroup (buildSynIndex R.symptomGroups) R.symptomGroups f.keyword).elim
      false (fun g => decide (g.gid = gid)))

/-- has_problem_group of detect_interactions. -/
def hasProblemGroup (R : EngineRules) (facts : FactsDict) (gid : Str) : Bool :=
  facts.problems.any (fun f =>
    strMem (trimL (lowerL (pvStr f.value))) ["chronic", "acute", "exist"] &&
    (matchToGroup (buildSynIndex R.problemGroups) R.problemGroups f.keyword).elim
      false (fun g => decide (g.gid = gid)))

/-- The sepsis gate: HR > 100, hemodynamic sign (SBP < 100 or RR > 22) and
infection sign (WBC > 12 or < 4, or Temp > 100.4). -/
def sepsisCond (facts : FactsDict) : Bool :=
  ovGt (getVal facts.vitals "Heart Rate".toList) 100 &&
  (ovLt (getVal facts.vitals "Systolic BP".toList) 100 ||
    ovGt (getVal facts.vitals "Respiratory Rate".toList) 22) &&
  (ovGt (getVal facts.labs "WBC".toList) 12 ||
    ovLt (getVal facts.labs "WBC".toList) 4 ||
    ovGt (getVal facts.vitals "Temperature".toList) (502/5))

/-- The AKI gate. -/
def akiCond (facts : FactsDict) : Bool :=
  ovGt (getVal facts.labs "Creatinine".toList) (3/2) &&
  ovGt (getVal facts.labs "BUN".toList) 30 &&
  (ovGt (getVal facts.labs "Potassium".toList) 5 ||
    ovLt (getVal facts.labs "Sodium".toList) 135 ||
    ovLt (getVal facts.labs "Bicarbonate".toList) 22)

/-- The decompensated heart failure gate. -/
def decompHfCond (R : EngineRules) (facts : FactsDict) : Bool :=
  hasProblemGroup R facts "heart_failure".toList &&
  (hasSymptomGroup R facts "edema_fluid".toList ||
    hasSymptomGroup R facts "respiratory_distress".toList ||
    ovGt (getVal facts.labs "BUN".toList) 40)

/-- The distinct problem groups of active problem facts. -/
def nProblemGroups (R : EngineRules) (facts : FactsDict) : Nat :=
  ((facts.problems.filter (fun f =>
    strMem (trimL (lowerL (pvStr f.value))) ["chronic", "acute", "exist"])).filterMap
    (fun f => (matchToGroup (buildSynIndex R.problemGroups) R.problemGroups
      f.keyword).map (·.gid))).dedup.length

/-- The frailty gate: age > 75 and at least two of multimorbidity, anemia,
altered mental status, institutional discharge. -/
def frailtyCond (R : EngineRules) (facts : FactsDict) : Bool :=
  ovGt (getVal facts.demographics "Age".toList) 75 &&
  decide (2 ≤
    (if 3 ≤ nProblemGroups R facts then 1 else 0) +
    (if ovLt (getVal facts.labs "Hemoglobin".toList) 10 = true then 1 else 0) +
    (if (getStr facts.disposition "Mental Status".toList).elim false
        (fun m => decide (m = "confused".toList) || decide (m = "lethargic".toList))
        = true then 1 else 0) +
    (if (getStr facts.disposition "Discharge Disposition".toList).elim false
        (fun d => decide (d = "snf".toList) || decide (d = "ltac".toList) ||
          decide (d = "rehab".toList)) = true then 1 else 0))

/-- The unstable discharge gate: AMA, or altered mental status with Home or
missing disposition. -/
def unstableCond (facts : FactsDict) : Bool :=
  if getStr facts.disposition "Discharge Disposition".toList = some "ama".toList
  then true
  else (getStr facts.disposition "Mental Status".toList).elim false
      (fun m => decide (m = "confused".toList) || decide (m = "lethargic".toList)) &&
    (decide (getStr facts.disposition "Discharge Disposition".toList =
        some "home".toList) ||
      decide (getStr facts.disposition "Discharge Disposition".toList = none))

/-- The respiratory failure gate. -/
def respCond (R : EngineRules) (facts : FactsDict) : Bool :=
  ovLt (getVal facts.vitals "SpO2".toList) 92 &&
  (ovGt (getVal facts.vitals "Respiratory Rate".toList) 24 ||
    hasSymptomGroup R facts "respiratory_distress".toList)

/-- The metabolic crisis gate. -/
def metabCond (facts : FactsDict) : Bool :=
  ovGt (getVal facts.labs "Glucose".toList) 300 &&
  (ovLt (getVal facts.labs "Bicarbonate".toList) 18 ||
    ovGt (getVal facts.labs "Potassium".toList) (11/2))

/-- The bleeding risk gate. -/
def bleedCond (facts : FactsDict) : Bool :=
  ovLt (getVal facts.labs "Hemoglobin".toList) 8 &&
  (ovLt (getVal facts.labs "Platelet".toList) 100 ||
    decide (getStr facts.medications "Anticoagulation".toList = some "yes".toList))

/-- detect_interactions at the (pattern_id, bonus) level, in source order
(the pattern names and evidence strings are explainability text only). -/
def detectInteractions (R : EngineRules) (facts : FactsDict) :
    List (Str × Int) :=
  (if sepsisCond facts then [("sepsis_pattern".toList, 10)] else []) ++
  (if akiCond facts then [("aki_pattern".toList, 8)] else []) ++
  (if decompHfCond R facts then [("decompensated_hf".toList, 8)] else []) ++
  (if frailtyCond R facts then [("frailty_syndrome".toList, 6)] else []) ++
  (if unstableCond facts then [("unstable_discharge".toList, 5)] else []) ++
  (if respCond R facts then [("respiratory_failure".toList, 6)] else []) ++
  (if metabCond facts then [("metabolic_crisis".toList, 6)] else []) ++
  (if bleedCond facts then [("bleeding_risk".toList, 6)] else [])

/-- The sum of the nine cluster scores computed by score(). -/
def clusterScoresTotal (R : EngineRules) (facts : FactsDict) : Int :=
  score_demographics R.demographics facts.demographics +
  score_vitals R.vitals facts.vitals +
  score_labs R.labs facts.labs +
  score_problems (buildSynIndex R.problemGroups) R.problemGroups facts.problems +
  score_symptoms (buildSynIndex R.symptomGroups) R.symptomGroups facts.symptoms +
  score_medications R.medications facts.medications +
  score_procedures R.procedures facts.procedures +
  score_utilization R.utilization facts.utilization +
  score_disposition R.disposition facts.disposition

/-- interaction_bonus = sum of triggered bonuses (uncapped). -/
def interactionBonusTotal (R : EngineRules) (facts : FactsDict) : Int :=
  ((detectInteractions R facts).map (·.2)).sum

/-- composite = sum of cluster scores + interaction bonus. -/
def compositeScore (R : EngineRules) (facts : FactsDict) : Int :=
  clusterScoresTotal R facts + interactionBonusTotal R facts

end MedGemma

namespace MedGemma

/-- Exact rational value of a digit string. -/
def digitsVal (ds : Str) : ℚ :=
  ds.foldl (fun a c => a * 10 + ((c.toNat - 48 : ℕ) : ℚ)) 0

/-- Unsigned float literal: digits [. digits] | digits . | . digits, with an
optional decimal exponent. -/
def parseUFloatCore (s : Str) : Option ℚ :=
  if s.takeWhile Char.isDigit = [] ∧
      ¬ (s.head? = some '.' ∧ ((s.drop 1).takeWhile Char.isDigit ≠ [])) then none
  else
    if (s.dropWhile Char.isDigit).head? = some '.' then
      if ((s.dropWhile Char.isDigit).drop 1).dropWhile Char.isDigit = [] then
        some (digitsVal (s.takeWhile Char.isDigit) +
          digitsVal (((s.dropWhile Char.isDigit).drop 1).takeWhile Char.isDigit) /
            (10 : ℚ) ^ (((s.dropWhile Char.isDigit).drop 1).takeWhile
              Char.isDigit).length)
      else none
    else if s.dropWhile Char.isDigit = [] then
      some (digitsVal s)
    else none

/-- Optional exponent part: "" or [eE][+-]?digits, returning the multiplier
exponent. -/
def parseExp (s : Str) : Option Int :=
  if s = [] then some 0
  else if s.head? = some 'e' ∨ s.head? = some 'E' then
    if (s.drop 1).head? = some '+' ∧ (s.drop 2) ≠ [] ∧
        (s.drop 2).all Char.isDigit then
      some ⌊digitsVal (s.drop 2)⌋
    else if (s.drop 1).head? = some '-' ∧ (s.drop 2) ≠ [] ∧
        (s.drop 2).all Char.isDigit then
      some (-⌊digitsVal (s.drop 2)⌋)
    else if (s.drop 1) ≠ [] ∧ (s.drop 1).all Char.isDigit then
      some ⌊digitsVal (s.drop 1)⌋
    else none
  else none

/-- Python float(s) on an already-stripped string, for finite decimal
literals (inf/nan and underscore separators are out of the modelled input
space). -/
def parseFloatLit (s0 : Str) : Option ℚ :=
  (fun (sgn : ℚ) (s : Str) =>
    (parseUFloatCore (s.takeWhile (fun c => c ≠ 'e' ∧ c ≠ 'E'))).bind (fun m =>
      (parseExp (s.dropWhile (fun c => c ≠ 'e' ∧ c ≠ 'E'))).map (fun e =>
        sgn * m * (10 : ℚ) ^ (e : Int))))
    (if s0.head? = some '-' then -1 else 1)
    (if s0.head? = some '-' ∨ s0.head? = some '+' then s0.drop 1 else s0)

/-- A match of [-+]?\d+(\.\d+)? at the start of s (longest). -/
def signedNumTokAt (s : Str) : Option Str :=
  if s.head? = some '-' ∨ s.head? = some '+' then
    (numTokAt (s.drop 1)).map (fun t => s.take 1 ++ t.1)
  else (numTokAt s).map (·.1)

/-- re.search: the match at the leftmost position where one exists. -/
def firstSignedNumTok : Str → Option Str
  | [] => none
  | c :: cs =>
    match signedNumTokAt (c :: cs) with
    | some t => some t
    | none => firstSignedNumTok cs

/-- Exact rational value of a token matched by [-+]?\d+(\.\d+)?. -/
def numTokVal (t : Str) : ℚ :=
  (if t.head? = some '-' then -1 else 1) *
    (digitsVal ((if t.head? = some '-' ∨ t.head? = some '+' then t.drop 1 else t).takeWhile
      Char.isDigit) +
     digitsVal ((((if t.head? = some '-' ∨ t.head? = some '+' then t.drop 1 else t).dropWhile
      Char.isDigit).drop 1).takeWhile Char.isDigit) /
      (10 : ℚ) ^ ((((if t.head? = some '-' ∨ t.head? = some '+' then t.drop 1 else t).dropWhile
      Char.isDigit).drop 1).takeWhile Char.isDigit).length)

/-- _try_parse_float: no slashes, then a full float literal, then the first
signed numeric token. -/
def tryParseFloat (value : Str) : Option ℚ :=
  if trimL value = [] then none
  else if containsSub ['/'] (trimL value) then none
  else
    match parseFloatLit (trimL value) with
    | some q => some q
    | none => (firstSignedNumTok (trimL value)).map numTokVal

end MedGemma

namespace MedGemma

/-- _split_semantic_items of the risk engine (limit 20, casefold dedup,
items stripped of " -" after the emptiness check). -/
def splitSemanticItemsRE (value : Str) : List Str :=
  if trimL value = [] then []
  else
    (((((splitSemiNl (trimL value)).map trimL).filter (fun x => x ≠ [])).flatMap
      (fun seg => (((splitOnC ',' seg).map pyWsNorm).filter (fun x => x ≠ [])).map
        (stripSet [' ', '-']))).take 20).foldl
      (fun acc it =>
        if (acc.map lowerL).contains (lowerL it) then acc else acc ++ [it]) []

/-- _strip_prefix: case-insensitive prefixes removed in order, re-stripping
after each removal. -/
def stripKwPrefixes (keyword : Str) (prefixes : List String) : Str :=
  prefixes.foldl (fun k p =>
    if startsWithL (lowerL p.toList) (lowerL k) then trimL (k.drop p.toList.length)
    else k) (trimL keyword)

/-- The per-cluster keyword rule table of scoring_rules.json. -/
def clusterKwRules (R : EngineRules) (cluster : Str) : List (Str × KwRule) :=
  if cluster = "DEMOGRAPHICS".toList then R.demographics
  else if cluster = "VITALS".toList then R.vitals
  else if cluster = "LABS".toList then R.labs
  else if cluster = "MEDICATIONS".toList then R.medications
  else if cluster = "PROCEDURES".toList then R.procedures
  else if cluster = "UTILIZATION".toList then R.utilization
  else if cluster = "DISPOSITION".toList then R.disposition
  else []

/-- _check_plausibility. -/
def checkPlausibility (R : EngineRules) (cluster keyword : Str) (v : ℚ) : Bool :=
  match (aGet? (clusterKwRules R cluster) keyword).bind (·.plausibility) with
  | some p => decide (p.1 ≤ v ∧ v ≤ p.2)
  | none => true

/-- The parse_toon loop state (seen_objective is local to the loop). -/
structure ParseState where
  facts : FactsDict := {}
  nParsed : Nat := 0
  nDropped : Nat := 0
  seenObj : List (Str × Str) := []
deriving DecidableEq, Repr

/-- facts.setdefault(cluster, []).append(f) for the nine valid clusters. -/
def factsAppend (d : FactsDict) (cluster : Str) (f : ParsedFact) : FactsDict :=
  if cluster = "DEMOGRAPHICS".toList then { d with demographics := d.demographics ++ [f] }
  else if cluster = "VITALS".toList then { d with vitals := d.vitals ++ [f] }
  else if cluster = "LABS".toList then { d with labs := d.labs ++ [f] }
  else if cluster = "PROBLEMS".toList then { d with problems := d.problems ++ [f] }
  else if cluster = "SYMPTOMS".toList then { d with symptoms := d.symptoms ++ [f] }
  else if cluster = "MEDICATIONS".toList then { d with medications := d.medications ++ [f] }
  else if cluster = "PROCEDURES".toList then { d with procedures := d.procedures ++ [f] }
  else if cluster = "UTILIZATION".toList then { d with utilization := d.utilization ++ [f] }
  else if cluster = "DISPOSITION".toList then { d with disposition := d.disposition ++ [f] }
  else d

/-- The numeric-parse outcome of one record: dropped, or the value with its
is_numeric flag. -/
def parseNumeric (R : EngineRules) (cluster keyword value : Str) :
    Option (PValue × Bool) :=
  if strMem cluster ["VITALS", "LABS", "UTILIZATION"] then
    (tryParseFloat value).map (fun v => (.num v, true))
  else if ((aGet? (clusterKwRules R cluster) keyword).bind (·.rtype)) =
      some "range".toList then
    (tryParseFloat value).map (fun v => (.num v, true))
  else if ((aGet? (clusterKwRules R cluster) keyword).bind (·.rtype)) =
      some "mixed".toList then
    match tryParseFloat value with
    | some v => some (.num v, true)
    | none => some (.str value, false)
  else some (.str value, false)

/-- The PROBLEMS/SYMPTOMS keyword prefix strip of parse_toon. -/
def ptKeyword (cluster keyword0 : Str) : Str :=
  if cluster = "PROBLEMS".toList then
    stripKwPrefixes keyword0
      ["PMH:", "PMH/Comorbidities:", "Discharge Dx:", "Working Dx:",
       "Complication:", "Complications:"]
  else if cluster = "SYMPTOMS".toList then stripKwPrefixes keyword0 ["ADM:", "DC:"]
  else keyword0

/-- One record of parse_toon after field split and cluster validation. -/
def parseToonRecord (R : EngineRules) (st : ParseState)
    (cluster keyword0 value timestamp : Str) : ParseState :=
  if ¬ strMem cluster readmissionClusters then
    { st with nDropped := st.nDropped + 1 }
  else if cluster = "PROBLEMS".toList ∧
      strMem (lowerL (trimL (ptKeyword cluster keyword0)))
        ["discharge dx", "working dx", "complication", "complications"] ∧
      splitSemanticItemsRE value ≠ [] then
    { st with
      facts := (splitSemanticItemsRE value).foldl (fun d it =>
        factsAppend d "PROBLEMS".toList
          ⟨"PROBLEMS".toList, it, .str "acute".toList, "Discharge".toList,
            false, true⟩) st.facts,
      nParsed := st.nParsed + (splitSemanticItemsRE value).length }
  else if cluster = "PROBLEMS".toList ∧
      strMem (lowerL (trimL (ptKeyword cluster keyword0)))
        ["pmh/comorbidities", "pmh", "comorbidities", "past medical history"] ∧
      splitSemanticItemsRE value ≠ [] then
    { st with
      facts := (splitSemanticItemsRE value).foldl (fun d it =>
        factsAppend d "PROBLEMS".toList
          ⟨"PROBLEMS".toList, it, .str "chronic".toList, "Past".toList,
            false, true⟩) st.facts,
      nParsed := st.nParsed + (splitSemanticItemsRE value).length }
  else
    (parseNumeric R cluster (ptKeyword cluster keyword0) value).elim
      { st with nDropped := st.nDropped + 1 }
      (fun pv =>
        if strMem cluster s2ObjectiveClusters ∧
            (cluster, ptKeyword cluster keyword0) ∈ st.seenObj then
          { st with nDropped := st.nDropped + 1 }
        else
          { st with
            facts := factsAppend st.facts cluster
              ⟨cluster, ptKeyword cluster keyword0, pv.1, timestamp, pv.2,
                if pv.2 then
                  (pvNum? pv.1).elim true
                    (checkPlausibility R cluster (ptKeyword cluster keyword0))
                else true⟩,
            nParsed := st.nParsed + 1,
            seenObj := if strMem cluster s2ObjectiveClusters then
                st.seenObj ++ [(cluster, ptKeyword cluster keyword0)]
              else st.seenObj })

/-- One line of parse_toon. -/
def parseToonLine (R : EngineRules) (st : ParseState) (rawLine : Str) :
    ParseState :=
  if trimL rawLine = [] ∨ (trimL rawLine).head? = some '#' then st
  else
    match (splitOnC '|' (trimL rawLine)).map trimL with
    | [cluster, keyword, value, timestamp] =>
      parseToonRecord R st cluster keyword value timestamp
    | _ => { st with nDropped := st.nDropped + 1 }

/-- parse_toon over a line list. -/
def parseToonLines (R : EngineRules) (lines : List Str) : ParseState :=
  lines.foldl (parseToonLine R) {}

/-- ReadmissionRiskEngine.parse_toon: (facts, n_parsed, n_dropped). -/
def parseToon (R : EngineRules) (toonText : Str) : FactsDict × Nat × Nat :=
  ((parseToonLines R (splitOnC '\n' (trimL toonText))).facts,
   (parseToonLines R (splitOnC '\n' (trimL toonText))).nParsed,
   (parseToonLines R (splitOnC '\n' (trimL toonText))).nDropped)

end MedGemma

namespace MedGemma

theorem sum_snd_nonneg {l : List (Str × Int)} (h : ∀ e ∈ l, 0 ≤ e.2) :
    0 ≤ (l.map (·.2)).sum := by
  induction l with
  | nil => simp
  | cons x xs ih =>
    simp only [List.map_cons, List.sum_cons]
    exact add_nonneg (h x (List.mem_cons_self x xs))
      (ih (fun e he => h e (List.mem_cons_of_mem x he)))

theorem sum_snd_ge_of_mem {l : List (Str × Int)} {x : Str × Int}
    (hx : x ∈ l) (h : ∀ e ∈ l, 0 ≤ e.2) : x.2 ≤ (l.map (·.2)).sum := by
  induction l with
  | nil => exact absurd hx (List.not_mem_nil x)
  | cons y ys ih =>
    simp only [List.map_cons, List.sum_cons]
    rcases List.mem_cons.mp hx with rfl | hx2
    · have h0 : 0 ≤ (ys.map (·.2)).sum :=
        sum_snd_nonneg (fun e he => h e (List.mem_cons_of_mem _ he))
      omega
    · have h2 := ih hx2 (fun e he => h e (List.mem_cons_of_mem _ he))
      have h0 : 0 ≤ y.2 := h y (List.mem_cons_self _ _)
      omega

/-- Every triggered interaction carries a nonnegative fixed bonus. -/
theorem detectInteractions_bonus_nonneg (R : EngineRules) (facts : FactsDict) :
    ∀ e ∈ detectInteractions R facts, 0 ≤ e.2 := by
  intro e he
  unfold detectInteractions at he
  simp only [List.mem_append] at he
  rcases he with ((((((h | h) | h) | h) | h) | h) | h) | h <;>
    (split_ifs at h <;>
      first
        | (rw [List.mem_singleton.mp h]; decide)
        | exact absurd h (List.not_mem_nil e))

/-- C2: whenever the parsed fact stream carries the numeric vitals
HR=120, SBP=90, RR=26, Temp=101 and the lab WBC=15, detect_interactions
triggers sepsis_pattern with its fixed +10 bonus, the composite equals the
sum of the nine cluster scores plus the uncapped interaction bonus, and so
exceeds the cluster-score sum by at least 10 — for every rule bundle. -/
theorem claim_C2_sepsis_pattern (R : EngineRules) (facts : FactsDict)
    (hhr : getVal facts.vitals "Heart Rate".toList = some 120)
    (hsbp : getVal facts.vitals "Systolic BP".toList = some 90)
    (hrr : getVal facts.vitals "Respiratory Rate".toList = some 26)
    (htemp : getVal facts.vitals "Temperature".toList = some 101)
    (hwbc : getVal facts.labs "WBC".toList = some 15) :
    ("sepsis_pattern".toList, (10 : Int)) ∈ detectInteractions R facts ∧
    compositeScore R facts =
      clusterScoresTotal R facts + interactionBonusTotal R facts ∧
    clusterScoresTotal R facts + 10 ≤ compositeScore R facts := by
  have hsep : sepsisCond facts = true := by
    unfold sepsisCond
    rw [hhr, hsbp, hrr, htemp, hwbc]
    decide
  have hmem : ("sepsis_pattern".toList, (10 : Int)) ∈ detectInteractions R facts := by
    unfold detectInteractions
    rw [if_pos hsep]
    exact List.mem_append_left _ (List.mem_append_left _ (List.mem_append_left _
      (List.mem_append_left _ (List.mem_append_left _ (List.mem_append_left _
        (List.mem_append_left _ (List.mem_singleton_self _)))))))
  refine ⟨hmem, rfl, ?_⟩
  have hb : (10 : Int) ≤ interactionBonusTotal R facts :=
    sum_snd_ge_of_mem hmem (detectInteractions_bonus_nonneg R facts)
  unfold compositeScore
  omega

/-- The concrete sepsis fact set of testable property S2. -/
def sepsisFacts : FactsDict := {
  vitals := [
    ⟨"VITALS".toList, "Heart Rate".toList, .num 120, "Admission".toList, true, true⟩,
    ⟨"VITALS".toList, "Systolic BP".toList, .num 90, "Admission".toList, true, true⟩,
    ⟨"VITALS".toList, "Respiratory Rate".toList, .num 26, "Admission".toList, true, true⟩,
    ⟨"VITALS".toList, "Temperature".toList, .num 101, "Admission".toList, true, true⟩],
  labs := [⟨"LABS".toList, "WBC".toList, .num 15, "Admission".toList, true, true⟩] }

theorem claim_C2_sepsis_pattern_witness :
    ("sepsis_pattern".toList, (10 : Int)) ∈ detectInteractions {} sepsisFacts ∧
    compositeScore {} sepsisFacts =
      clusterScoresTotal {} sepsisFacts + interactionBonusTotal {} sepsisFacts ∧
    clusterScoresTotal {} sepsisFacts + 10 ≤ compositeScore {} sepsisFacts :=
  claim_C2_sepsis_pattern {} sepsisFacts (by decide) (by decide) (by decide)
    (by decide) (by decide)

end MedGemma

namespace MedGemma

/-- A rule bundle under which a generic Any Procedure fact outscores a
specific Surgery fact. -/
def cexProcRules : EngineRules := {
  procedures := [
    ("Surgery".toList,
      { rtype := some "categorical".toList, values := [("yes".toList, 3)] }),
    ("Any Procedure".toList,
      { rtype := some "categorical".toList, values := [("yes".toList, 8)] })] }

def cexAnyProcFacts : FactsDict := {
  procedures := [⟨"PROCEDURES".toList, "Any Procedure".toList, .str "yes".toList,
    "Admission".toList, false, true⟩] }

def cexSurgeryFact : ParsedFact :=
  ⟨"PROCEDURES".toList, "Surgery".toList, .str "yes".toList, "Admission".toList,
    false, true⟩

/-- C4 (counterexample): adding a strictly-positive risk factor can lower the
composite score. Surgery=yes scores +3 on its own, but adding it suppresses
the Any Procedure generic fallback (+8 here), so the composite drops. -/
theorem claim_C4_counterexample :
    0 < score_procedures cexProcRules.procedures [cexSurgeryFact] ∧
    compositeScore cexProcRules
        { cexAnyProcFacts with
          procedures := cexAnyProcFacts.procedures ++ [cexSurgeryFact] } <
      compositeScore cexProcRules cexAnyProcFacts := by
  with_unfolding_all decide

/-- C4 (amended): strengthening only the UTILIZATION facts — any replacement
whose utilization cluster score is at least the old one, e.g. raising the
prior-admissions count across a rule boundary — never decreases the
composite: interactions never read UTILIZATION and the other cluster scores
are untouched. -/
theorem claim_C4_utilization_monotone (R : EngineRules) (facts : FactsDict)
    (futil : List ParsedFact)
    (h : score_utilization R.utilization facts.utilization ≤
      score_utilization R.utilization futil) :
    compositeScore R facts ≤
      compositeScore R { facts with utilization := futil } := by
  unfold compositeScore clusterScoresTotal interactionBonusTotal
  rw [show ({ facts with utilization := futil } : FactsDict).demographics =
    facts.demographics from rfl]
  rw [show ({ facts with utilization := futil } : FactsDict).vitals =
    facts.vitals from rfl]
  rw [show ({ facts with utilization := futil } : FactsDict).labs =
    facts.labs from rfl]
  rw [show ({ facts with utilization := futil } : FactsDict).problems =
    facts.problems from rfl]
  rw [show ({ facts with utilization := futil } : FactsDict).symptoms =
    facts.symptoms from rfl]
  rw [show ({ facts with utilization := futil } : FactsDict).medications =
    facts.medications from rfl]
  rw [show ({ facts with utilization := futil } : FactsDict).procedures =
    facts.procedures from rfl]
  rw [show ({ facts with utilization := futil } : FactsDict).disposition =
    facts.disposition from rfl]
  rw [show ({ facts with utilization := futil } : FactsDict).utilization =
    futil from rfl]
  rw [show detectInteractions R { facts with utilization := futil } =
    detectInteractions R facts from rfl]
  omega

/-- The boundary-raise example: prior admissions 2 → 3 crosses the 4-point
to 8-point range. -/
def cexUtilRules : EngineRules := {
  utilization := [("Prior Admissions 12mo".toList,
    { rtype := some "range".toList,
      ranges := [⟨1, 2, 4, "some".toList⟩, ⟨3, 100, 8, "frequent".toList⟩] })] }

def utilFact (q : ℚ) : ParsedFact :=
  ⟨"UTILIZATION".toList, "Prior Admissions 12mo".toList, .num q, "Past".toList,
    true, true⟩

theorem claim_C4_utilization_monotone_witness :
    compositeScore cexUtilRules { utilization := [utilFact 2] } ≤
      compositeScore cexUtilRules { utilization := [utilFact 3] } :=
  claim_C4_utilization_monotone cexUtilRules { utilization := [utilFact 2] }
    [utilFact 3] (by with_unfolding_all decide)

end MedGemma

namespace MedGemma

/-- The dedup key of parse_toon. -/
def pfKey (f : ParsedFact) : Str × Str := (f.cluster, f.keyword)

/-- All facts of the five objective clusters, in dict-field order. -/
def objFacts (d : FactsDict) : List ParsedFact :=
  d.demographics ++ d.vitals ++ d.labs ++ d.utilization ++ d.disposition

theorem objFacts_append_nonobj {d : FactsDict} {c : Str} {f : ParsedFact}
    (h : strMem c s2ObjectiveClusters = false) :
    objFacts (factsAppend d c f) = objFacts d := by
  unfold factsAppend
  split_ifs <;>
    first
      | rfl
      | (subst_vars; exact absurd h (by decide))

theorem objFacts_foldl_const {f : FactsDict → Str → FactsDict}
    (hf : ∀ d it, objFacts (f d it) = objFacts d) (items : List Str) :
    ∀ d, objFacts (items.foldl f d) = objFacts d := by
  induction items with
  | nil => intro d; rfl
  | cons x xs ih =>
    intro d
    rw [List.foldl_cons, ih, hf]

theorem objFacts_append_obj {d : FactsDict} {c : Str} {f : ParsedFact}
    (h : strMem c s2ObjectiveClusters = true) :
    List.Perm (objFacts (factsAppend d c f)) (objFacts d ++ [f]) := by
  obtain ⟨x, hx, hxc⟩ := strMem_cases h
  subst hxc
  simp only [s2ObjectiveClusters, List.mem_cons, List.not_mem_nil, or_false] at hx
  rcases hx with rfl | rfl | rfl | rfl | rfl
  · unfold factsAppend
    rw [if_pos rfl]
    unfold objFacts
    simp only [List.append_assoc]
    refine List.Perm.append_left _ ?_
    simpa [List.append_assoc] using
      (@List.perm_append_comm _ [f]
        (d.vitals ++ d.labs ++ d.utilization ++ d.disposition))
  · unfold factsAppend
    rw [if_neg (by decide), if_pos rfl]
    unfold objFacts
    simp only [List.append_assoc]
    refine List.Perm.append_left _ (List.Perm.append_left _ ?_)
    simpa [List.append_assoc] using
      (@List.perm_append_comm _ [f]
        (d.labs ++ d.utilization ++ d.disposition))
  · unfold factsAppend
    rw [if_neg (by decide), if_neg (by decide), if_pos rfl]
    unfold objFacts
    simp only [List.append_assoc]
    refine List.Perm.append_left _ (List.Perm.append_left _
      (List.Perm.append_left _ ?_))
    simpa [List.append_assoc] using
      (@List.perm_append_comm _ [f] (d.utilization ++ d.disposition))
  · unfold factsAppend
    rw [if_neg (by decide), if_neg (by decide), if_neg (by decide),
      if_neg (by decide), if_neg (by decide), if_neg (by decide),
      if_neg (by decide), if_pos rfl]
    unfold objFacts
    simp only [List.append_assoc]
    refine List.Perm.append_left _ (List.Perm.append_left _
      (List.Perm.append_left _ (List.Perm.append_left _ ?_)))
    simpa [List.append_assoc] using
      (@List.perm_append_comm _ [f] (d.disposition))
  · unfold factsAppend
    rw [if_neg (by decide), if_neg (by decide), if_neg (by decide),
      if_neg (by decide), if_neg (by decide), if_neg (by decide),
      if_neg (by decide), if_neg (by decide), if_pos rfl]
    unfold objFacts
    simp only [List.append_assoc]
    exact List.Perm.refl _

end MedGemma

namespace MedGemma

/-- The parse_toon loop invariant: objective facts have pairwise-distinct
(cluster, keyword) keys, each key recorded in seen_objective. -/
def PtInv (st : ParseState) : Prop :=
  List.Pairwise (fun a b => pfKey a ≠ pfKey b) (objFacts st.facts) ∧
  ∀ f ∈ objFacts st.facts, pfKey f ∈ st.seenObj


theorem parseToonRecord_inv {R : EngineRules} {st : ParseState}
    {cluster keyword0 value timestamp : Str} (hinv : PtInv st) :
    PtInv (parseToonRecord R st cluster keyword0 value timestamp) := by
  unfold parseToonRecord
  by_cases h1 : ¬ strMem cluster readmissionClusters = true
  · rw [if_pos h1]
    exact ⟨hinv.1, hinv.2⟩
  · rw [if_neg h1]
    by_cases h2 : cluster = "PROBLEMS".toList ∧
        strMem (lowerL (trimL (ptKeyword cluster keyword0)))
          ["discharge dx", "working dx", "complication", "complications"] = true ∧
        splitSemanticItemsRE value ≠ []
    · rw [if_pos h2]
      have hexp := objFacts_foldl_const
        (f := fun d it => factsAppend d "PROBLEMS".toList
          ⟨"PROBLEMS".toList, it, .str "acute".toList, "Discharge".toList,
            false, true⟩)
        (fun d it => objFacts_append_nonobj (by decide))
        (splitSemanticItemsRE value) st.facts
      refine ⟨?_, ?_⟩
      · show List.Pairwise (fun a b => pfKey a ≠ pfKey b)
          (objFacts ((splitSemanticItemsRE value).foldl (fun d it =>
            factsAppend d "PROBLEMS".toList
              ⟨"PROBLEMS".toList, it, .str "acute".toList, "Discharge".toList,
                false, true⟩) st.facts))
        rw [hexp]
        exact hinv.1
      · show ∀ f ∈ objFacts ((splitSemanticItemsRE value).foldl (fun d it =>
            factsAppend d "PROBLEMS".toList
              ⟨"PROBLEMS".toList, it, .str "acute".toList, "Discharge".toList,
                false, true⟩) st.facts), pfKey f ∈ st.seenObj
        rw [hexp]
        exact hinv.2
    · rw [if_neg h2]
      by_cases h3 : cluster = "PROBLEMS".toList ∧
          strMem (lowerL (trimL (ptKeyword cluster keyword0)))
            ["pmh/comorbidities", "pmh", "comorbidities", "past medical history"]
            = true ∧ splitSemanticItemsRE value ≠ []
      · rw [if_pos h3]
        have hexp := objFacts_foldl_const
          (f := fun d it => factsAppend d "PROBLEMS".toList
            ⟨"PROBLEMS".toList, it, .str "chronic".toList, "Past".toList,
              false, true⟩)
          (fun d it => objFacts_append_nonobj (by decide))
          (splitSemanticItemsRE value) st.facts
        refine ⟨?_, ?_⟩
        · show List.Pairwise (fun a b => pfKey a ≠ pfKey b)
            (objFacts ((splitSemanticItemsRE value).foldl (fun d it =>
              factsAppend d "PROBLEMS".toList
                ⟨"PROBLEMS".toList, it, .str "chronic".toList, "Past".toList,
                  false, true⟩) st.facts))
          rw [hexp]
          exact hinv.1
        · show ∀ f ∈ objFacts ((splitSemanticItemsRE value).foldl (fun d it =>
              factsAppend d "PROBLEMS".toList
                ⟨"PROBLEMS".toList, it, .str "chronic".toList, "Past".toList,
                  false, true⟩) st.facts), pfKey f ∈ st.seenObj
          rw [hexp]
          exact hinv.2
      · rw [if_neg h3]
        cases hp : parseNumeric R cluster (ptKeyword cluster keyword0) value with
        | none =>
          rw [elim_none]
          exact ⟨hinv.1, hinv.2⟩
        | some pv =>
          rw [elim_some]
          by_cases h4 : strMem cluster s2ObjectiveClusters = true ∧
              (cluster, ptKeyword cluster keyword0) ∈ st.seenObj
          · rw [if_pos h4]
            exact ⟨hinv.1, hinv.2⟩
          · rw [if_neg h4]
            by_cases hobj : strMem cluster s2ObjectiveClusters = true
            · have hnotseen : (cluster, ptKeyword cluster keyword0) ∉ st.seenObj :=
                fun hmem => h4 ⟨hobj, hmem⟩
              have hperm := objFacts_append_obj (d := st.facts)
                (f := ⟨cluster, ptKeyword cluster keyword0, pv.1, timestamp, pv.2,
                  if pv.2 then
                    (pvNum? pv.1).elim true
                      (checkPlausibility R cluster (ptKeyword cluster keyword0))
                  else true⟩) hobj
              refine ⟨?_, ?_⟩
              · refine (hperm.pairwise_iff (fun h => (h ·.symm))).mpr ?_
                rw [List.pairwise_append]
                refine ⟨hinv.1, List.pairwise_singleton _ _, ?_⟩
                intro a ha b hb
                rw [List.mem_singleton.mp hb]
                intro hkey
                have hmem := hinv.2 a ha
                rw [hkey] at hmem
                exact hnotseen hmem
              · intro f hf
                show pfKey f ∈ (if strMem cluster s2ObjectiveClusters then
                  st.seenObj ++ [(cluster, ptKeyword cluster keyword0)]
                  else st.seenObj)
                rw [if_pos hobj]
                rcases List.mem_append.mp (hperm.mem_iff.mp hf) with hfo | hfs
                · exact List.mem_append_left _ (hinv.2 f hfo)
                · rw [List.mem_singleton.mp hfs]
                  exact List.mem_append_right _ (List.mem_singleton_self _)
            · have hobj2 : strMem cluster s2ObjectiveClusters = false :=
                Bool.eq_false_iff.mpr hobj
              refine ⟨?_, ?_⟩
              · show List.Pairwise (fun a b => pfKey a ≠ pfKey b)
                  (objFacts (factsAppend st.facts cluster
                    ⟨cluster, ptKeyword cluster keyword0, pv.1, timestamp, pv.2,
                      if pv.2 then
                        (pvNum? pv.1).elim true
                          (checkPlausibility R cluster (ptKeyword cluster keyword0))
                      else true⟩))
                rw [objFacts_append_nonobj hobj2]
                exact hinv.1
              · intro f hf
                show pfKey f ∈ (if strMem cluster s2ObjectiveClusters then
                  st.seenObj ++ [(cluster, ptKeyword cluster keyword0)]
                  else st.seenObj)
                rw [if_neg hobj]
                refine hinv.2 f ?_
                have hf2 : f ∈ objFacts (factsAppend st.facts cluster
                    ⟨cluster, ptKeyword cluster keyword0, pv.1, timestamp, pv.2,
                      if pv.2 then
                        (pvNum? pv.1).elim true
                          (checkPlausibility R cluster (ptKeyword cluster keyword0))
                      else true⟩) := hf
                rw [objFacts_append_nonobj hobj2] at hf2
                exact hf2

theorem parseToonLine_inv {R : EngineRules} {st : ParseState} {ln : Str}
    (hinv : PtInv st) : PtInv (parseToonLine R st ln) := by
  unfold parseToonLine
  split_ifs with h1
  · exact hinv
  · cases hm : (splitOnC '|' (trimL ln)).map trimL with
    | nil => exact ⟨hinv.1, hinv.2⟩
    | cons a t =>
      cases t with
      | nil => exact ⟨hinv.1, hinv.2⟩
      | cons b t2 =>
        cases t2 with
        | nil => exact ⟨hinv.1, hinv.2⟩
        | cons c t3 =>
          cases t3 with
          | nil => exact ⟨hinv.1, hinv.2⟩
          | cons d t4 =>
            cases t4 with
            | nil => exact parseToonRecord_inv hinv
            | cons e t5 => exact ⟨hinv.1, hinv.2⟩

theorem parseToonLines_inv (R : EngineRules) (lines : List Str) :
    ∀ st, PtInv st → PtInv (lines.foldl (parseToonLine R) st) := by
  induction lines with
  | nil => intro st h; exact h
  | cons x xs ih =>
    intro st h
    exact ih _ (parseToonLine_inv h)

end MedGemma

namespace MedGemma

/-- C10: parse_toon deduplicates objective clusters by FIRST occurrence: the
output facts of DEMOGRAPHICS/VITALS/LABS/UTILIZATION/DISPOSITION carry
pairwise-distinct (cluster, keyword) keys for every rule bundle and input,
and on the two-line Heart Rate stream the first record (88, Admission) is the
one kept while the later Discharge record — despite its higher upstream
timestamp priority — is dropped and counted in n_dropped. -/
theorem claim_C10_parse_first_wins :
    (∀ (R : EngineRules) (lines : List Str),
      List.Pairwise (fun a b => pfKey a ≠ pfKey b)
        (objFacts (parseToonLines R lines).facts)) ∧
    parseToon {}
        "VITALS|Heart Rate|88|Admission\nVITALS|Heart Rate|72|Discharge".toList =
      ({ vitals := [⟨"VITALS".toList, "Heart Rate".toList, .num 88,
          "Admission".toList, true, true⟩] }, 1, 1) := by
  constructor
  · intro R lines
    have h := parseToonLines_inv R lines {}
      ⟨List.Pairwise.nil, by intro f hf; exact absurd hf (List.not_mem_nil f)⟩
    exact h.1
  · with_unfolding_all decide

end MedGemma

namespace MedGemma

/-- _logistic: probability from the composite score under the calibration
parameters alpha, beta of scoring_rules.json (reals modelled exactly). -/
noncomputable def logisticP (alpha beta : ℝ) (score : Int) : ℝ :=
  1 / (1 + Real.exp (-(alpha + beta * score)))

/-- Python round on reals: banker's rounding, half to even. -/
noncomputable def roundHE (x : ℝ) : ℤ :=
  if Int.fract x < 1/2 then ⌊x⌋
  else if 1/2 < Int.fract x then ⌊x⌋ + 1
  else if ⌊x⌋ % 2 = 0 then ⌊x⌋ else ⌊x⌋ + 1

/-- Python round(x, 4). -/
noncomputable def round4 (x : ℝ) : ℝ := (roundHE (x * 10000) : ℝ) / 10000

/-- The survival shape parameter k = max(0.5, k_base + 0.02*(score-30)). -/
noncomputable def survivalK (kBase : ℝ) (score : Int) : ℝ :=
  max 0.5 (kBase + 0.02 * ((score : ℝ) - 30))

/-- The guarded denominator 1 - exp(-k) of _predict_survival. -/
noncomputable def survivalDenom (kBase : ℝ) (score : Int) : ℝ :=
  if |1 - Real.exp (-survivalK kBase score)| < 1e-9 then 1e-9
  else 1 - Real.exp (-survivalK kBase score)

/-- One reported survival-curve value: p_30d scaled by the cumulative shape,
clamped to [0, 1] and rounded to 4 decimals. -/
noncomputable def survivalP (kBase : ℝ) (score : Int) (p30 t : ℝ) : ℝ :=
  round4 (min (max (p30 *
    ((1 - Real.exp (-(t / 30) * survivalK kBase score)) /
      survivalDenom kBase score)) 0) 1)

theorem logisticP_nonneg (alpha beta : ℝ) (score : Int) :
    0 ≤ logisticP alpha beta score := by
  unfold logisticP
  positivity

theorem logisticP_le_one (alpha beta : ℝ) (score : Int) :
    logisticP alpha beta score ≤ 1 := by
  unfold logisticP
  rw [div_le_one (by positivity)]
  have := Real.exp_pos (-(alpha + beta * score))
  linarith

theorem floor_le_roundHE (x : ℝ) : ⌊x⌋ ≤ roundHE x := by
  unfold roundHE
  split_ifs <;> omega

theorem roundHE_le_floor_add_one (x : ℝ) : roundHE x ≤ ⌊x⌋ + 1 := by
  unfold roundHE
  split_ifs <;> omega

theorem roundHE_nonneg {x : ℝ} (h : 0 ≤ x) : 0 ≤ roundHE x := by
  have h1 : (0 : ℤ) ≤ ⌊x⌋ := Int.le_floor.mpr (by exact_mod_cast h)
  have h2 := floor_le_roundHE x
  omega

theorem roundHE_le_intCast {x : ℝ} {n : ℤ} (h : x ≤ (n : ℝ)) : roundHE x ≤ n := by
  have hfl : ⌊x⌋ ≤ n := by
    have := Int.floor_le_floor h
    rwa [Int.floor_intCast] at this
  unfold roundHE
  split_ifs with h1 h2 h3
  · exact hfl
  · have hfr : 0 < Int.fract x := by linarith
    have hx : (⌊x⌋ : ℝ) < x := by
      have : Int.fract x = x - ⌊x⌋ := rfl
      linarith [this ▸ hfr]
    have : ⌊x⌋ < n := by
      by_contra hc
      push_neg at hc
      have : (n : ℝ) ≤ (⌊x⌋ : ℝ) := by exact_mod_cast hc
      linarith
    omega
  · exact hfl
  · have hfr : 0 < Int.fract x := by linarith
    have hx : (⌊x⌋ : ℝ) < x := by
      have : Int.fract x = x - ⌊x⌋ := rfl
      linarith [this ▸ hfr]
    have : ⌊x⌋ < n := by
      by_contra hc
      push_neg at hc
      have : (n : ℝ) ≤ (⌊x⌋ : ℝ) := by exact_mod_cast hc
      linarith
    omega

theorem roundHE_mono {x y : ℝ} (h : x ≤ y) : roundHE x ≤ roundHE y := by
  rcases lt_or_eq_of_le (Int.floor_le_floor h) with hf | hf
  · have h1 := roundHE_le_floor_add_one x
    have h2 := floor_le_roundHE y
    omega
  · have hfr : Int.fract x ≤ Int.fract y := by
      have hx : Int.fract x = x - ⌊x⌋ := rfl
      have hy : Int.fract y = y - ⌊y⌋ := rfl
      rw [hx, hy, ← hf]
      linarith
    unfold roundHE
    split_ifs <;> first | omega | linarith

theorem round4_nonneg {x : ℝ} (h : 0 ≤ x) : 0 ≤ round4 x := by
  unfold round4
  have h1 : (0 : ℤ) ≤ roundHE (x * 10000) := roundHE_nonneg (by linarith)
  have h2 : (0 : ℝ) ≤ (roundHE (x * 10000) : ℝ) := by exact_mod_cast h1
  linarith

theorem round4_le_one {x : ℝ} (h : x ≤ 1) : round4 x ≤ 1 := by
  unfold round4
  have h1 : roundHE (x * 10000) ≤ (10000 : ℤ) := by
    apply roundHE_le_intCast
    push_cast
    linarith
  have h2 : (roundHE (x * 10000) : ℝ) ≤ 10000 := by exact_mod_cast h1
  linarith

theorem round4_mono {x y : ℝ} (h : x ≤ y) : round4 x ≤ round4 y := by
  unfold round4
  have h1 : roundHE (x * 10000) ≤ roundHE (y * 10000) :=
    roundHE_mono (by linarith)
  have h2 : (roundHE (x * 10000) : ℝ) ≤ (roundHE (y * 10000) : ℝ) := by
    exact_mod_cast h1
  linarith

theorem survivalK_ge (kBase : ℝ) (score : Int) :
    (0.5 : ℝ) ≤ survivalK kBase score := le_max_left _ _

/-- With k ≥ 0.5 the denominator is at least 1/3, so the 1e-9 degeneracy
guard never fires. -/
theorem survivalDenom_eq (kBase : ℝ) (score : Int) :
    survivalDenom kBase score = 1 - Real.exp (-survivalK kBase score) ∧
    (1 : ℝ)/3 ≤ survivalDenom kBase score := by
  have hk := survivalK_ge kBase score
  have he : Real.exp (-survivalK kBase score) ≤ Real.exp (-(0.5 : ℝ)) :=
    Real.exp_le_exp.mpr (by linarith)
  have h32 : (3/2 : ℝ) ≤ Real.exp (0.5 : ℝ) := by
    have := Real.add_one_le_exp (0.5 : ℝ)
    linarith
  have he2 : Real.exp (-(0.5 : ℝ)) ≤ 2/3 := by
    rw [Real.exp_neg]
    have hpos : (0 : ℝ) < 3/2 := by norm_num
    calc (Real.exp (0.5 : ℝ))⁻¹ ≤ (3/2 : ℝ)⁻¹ := by
          apply inv_anti₀ hpos h32
      _ = 2/3 := by norm_num
  have hden : (1 : ℝ)/3 ≤ 1 - Real.exp (-survivalK kBase score) := by linarith
  have hguard : ¬ |1 - Real.exp (-survivalK kBase score)| < 1e-9 := by
    rw [abs_of_nonneg (by linarith)]
    push_neg
    norm_num
    linarith
  unfold survivalDenom
  rw [if_neg hguard]
  exact ⟨rfl, hden⟩

/-- The clamped (pre-rounding) survival value. -/
noncomputable def survivalClamped (kBase : ℝ) (score : Int) (p30 t : ℝ) : ℝ :=
  min (max (p30 *
    ((1 - Real.exp (-(t / 30) * survivalK kBase score)) /
      survivalDenom kBase score)) 0) 1

theorem survivalClamped_nonneg (kBase : ℝ) (score : Int) (p30 t : ℝ) :
    0 ≤ survivalClamped kBase score p30 t :=
  le_min (le_max_right _ _) zero_le_one

theorem survivalClamped_le_one (kBase : ℝ) (score : Int) (p30 t : ℝ) :
    survivalClamped kBase score p30 t ≤ 1 := min_le_right _ _

theorem survivalClamped_mono (kBase : ℝ) (score : Int) (p30 : ℝ)
    (hp : 0 ≤ p30) {t1 t2 : ℝ} (ht : t1 ≤ t2) :
    survivalClamped kBase score p30 t1 ≤ survivalClamped kBase score p30 t2 := by
  obtain ⟨hde, hdge⟩ := survivalDenom_eq kBase score
  have hk := survivalK_ge kBase score
  have hnum : 1 - Real.exp (-(t1 / 30) * survivalK kBase score) ≤
      1 - Real.exp (-(t2 / 30) * survivalK kBase score) := by
    have : -(t2 / 30) * survivalK kBase score ≤
        -(t1 / 30) * survivalK kBase score := by
      apply mul_le_mul_of_nonneg_right _ (by linarith)
      linarith
    have := Real.exp_le_exp.mpr this
    linarith
  have hdpos : 0 < survivalDenom kBase score := by linarith
  have hdiv : (1 - Real.exp (-(t1 / 30) * survivalK kBase score)) /
      survivalDenom kBase score ≤
      (1 - Real.exp (-(t2 / 30) * survivalK kBase score)) /
      survivalDenom kBase score := (div_le_div_iff_of_pos_right hdpos).mpr hnum
  unfold survivalClamped
  exact min_le_min (max_le_max (mul_le_mul_of_nonneg_left hdiv hp) le_rfl) le_rfl

/-- C3: for every calibration (alpha, beta, k_base) and composite score, the
logistic probability lies in [0, 1] (also after the 4-decimal rounding that
the engine reports), and the reported survival-curve values at horizons
7, 14, 21, 30 each lie in [0, 1] and are non-decreasing in the horizon. -/
theorem claim_C3_probability_and_survival (alpha beta kBase : ℝ) (score : Int) :
    (0 ≤ logisticP alpha beta score ∧ logisticP alpha beta score ≤ 1) ∧
    (0 ≤ round4 (logisticP alpha beta score) ∧
      round4 (logisticP alpha beta score) ≤ 1) ∧
    (∀ t : ℝ, 0 ≤ survivalP kBase score (logisticP alpha beta score) t ∧
      survivalP kBase score (logisticP alpha beta score) t ≤ 1) ∧
    (survivalP kBase score (logisticP alpha beta score) 7 ≤
      survivalP kBase score (logisticP alpha beta score) 14 ∧
     survivalP kBase score (logisticP alpha beta score) 14 ≤
      survivalP kBase score (logisticP alpha beta score) 21 ∧
     survivalP kBase score (logisticP alpha beta score) 21 ≤
      survivalP kBase score (logisticP alpha beta score) 30) := by
  have hb := logisticP_nonneg alpha beta score
  have hb1 := logisticP_le_one alpha beta score
  have hsp : ∀ t : ℝ, survivalP kBase score (logisticP alpha beta score) t =
      round4 (survivalClamped kBase score (logisticP alpha beta score) t) :=
    fun t => rfl
  refine ⟨⟨hb, hb1⟩, ⟨round4_nonneg hb, round4_le_one hb1⟩, ?_, ?_, ?_, ?_⟩
  · intro t
    rw [hsp t]
    exact ⟨round4_nonneg (survivalClamped_nonneg _ _ _ _),
      round4_le_one (survivalClamped_le_one _ _ _ _)⟩
  · rw [hsp 7, hsp 14]
    exact round4_mono (survivalClamped_mono kBase score _ hb (by norm_num))
  · rw [hsp 14, hsp 21]
    exact round4_mono (survivalClamped_mono kBase score _ hb (by norm_num))
  · rw [hsp 21, hsp 30]
    exact round4_mono (survivalClamped_mono kBase score _ hb (by norm_num))

end MedGemma
